import Mathlib

/-!
Shallow embedding of the order-fulfillment core of the repository
(src/app/routers/orders.py, src/app/routers/stocks.py, src/app/models/order.py,
src/app/models/stock.py, src/app/database.py).

Modelling conventions:
* Python ints are unbounded, so every box counter is `Int`.
* Database rows live in lists held by `DbState`.  The stocks list is kept in
  ascending `createdAt` order (new batches are appended with a strictly larger
  `createdAt` drawn from a monotone counter `tick`), so the `ORDER BY created_at ASC` query of the code is the plain filter of that list.
* `uuid4` ids, `order_ref` strings and `now()` timestamps are modelled by
  drawing fresh values from the counter `tick`.
* Each HTTP handler becomes a function `DbState → Except Err DbState`; the
  session wrapper `get_db` (commit on success, rollback on any exception) is
  the function `runOp`, which keeps the prior state on error.
-/

namespace Pavos

/-- Box counters are Python ints: unbounded signed integers. -/
abbrev Boxes := Int

/-- `OrderStatus` enum from src/app/models/order.py. -/
inductive OrderStatus where
  | placed | submitted | forwarded | approved | hold | cancelled
  | estimated | billed | counting | packing | dispatched | delivered
  deriving DecidableEq, Repr

/-- One `Stock` batch row (src/app/models/stock.py). -/
structure Stock where
  id : Nat
  tenantId : Nat
  productId : Nat
  boxesTotal : Boxes
  boxesAvailable : Boxes
  boxesReserved : Boxes
  boxesBilled : Boxes
  boxesDispatched : Boxes
  isActive : Bool
  createdAt : Nat
  deriving DecidableEq, Repr

/-- One `OrderItemAllocation` row (src/app/models/order.py); the
`order_item_id` column is implicit because allocations are nested inside
their owning item here. -/
structure OrderItemAllocation where
  stockId : Nat
  boxesAllocated : Boxes
  deriving DecidableEq, Repr

/-- One `OrderItem` row (src/app/models/order.py) with its allocations. -/
structure OrderItem where
  id : Nat
  productId : Nat
  boxesRequested : Boxes
  boxesFulfilled : Boxes
  boxesPending : Boxes
  allocations : List OrderItemAllocation
  deriving DecidableEq, Repr

/-- One `Order` row (src/app/models/order.py) with its items.  Timestamps are
ticks of the model clock; `orderRef` is the fresh value drawn for the
`ORD-…` reference string. -/
structure Order where
  id : Nat
  tenantId : Nat
  shopId : Nat
  categoryId : Nat
  placedBy : Nat
  parentOrderId : Option Nat
  status : OrderStatus
  orderRef : Nat
  items : List OrderItem
  submittedAt : Option Nat
  forwardedAt : Option Nat
  approvedAt : Option Nat
  estimatedAt : Option Nat
  billedAt : Option Nat
  dispatchedAt : Option Nat
  deliveredAt : Option Nat
  deriving DecidableEq, Repr

/-- The persistent state: all stock batches (in `created_at` order), all
orders, and the fresh-value counter. -/
structure DbState where
  stocks : List Stock
  orders : List Order
  tick : Nat
  deriving DecidableEq, Repr

/-- Error kinds raised by the handlers (`AppException` error codes). -/
inductive Err where
  | notFound
  | invalidStatus
  | insufficientStock (productId : Nat)
  | stockInUse
  deriving DecidableEq, Repr

/-- The empty database. -/
def initState : DbState := { stocks := [], orders := [], tick := 0 }

/-- `_load_order`: look an order up by id. -/
def orderById (s : DbState) (oid : Nat) : Option Order :=
  s.orders.find? (fun o => o.id == oid)

/-- Look a stock batch up by id (`select(Stock).where(Stock.id == …)`). -/
def stockById (s : DbState) (sid : Nat) : Option Stock :=
  s.stocks.find? (fun b => b.id == sid)

/-- Replace the order with id `oid` by `f` of it and advance the clock. -/
def updateOrder (s : DbState) (oid : Nat) (f : Order → Order) : DbState :=
  { s with orders := s.orders.map (fun o => if o.id = oid then f o else o),
           tick := s.tick + 1 }

/-- The `WHERE` clause of the stock query used by estimate and bill:
same tenant, same product, `boxes_available > 0`, `is_active`. -/
def isCandidate (tenantId productId : Nat) (b : Stock) : Bool :=
  b.tenantId == tenantId && b.productId == productId &&
    decide (0 < b.boxesAvailable) && b.isActive

/-- The candidate batches of estimate/bill, in FIFO (`created_at` ascending)
order: the stocks list is maintained in that order, so the query is its
filter. -/
def candidateBatches (stocks : List Stock) (tenantId productId : Nat) :
    List Stock :=
  stocks.filter (isCandidate tenantId productId)

/-- `total_available` of the estimate transition. -/
def totalAvailable (stocks : List Stock) (tenantId productId : Nat) : Boxes :=
  ((candidateBatches stocks tenantId productId).map Stock.boxesAvailable).sum

/-- `add_stock` (src/app/routers/stocks.py): a new batch enters with
`boxes_available = boxes_total` and every other counter zero. -/
def addStock (tenantId productId : Nat) (boxesTotal : Boxes) (s : DbState) :
    DbState :=
  { s with
      stocks := s.stocks ++
        [{ id := s.tick, tenantId, productId, boxesTotal,
           boxesAvailable := boxesTotal, boxesReserved := 0,
           boxesBilled := 0, boxesDispatched := 0,
           isActive := true, createdAt := s.tick }],
      tick := s.tick + 1 }

/-- `delete_stock` (src/app/routers/stocks.py): refuse while
`boxes_reserved > 0 or boxes_billed > 0`, else remove the row. -/
def deleteStock (sid : Nat) (s : DbState) : Except Err DbState :=
  match stockById s sid with
  | none => .error .notFound
  | some b =>
    if 0 < b.boxesReserved ∨ 0 < b.boxesBilled then .error .stockInUse
    else .ok { s with stocks := s.stocks.filter (fun c => c.id ≠ sid) }

/-- One line of an order-create payload. -/
structure OrderItemCreate where
  productId : Nat
  boxesRequested : Boxes
  deriving DecidableEq, Repr

/-- `create_order`: a new order in `PLACED` status whose items carry
`boxes_fulfilled = boxes_pending = 0`.  (The catalog check against
category/tenant is an external collaborator and not modelled.) -/
def createOrder (tenantId shopId categoryId placedBy : Nat)
    (items : List OrderItemCreate) (s : DbState) : DbState :=
  let oid := s.tick
  let newItems := items.enum.map (fun p =>
    { id := s.tick + 1 + p.1, productId := p.2.productId,
      boxesRequested := p.2.boxesRequested,
      boxesFulfilled := 0, boxesPending := 0, allocations := [] })
  { s with
      orders := s.orders ++
        [{ id := oid, tenantId, shopId, categoryId, placedBy,
           parentOrderId := none, status := .placed, orderRef := oid,
           items := newItems,
           submittedAt := none, forwardedAt := none, approvedAt := none,
           estimatedAt := none, billedAt := none, dispatchedAt := none,
           deliveredAt := none }],
      tick := s.tick + 1 + items.length }

/-- `submit_order`: PLACED → SUBMITTED. -/
def submitOrder (oid : Nat) (s : DbState) : Except Err DbState :=
  match orderById s oid with
  | none => .error .notFound
  | some o =>
    if o.status = .placed then
      .ok (updateOrder s oid (fun p =>
        { p with status := .submitted, submittedAt := some s.tick }))
    else .error .invalidStatus

/-- `forward_order`: SUBMITTED → FORWARDED. -/
def forwardOrder (oid : Nat) (s : DbState) : Except Err DbState :=
  match orderById s oid with
  | none => .error .notFound
  | some o =>
    if o.status = .submitted then
      .ok (updateOrder s oid (fun p =>
        { p with status := .forwarded, forwardedAt := some s.tick }))
    else .error .invalidStatus

/-- `approve_order`: FORWARDED → APPROVED. -/
def approveOrder (oid : Nat) (s : DbState) : Except Err DbState :=
  match orderById s oid with
  | none => .error .notFound
  | some o =>
    if o.status = .forwarded then
      .ok (updateOrder s oid (fun p =>
        { p with status := .approved, approvedAt := some s.tick }))
    else .error .invalidStatus

/-- `hold_order`: FORWARDED → HOLD (no timestamp column for HOLD). -/
def holdOrder (oid : Nat) (s : DbState) : Except Err DbState :=
  match orderById s oid with
  | none => .error .notFound
  | some o =>
    if o.status = .forwarded then
      .ok (updateOrder s oid (fun p => { p with status := .hold }))
    else .error .invalidStatus

/-- `cancel_order`: FORWARDED/HOLD → CANCELLED. -/
def cancelOrder (oid : Nat) (s : DbState) : Except Err DbState :=
  match orderById s oid with
  | none => .error .notFound
  | some o =>
    if o.status = .forwarded ∨ o.status = .hold then
      .ok (updateOrder s oid (fun p => { p with status := .cancelled }))
    else .error .invalidStatus

/-- `mark_counting`: BILLED → COUNTING. -/
def markCounting (oid : Nat) (s : DbState) : Except Err DbState :=
  match orderById s oid with
  | none => .error .notFound
  | some o =>
    if o.status = .billed then
      .ok (updateOrder s oid (fun p => { p with status := .counting }))
    else .error .invalidStatus

/-- `mark_packing`: COUNTING → PACKING. -/
def markPacking (oid : Nat) (s : DbState) : Except Err DbState :=
  match orderById s oid with
  | none => .error .notFound
  | some o =>
    if o.status = .counting then
      .ok (updateOrder s oid (fun p => { p with status := .packing }))
    else .error .invalidStatus

/-- The per-item body of the estimate loop (orders.py lines 316-346): compute
`total_available`, set `boxes_fulfilled`/`boxes_pending` by the three-way
comparison and, in the two shortfall branches, emit the
`(product_id, boxes_pending)` entry appended to `child_items`. -/
def estimateItem (stocks : List Stock) (tenantId : Nat) (item : OrderItem) :
    OrderItem × Option (Nat × Boxes) :=
  let ta := totalAvailable stocks tenantId item.productId
  if item.boxesRequested ≤ ta then
    ({ item with boxesFulfilled := item.boxesRequested, boxesPending := 0 },
     none)
  else if 0 < ta then
    ({ item with boxesFulfilled := ta,
                 boxesPending := item.boxesRequested - ta },
     some (item.productId, item.boxesRequested - ta))
  else
    ({ item with boxesFulfilled := 0, boxesPending := item.boxesRequested },
     some (item.productId, item.boxesRequested))

/-- The child order built by estimate (orders.py lines 354-380): same
tenant/shop/category/requester, `parent_order_id` set, fresh ref, created
directly in ESTIMATED with `estimated_at` stamped, one item per
`child_items` entry with `boxes_requested = boxes_fulfilled = ci.2` and
`boxes_pending = 0`. -/
def mkChildOrder (parent : Order) (childItems : List (Nat × Boxes))
    (tick : Nat) : Order :=
  { id := tick, tenantId := parent.tenantId, shopId := parent.shopId,
    categoryId := parent.categoryId, placedBy := parent.placedBy,
    parentOrderId := some parent.id, status := .estimated, orderRef := tick,
    items := childItems.enum.map (fun p =>
      { id := tick + 1 + p.1, productId := p.2.1,
        boxesRequested := p.2.2, boxesFulfilled := p.2.2,
        boxesPending := 0, allocations := [] }),
    submittedAt := none, forwardedAt := none, approvedAt := none,
    estimatedAt := some tick, billedAt := none, dispatchedAt := none,
    deliveredAt := none }

/-- The successful body of `estimate_order` (orders.py lines 314-381): apply
the per-item decision, stamp the parent, and append the split child order
when any `child_items` entry was produced. -/
def estimateBody (s : DbState) (oid : Nat) (o : Order) : DbState :=
  let est := o.items.map (estimateItem s.stocks o.tenantId)
  let items' := est.map Prod.fst
  let childItems := est.filterMap Prod.snd
  let parentDone := s.orders.map (fun p =>
    if p.id = oid then
      { p with status := .estimated, estimatedAt := some s.tick,
               items := items' }
    else p)
  if childItems.isEmpty then
    { s with orders := parentDone, tick := s.tick + 1 }
  else
    { s with
        orders := parentDone ++ [mkChildOrder o childItems (s.tick + 1)],
        tick := s.tick + 2 + childItems.length }

/-- `estimate_order`: APPROVED → ESTIMATED with the availability check and
the auto-split child order. -/
def estimateOrder (oid : Nat) (s : DbState) : Except Err DbState :=
  match orderById s oid with
  | none => .error .notFound
  | some o =>
    if o.status = .approved then .ok (estimateBody s oid o)
    else .error .invalidStatus

/-- The WHERE clause of the per-item stock query of `bill_order`
(orders.py lines 414-423) as the database evaluates it: the session is
`autoflush = False` (database.py line 28) and `bill_order` flushes nothing
before line 450, so `boxes_available > 0` is tested against the committed
value from the start of the transition — carried here as the second
component `pr.2` of each pair — while the identity map hands back the
already-mutated live row `pr.1` (tenant, product and `is_active` are never
mutated in flight, so testing them on the live row is equivalent). -/
def isCandidateSnap (tenantId productId : Nat) (pr : Stock × Boxes) : Bool :=
  pr.1.tenantId == tenantId && pr.1.productId == productId &&
    decide (0 < pr.2) && pr.1.isActive

/-- Total live availability of the batches the snapshot filter selects. -/
def pairsAvailable (tenantId productId : Nat) (l : List (Stock × Boxes)) :
    Boxes :=
  ((l.filter (isCandidateSnap tenantId productId)).map
    (fun pr => pr.1.boxesAvailable)).sum

/-- The batch walk of the bill loop (orders.py lines 426-437) rendered as a
single pass over the paired list `(live row, snapshot availability)`: the
query's result set is the sublist whose snapshot availability passes the
filter, in `created_at` (list) order, and each selected batch is processed
while `boxes_needed > 0` — `allocate = min(live boxes_available,
boxes_needed)` is moved from available to reserved and one allocation row
is recorded per walked batch, also when `allocate = 0` (the code never
skips a zero allocation).  Returns the updated pairs, the
`OrderItemAllocation` rows added (in walk order), and the final
`boxes_needed`. -/
def billWalk (tenantId productId : Nat) (needed : Boxes) :
    List (Stock × Boxes) →
      List (Stock × Boxes) × List OrderItemAllocation × Boxes
  | [] => ([], [], needed)
  | (b, sa) :: rest =>
    if needed ≤ 0 then ((b, sa) :: rest, [], needed)
    else if isCandidateSnap tenantId productId (b, sa) then
      let a := min b.boxesAvailable needed
      let walked := billWalk tenantId productId (needed - a) rest
      (({ b with boxesAvailable := b.boxesAvailable - a,
                 boxesReserved := b.boxesReserved + a }, sa) :: walked.1,
       ⟨b.id, a⟩ :: walked.2.1, walked.2.2)
    else
      let walked := billWalk tenantId productId needed rest
      ((b, sa) :: walked.1, walked.2.1, walked.2.2)

/-- The item loop of `bill_order` (orders.py lines 408-444): items with
`boxes_fulfilled == 0` are skipped; otherwise the batch walk runs against
the live rows paired with their unchanged snapshot availabilities, and a
leftover `boxes_needed > 0` raises `INSUFFICIENT_STOCK` naming the product
of the item. -/
def billItems (tenantId : Nat) :
    List (Stock × Boxes) → List OrderItem →
      Except Err (List (Stock × Boxes) × List OrderItem)
  | pairs, [] => .ok (pairs, [])
  | pairs, item :: rest =>
    if item.boxesFulfilled = 0 then
      match billItems tenantId pairs rest with
      | .error e => .error e
      | .ok (pairs', rest') => .ok (pairs', item :: rest')
    else
      let walked := billWalk tenantId item.productId item.boxesFulfilled pairs
      if 0 < walked.2.2 then .error (.insufficientStock item.productId)
      else
        match billItems tenantId walked.1 rest with
        | .error e => .error e
        | .ok (pairs', rest') =>
          .ok (pairs',
               { item with allocations := item.allocations ++ walked.2.1 }
                 :: rest')

/-- `bill_order`: ESTIMATED → BILLED with FIFO stock reservation.  Each
live batch enters the loop paired with its committed availability, which
no in-transition mutation changes (nothing is flushed before orders.py
line 450). -/
def billOrder (oid : Nat) (s : DbState) : Except Err DbState :=
  match orderById s oid with
  | none => .error .notFound
  | some o =>
    if o.status = .estimated then
      match billItems o.tenantId
          (s.stocks.map (fun b => (b, b.boxesAvailable))) o.items with
      | .error e => .error e
      | .ok (pairs', items') =>
        .ok { s with
                stocks := pairs'.map Prod.fst,
                orders := s.orders.map (fun p =>
                  if p.id = oid then
                    { p with status := .billed, billedAt := some s.tick,
                             items := items' }
                  else p),
                tick := s.tick + 1 }
    else .error .invalidStatus

/-- All allocation rows of an order, items in order. -/
def orderAllocs (o : Order) : List OrderItemAllocation :=
  (o.items.map OrderItem.allocations).flatten

/-- Total boxes allocated to stock batch `sid` among `allocs`. -/
def allocAmtFor (allocs : List OrderItemAllocation) (sid : Nat) : Boxes :=
  ((allocs.filter (fun a => a.stockId == sid)).map
    OrderItemAllocation.boxesAllocated).sum

/-- One step of the dispatch loop (orders.py lines 521-526): look the batch
up by the `stock_id` of the allocation and, if it exists, move the allocated
amount from `boxes_reserved` to `boxes_dispatched`. -/
def applyDispatchAlloc (stocks : List Stock) (a : OrderItemAllocation) :
    List Stock :=
  stocks.map (fun b =>
    if b.id = a.stockId then
      { b with boxesReserved := b.boxesReserved - a.boxesAllocated,
               boxesDispatched := b.boxesDispatched + a.boxesAllocated }
    else b)

/-- One step of the deliver loop (orders.py lines 554-559): remove the
allocated amount from both `boxes_dispatched` and `boxes_total`. -/
def applyDeliverAlloc (stocks : List Stock) (a : OrderItemAllocation) :
    List Stock :=
  stocks.map (fun b =>
    if b.id = a.stockId then
      { b with boxesDispatched := b.boxesDispatched - a.boxesAllocated,
               boxesTotal := b.boxesTotal - a.boxesAllocated }
    else b)

/-- `dispatch_order`: PACKING → DISPATCHED; reservations become in transit. -/
def dispatchOrder (oid : Nat) (s : DbState) : Except Err DbState :=
  match orderById s oid with
  | none => .error .notFound
  | some o =>
    if o.status = .packing then
      .ok { s with
              stocks := (orderAllocs o).foldl applyDispatchAlloc s.stocks,
              orders := s.orders.map (fun p =>
                if p.id = oid then
                  { p with status := .dispatched,
                           dispatchedAt := some s.tick }
                else p),
              tick := s.tick + 1 }
    else .error .invalidStatus

/-- `deliver_order`: DISPATCHED → DELIVERED; the only place `boxes_total`
shrinks. -/
def deliverOrder (oid : Nat) (s : DbState) : Except Err DbState :=
  match orderById s oid with
  | none => .error .notFound
  | some o =>
    if o.status = .dispatched then
      .ok { s with
              stocks := (orderAllocs o).foldl applyDeliverAlloc s.stocks,
              orders := s.orders.map (fun p =>
                if p.id = oid then
                  { p with status := .delivered,
                           deliveredAt := some s.tick }
                else p),
              tick := s.tick + 1 }
    else .error .invalidStatus

/-- The operations of the core, as invoked through the HTTP layer. -/
inductive Op where
  | addStock (tenantId productId : Nat) (boxesTotal : Boxes)
  | deleteStock (sid : Nat)
  | createOrder (tenantId shopId categoryId placedBy : Nat)
      (items : List OrderItemCreate)
  | submit (oid : Nat)
  | forward (oid : Nat)
  | approve (oid : Nat)
  | hold (oid : Nat)
  | cancel (oid : Nat)
  | estimate (oid : Nat)
  | bill (oid : Nat)
  | counting (oid : Nat)
  | packing (oid : Nat)
  | dispatch (oid : Nat)
  | deliver (oid : Nat)
  deriving DecidableEq, Repr

/-- Dispatch an operation to its handler. -/
def applyOp : Op → DbState → Except Err DbState
  | .addStock t p n, s => .ok (addStock t p n s)
  | .deleteStock sid, s => deleteStock sid s
  | .createOrder t sh c u items, s => .ok (createOrder t sh c u items s)
  | .submit oid, s => submitOrder oid s
  | .forward oid, s => forwardOrder oid s
  | .approve oid, s => approveOrder oid s
  | .hold oid, s => holdOrder oid s
  | .cancel oid, s => cancelOrder oid s
  | .estimate oid, s => estimateOrder oid s
  | .bill oid, s => billOrder oid s
  | .counting oid, s => markCounting oid s
  | .packing oid, s => markPacking oid s
  | .dispatch oid, s => dispatchOrder oid s
  | .deliver oid, s => deliverOrder oid s

/-- The session wrapper `get_db` (src/app/database.py lines 46-55): the
unit of work of a request commits on success and rolls back wholesale on any
exception, so a failed handler leaves the committed state untouched. -/
def runOp (s : DbState) (op : Op) : DbState :=
  match applyOp op s with
  | .ok s' => s'
  | .error _ => s

/-- The committed state after a sequence of requests against an empty
database. -/
def execTrace (ops : List Op) : DbState :=
  ops.foldl runOp initState

/-! ### Ghost definitions used by the invariants -/

/-- Statuses whose orders hold live reservations: billed at some point and
not yet dispatched. -/
def reservedStatus : OrderStatus → Bool
  | .billed | .counting | .packing => true
  | _ => false

/-- Statuses reached before any allocation row can exist. -/
def preBilledStatus : OrderStatus → Bool
  | .placed | .submitted | .forwarded | .approved
  | .hold | .cancelled | .estimated => true
  | _ => false

/-- Statuses at or after a successful estimate transition. -/
def postEstimateStatus : OrderStatus → Bool
  | .estimated | .billed | .counting | .packing
  | .dispatched | .delivered => true
  | _ => false

/-- Boxes an order contributes to the counter of batch `sid` while its
status satisfies `pred`. -/
def orderContrib (pred : OrderStatus → Bool) (sid : Nat) (o : Order) :
    Boxes :=
  if pred o.status then allocAmtFor (orderAllocs o) sid else 0

/-- Total contribution of all orders in statuses satisfying `pred` to batch
`sid`. -/
def statusContrib (pred : OrderStatus → Bool) (orders : List Order)
    (sid : Nat) : Boxes :=
  (orders.map (orderContrib pred sid)).sum

/-- Well-formedness and ledger invariant of a database state.  The counter
equations tie each batch counter to the orders allocated against it; they
are what make the per-batch inequalities survive dispatch and deliver. -/
def Inv (s : DbState) : Prop :=
  ((s.stocks.map Stock.id).Nodup) ∧
  (∀ b ∈ s.stocks, b.id < s.tick ∧ b.createdAt < s.tick) ∧
  (s.stocks.Pairwise (fun a b => a.createdAt < b.createdAt)) ∧
  ((s.orders.map Order.id).Nodup) ∧
  (∀ o ∈ s.orders, o.id < s.tick ∧ o.orderRef < s.tick) ∧
  (∀ o ∈ s.orders, ∀ i ∈ o.items, ∀ a ∈ i.allocations,
    0 ≤ a.boxesAllocated ∧ a.stockId < s.tick) ∧
  (∀ o ∈ s.orders, preBilledStatus o.status = true →
    ∀ i ∈ o.items, i.allocations = []) ∧
  (∀ b ∈ s.stocks, b.boxesReserved = statusContrib reservedStatus s.orders b.id) ∧
  (∀ b ∈ s.stocks, b.boxesDispatched =
    statusContrib (· == .dispatched) s.orders b.id) ∧
  (∀ b ∈ s.stocks, b.boxesBilled = 0) ∧
  (∀ b ∈ s.stocks,
    b.boxesAvailable + b.boxesReserved + b.boxesDispatched ≤ b.boxesTotal) ∧
  (∀ o ∈ s.orders, postEstimateStatus o.status = true →
    ∀ i ∈ o.items, i.boxesFulfilled + i.boxesPending = i.boxesRequested)

/-- An operation whose payload is sane: `add_stock` carries a non-negative
`boxes_total`.  (The code never validates this; see the stock invariant
claims.) -/
def goodOp : Op → Prop
  | .addStock _ _ n => 0 ≤ n
  | _ => True

/-- The non-negativity of `boxes_available`; kept apart from `Inv` because
it alone hinges on `add_stock` payloads being non-negative. -/
def AvailNonneg (s : DbState) : Prop :=
  ∀ b ∈ s.stocks, 0 ≤ b.boxesAvailable

/-- The eleven status transitions of the state machine. -/
inductive TKind where
  | submit | forward | approve | hold | cancel | estimate | bill
  | counting | packing | dispatch | deliver
  deriving DecidableEq, Repr

/-- The source statuses each transition demands, read off the guards of the
handlers. -/
def requiredSources : TKind → List OrderStatus
  | .submit => [.placed]
  | .forward => [.submitted]
  | .approve => [.forwarded]
  | .hold => [.forwarded]
  | .cancel => [.forwarded, .hold]
  | .estimate => [.approved]
  | .bill => [.estimated]
  | .counting => [.billed]
  | .packing => [.counting]
  | .dispatch => [.packing]
  | .deliver => [.dispatched]

/-- The status a successful transition writes. -/
def targetStatus : TKind → OrderStatus
  | .submit => .submitted
  | .forward => .forwarded
  | .approve => .approved
  | .hold => .hold
  | .cancel => .cancelled
  | .estimate => .estimated
  | .bill => .billed
  | .counting => .counting
  | .packing => .packing
  | .dispatch => .dispatched
  | .deliver => .delivered

/-- Route a transition kind to its handler. -/
def applyTransition : TKind → Nat → DbState → Except Err DbState
  | .submit, oid, s => submitOrder oid s
  | .forward, oid, s => forwardOrder oid s
  | .approve, oid, s => approveOrder oid s
  | .hold, oid, s => holdOrder oid s
  | .cancel, oid, s => cancelOrder oid s
  | .estimate, oid, s => estimateOrder oid s
  | .bill, oid, s => billOrder oid s
  | .counting, oid, s => markCounting oid s
  | .packing, oid, s => markPacking oid s
  | .dispatch, oid, s => dispatchOrder oid s
  | .deliver, oid, s => deliverOrder oid s

/-- The transition to `Op` embedding. -/
def opOfTransition : TKind → Nat → Op
  | .submit, oid => .submit oid
  | .forward, oid => .forward oid
  | .approve, oid => .approve oid
  | .hold, oid => .hold oid
  | .cancel, oid => .cancel oid
  | .estimate, oid => .estimate oid
  | .bill, oid => .bill oid
  | .counting, oid => .counting oid
  | .packing, oid => .packing oid
  | .dispatch, oid => .dispatch oid
  | .deliver, oid => .deliver oid

/-- The `boxes_requested` of item `iid` of order `oid` in an orders list,
when both exist. -/
def itemReqL (orders : List Order) (oid iid : Nat) : Option Boxes :=
  (orders.find? (fun o => o.id == oid)).bind (fun o =>
    (o.items.find? (fun i => i.id == iid)).map OrderItem.boxesRequested)

/-- The `boxes_requested` of item `iid` of order `oid`, when both exist. -/
def itemReq (s : DbState) (oid iid : Nat) : Option Boxes :=
  itemReqL s.orders oid iid

/-- Total allocation to batch `sid` across a list of items. -/
def itemsAllocAmt (items : List OrderItem) (sid : Nat) : Boxes :=
  allocAmtFor ((items.map OrderItem.allocations).flatten) sid

/-- Ghost helper: the counter movement bill applies to one batch. -/
def reserveTransfer (b : Stock) (a : Boxes) : Stock :=
  { b with boxesAvailable := b.boxesAvailable - a,
           boxesReserved := b.boxesReserved + a }

/-- Ghost helper: the counter movement dispatch applies to one batch. -/
def dispatchTransfer (b : Stock) (a : Boxes) : Stock :=
  { b with boxesReserved := b.boxesReserved - a,
           boxesDispatched := b.boxesDispatched + a }

/-- Ghost helper: the counter movement deliver applies to one batch. -/
def deliverTransfer (b : Stock) (a : Boxes) : Stock :=
  { b with boxesDispatched := b.boxesDispatched - a,
           boxesTotal := b.boxesTotal - a }

/-! ### Helper lemmas about the ghost sums -/

theorem allocAmtFor_nil (sid : Nat) : allocAmtFor [] sid = 0 := rfl

theorem allocAmtFor_cons (a : OrderItemAllocation)
    (l : List OrderItemAllocation) (sid : Nat) :
    allocAmtFor (a :: l) sid =
      (if a.stockId = sid then a.boxesAllocated else 0) + allocAmtFor l sid := by
  by_cases h : a.stockId = sid <;>
    simp [allocAmtFor, List.filter_cons, h]

theorem allocAmtFor_append (l₁ l₂ : List OrderItemAllocation) (sid : Nat) :
    allocAmtFor (l₁ ++ l₂) sid = allocAmtFor l₁ sid + allocAmtFor l₂ sid := by
  simp [allocAmtFor, List.filter_append]

theorem allocAmtFor_eq_zero {l : List OrderItemAllocation} {sid : Nat}
    (h : ∀ a ∈ l, a.stockId ≠ sid) : allocAmtFor l sid = 0 := by
  induction l with
  | nil => rfl
  | cons a l ih =>
    rw [allocAmtFor_cons, if_neg (h a (by simp)), ih (fun x hx => h x (by simp [hx]))]
    ring

theorem allocAmtFor_nonneg {l : List OrderItemAllocation} {sid : Nat}
    (h : ∀ a ∈ l, 0 ≤ a.boxesAllocated) : 0 ≤ allocAmtFor l sid := by
  induction l with
  | nil => simp [allocAmtFor_nil]
  | cons a l ih =>
    rw [allocAmtFor_cons]
    have h₁ := h a (by simp)
    have h₂ := ih (fun x hx => h x (by simp [hx]))
    by_cases hc : a.stockId = sid
    · rw [if_pos hc]; exact add_nonneg h₁ h₂
    · rw [if_neg hc]; exact add_nonneg le_rfl h₂

theorem statusContrib_nil (pred : OrderStatus → Bool) (sid : Nat) :
    statusContrib pred [] sid = 0 := rfl

theorem statusContrib_cons (pred : OrderStatus → Bool) (o : Order)
    (l : List Order) (sid : Nat) :
    statusContrib pred (o :: l) sid =
      orderContrib pred sid o + statusContrib pred l sid := by
  simp [statusContrib]

theorem statusContrib_append (pred : OrderStatus → Bool) (l₁ l₂ : List Order)
    (sid : Nat) :
    statusContrib pred (l₁ ++ l₂) sid =
      statusContrib pred l₁ sid + statusContrib pred l₂ sid := by
  simp [statusContrib]

theorem statusContrib_nonneg {pred : OrderStatus → Bool} {l : List Order}
    {sid : Nat}
    (h : ∀ o ∈ l, ∀ i ∈ o.items, ∀ a ∈ i.allocations, 0 ≤ a.boxesAllocated) :
    0 ≤ statusContrib pred l sid := by
  induction l with
  | nil => simp [statusContrib_nil]
  | cons o l ih =>
    rw [statusContrib_cons]
    have h₁ : 0 ≤ orderContrib pred sid o := by
      unfold orderContrib
      split
      · refine allocAmtFor_nonneg (fun a ha => ?_)
        simp only [orderAllocs, List.mem_flatten, List.mem_map] at ha
        obtain ⟨_, ⟨i, hi, rfl⟩, hmem⟩ := ha
        exact h o (by simp) i hi a hmem
      · exact le_refl 0
    have h₂ := ih (fun x hx => h x (by simp [hx]))
    exact add_nonneg h₁ h₂

/-! ### List-shape helpers -/

/-- `find?` by id splits the list around the first hit; with distinct ids
nothing after the hit matches either. -/
theorem find?_id_decomp {l : List Order} {oid : Nat} {o : Order}
    (hfind : l.find? (fun x => x.id == oid) = some o) :
    o.id = oid ∧ ∃ l₁ l₂, l = l₁ ++ o :: l₂ ∧ ∀ x ∈ l₁, x.id ≠ oid := by
  induction l with
  | nil => simp at hfind
  | cons y l ih =>
    rw [List.find?_cons] at hfind
    by_cases hy : y.id = oid
    · have hyb : (y.id == oid) = true := by simp [hy]
      rw [hyb] at hfind
      cases hfind
      exact ⟨hy, [], l, by simp⟩
    · have hyb : (y.id == oid) = false := by simp [hy]
      rw [hyb] at hfind
      obtain ⟨ho, l₁, l₂, hl, hl₁⟩ := ih hfind
      refine ⟨ho, y :: l₁, l₂, by simp [hl], ?_⟩
      intro x hx
      rcases List.mem_cons.mp hx with rfl | hx
      · exact hy
      · exact hl₁ x hx

theorem nodup_decomp_right {l₁ l₂ : List Order} {o : Order}
    (hnd : (((l₁ ++ o :: l₂).map Order.id)).Nodup) :
    ∀ x ∈ l₂, x.id ≠ o.id := by
  intro x hx he
  have : o.id ∈ (l₂.map Order.id) := he ▸ List.mem_map_of_mem _ hx
  have hnd₂ : ((o :: l₂).map Order.id).Nodup :=
    ((List.map_append _ _ _) ▸ hnd).of_append_right
  simp only [List.map_cons, List.nodup_cons] at hnd₂
  exact hnd₂.1 this

/-- Mapping an id-respecting per-order update over a decomposed list touches
only the hit. -/
theorem map_update_decomp {l₁ l₂ : List Order} {o : Order} {oid : Nat}
    (g : Order → Order)
    (h₁ : ∀ x ∈ l₁, x.id ≠ oid) (h₂ : ∀ x ∈ l₂, x.id ≠ oid)
    (ho : o.id = oid) :
    (l₁ ++ o :: l₂).map (fun p => if p.id = oid then g p else p) =
      l₁ ++ g o :: l₂ := by
  rw [List.map_append, List.map_cons, if_pos ho]
  congr 1
  · have : (l₁.map (fun p => if p.id = oid then g p else p)) = l₁.map id :=
      List.map_congr_left (fun x hx => by rw [if_neg (h₁ x hx)]; rfl)
    rw [this, List.map_id]
  · congr 1
    have : (l₂.map (fun p => if p.id = oid then g p else p)) = l₂.map id :=
      List.map_congr_left (fun x hx => by rw [if_neg (h₂ x hx)]; rfl)
    rw [this, List.map_id]

theorem forall₂_mem_right {α β : Type _} {R : α → β → Prop} {l : List α}
    {l' : List β} (h : List.Forall₂ R l l') :
    ∀ b ∈ l', ∃ a ∈ l, R a b := by
  induction h with
  | nil => simp
  | cons hR _ ih =>
    intro b hb
    rcases List.mem_cons.mp hb with rfl | hb
    · exact ⟨_, by simp, hR⟩
    · obtain ⟨a, ha, hab⟩ := ih b hb
      exact ⟨a, by simp [ha], hab⟩

theorem forall₂_mem_left {α β : Type _} {R : α → β → Prop} {l : List α}
    {l' : List β} (h : List.Forall₂ R l l') :
    ∀ a ∈ l, ∃ b ∈ l', R a b := by
  induction h with
  | nil => simp
  | cons hR _ ih =>
    intro a ha
    rcases List.mem_cons.mp ha with rfl | ha
    · exact ⟨_, by simp, hR⟩
    · obtain ⟨b, hb, hab⟩ := ih a ha
      exact ⟨b, by simp [hb], hab⟩

theorem forall₂_and {α β : Type _} {R S : α → β → Prop} {l : List α}
    {l' : List β} (h₁ : List.Forall₂ R l l') (h₂ : List.Forall₂ S l l') :
    List.Forall₂ (fun a b => R a b ∧ S a b) l l' := by
  induction h₁ with
  | nil => exact List.Forall₂.nil
  | cons hR hrest ih =>
    cases h₂ with
    | cons hS hrest₂ => exact List.Forall₂.cons ⟨hR, hS⟩ (ih hrest₂)

theorem forall₂_compose {α β γ : Type _} {R : α → β → Prop}
    {S : β → γ → Prop} {l₁ : List α} {l₂ : List β} {l₃ : List γ}
    (h₁ : List.Forall₂ R l₁ l₂) (h₂ : List.Forall₂ S l₂ l₃) :
    List.Forall₂ (fun a c => ∃ b, R a b ∧ S b c) l₁ l₃ := by
  induction h₁ generalizing l₃ with
  | nil => cases h₂; exact List.Forall₂.nil
  | cons hR hrest ih =>
    cases h₂ with
    | cons hS hrest₂ =>
      exact List.Forall₂.cons ⟨_, hR, hS⟩ (ih hrest₂)

theorem forall₂_imp_mem {α β : Type _} {R S : α → β → Prop} {l : List α}
    {l' : List β} (h : List.Forall₂ R l l')
    (himp : ∀ a ∈ l, ∀ b ∈ l', R a b → S a b) : List.Forall₂ S l l' := by
  induction h with
  | nil => exact List.Forall₂.nil
  | cons hR hrest ih =>
    refine List.Forall₂.cons (himp _ (by simp) _ (by simp) hR) ?_
    exact ih (fun a ha b hb hab => himp a (by simp [ha]) b (by simp [hb]) hab)

theorem forall₂_map_eq {l l' : List Stock}
    (h : List.Forall₂ (fun b b' => ∃ a, b' = reserveTransfer b a) l l') :
    l'.map Stock.id = l.map Stock.id ∧
      l'.map Stock.createdAt = l.map Stock.createdAt := by
  induction h with
  | nil => simp
  | cons hR hrest ih =>
    obtain ⟨a, rfl⟩ := hR
    simp [reserveTransfer, ih.1, ih.2]

/-! ### Facts about the bill batch walk -/

theorem reserveTransfer_zero (b : Stock) : reserveTransfer b 0 = b := by
  cases b; simp [reserveTransfer]

theorem isCandidateSnap_self (t p : Nat) (b : Stock) :
    isCandidateSnap t p (b, b.boxesAvailable) = isCandidate t p b := rfl

theorem forall₂_pair_map_eq {l l' : List (Stock × Boxes)}
    (h : List.Forall₂ (fun pr pr' => ∃ a,
      pr' = (reserveTransfer pr.1 a, pr.2)) l l') :
    l'.map (fun pr => pr.1.id) = l.map (fun pr => pr.1.id) ∧
      l'.map (fun pr => pr.1.createdAt) =
        l.map (fun pr => pr.1.createdAt) := by
  induction h with
  | nil => simp
  | cons hR hrest ih =>
    obtain ⟨a, rfl⟩ := hR
    simp [reserveTransfer, ih.1, ih.2]

theorem billWalk_nonpos (t p : Nat) {n : Boxes} (hn : n ≤ 0)
    (l : List (Stock × Boxes)) : billWalk t p n l = (l, [], n) := by
  cases l with
  | nil => rfl
  | cons pr rest =>
    obtain ⟨b, sa⟩ := pr
    rw [billWalk, if_pos hn]

theorem billWalk_allocs_spec (t p : Nat) :
    ∀ (l : List (Stock × Boxes)) (n : Boxes),
      ∀ al ∈ (billWalk t p n l).2.1,
      ∃ pr ∈ l, pr.1.id = al.stockId ∧ isCandidateSnap t p pr = true ∧
        al.boxesAllocated ≤ pr.1.boxesAvailable ∧
        (0 ≤ pr.1.boxesAvailable → 0 ≤ al.boxesAllocated) ∧
        (al.boxesAllocated = 0 → pr.1.boxesAvailable ≤ 0) := by
  intro l
  induction l with
  | nil => intro n al hal; simp [billWalk] at hal
  | cons pr rest ih =>
    obtain ⟨b, sa⟩ := pr
    intro n al hal
    rw [billWalk] at hal
    by_cases hn : n ≤ 0
    · rw [if_pos hn] at hal; simp at hal
    · rw [if_neg hn] at hal
      by_cases hc : isCandidateSnap t p (b, sa) = true
      · rw [if_pos hc] at hal
        simp only [List.mem_cons] at hal
        rcases hal with rfl | hal
        · push_neg at hn
          refine ⟨(b, sa), by simp, rfl, hc, min_le_left _ _, ?_, ?_⟩
          · intro hav
            exact le_min hav (le_of_lt hn)
          · intro h0
            by_contra hpos
            push_neg at hpos
            exact absurd h0 (ne_of_gt (lt_min hpos hn))
        · obtain ⟨c, hm, hrest⟩ := ih _ al hal
          exact ⟨c, by simp [hm], hrest⟩
      · rw [if_neg hc] at hal
        obtain ⟨c, hm, hrest⟩ := ih _ al hal
        exact ⟨c, by simp [hm], hrest⟩

theorem billWalk_sum_allocs (t p : Nat) :
    ∀ (l : List (Stock × Boxes)) (n : Boxes),
      (((billWalk t p n l).2.1).map OrderItemAllocation.boxesAllocated).sum
        = n - (billWalk t p n l).2.2 := by
  intro l
  induction l with
  | nil => intro n; simp [billWalk]
  | cons pr rest ih =>
    obtain ⟨b, sa⟩ := pr
    intro n
    rw [billWalk]
    by_cases hn : n ≤ 0
    · rw [if_pos hn]; simp
    · rw [if_neg hn]
      by_cases hc : isCandidateSnap t p (b, sa) = true
      · rw [if_pos hc]
        simp only [List.map_cons, List.sum_cons]
        rw [ih]
        ring
      · rw [if_neg hc]
        exact ih n

theorem billWalk_pointwise (t p : Nat) :
    ∀ (l : List (Stock × Boxes)) (n : Boxes),
      List.Forall₂ (fun pr pr' => ∃ a,
        (0 ≤ pr.1.boxesAvailable → 0 ≤ a ∧ a ≤ pr.1.boxesAvailable) ∧
        pr' = (reserveTransfer pr.1 a, pr.2)) l (billWalk t p n l).1 := by
  intro l
  induction l with
  | nil => intro n; exact List.Forall₂.nil
  | cons pr rest ih =>
    obtain ⟨b, sa⟩ := pr
    intro n
    rw [billWalk]
    by_cases hn : n ≤ 0
    · rw [if_pos hn]
      refine List.Forall₂.cons
        ⟨0, fun h => ⟨le_rfl, h⟩, by rw [reserveTransfer_zero]⟩ ?_
      refine List.forall₂_same.mpr (fun x _ => ?_)
      exact ⟨0, fun h => ⟨le_rfl, h⟩, by rw [reserveTransfer_zero]⟩
    · rw [if_neg hn]
      by_cases hc : isCandidateSnap t p (b, sa) = true
      · rw [if_pos hc]
        refine List.Forall₂.cons ?_ (ih _)
        push_neg at hn
        refine ⟨min b.boxesAvailable n, ?_, rfl⟩
        intro hav
        exact ⟨le_min hav (le_of_lt hn), min_le_left _ _⟩
      · rw [if_neg hc]
        exact List.Forall₂.cons
          ⟨0, fun h => ⟨le_rfl, h⟩, by rw [reserveTransfer_zero]⟩ (ih _)

theorem billWalk_delta (t p : Nat) :
    ∀ (l : List (Stock × Boxes)),
      (l.map (fun pr => pr.1.id)).Nodup → ∀ (n : Boxes),
      List.Forall₂ (fun pr pr' =>
        pr' = (reserveTransfer pr.1
          (allocAmtFor (billWalk t p n l).2.1 pr.1.id), pr.2))
        l (billWalk t p n l).1 := by
  intro l
  induction l with
  | nil => intro _ n; exact List.Forall₂.nil
  | cons pr rest ih =>
    obtain ⟨b, sa⟩ := pr
    intro hnd n
    have hndr : (rest.map (fun pr => pr.1.id)).Nodup :=
      (List.nodup_cons.mp hnd).2
    have hbid : b.id ∉ rest.map (fun pr => pr.1.id) :=
      (List.nodup_cons.mp hnd).1
    have hfresh : ∀ (m : Boxes), ∀ al ∈ (billWalk t p m rest).2.1,
        al.stockId ≠ b.id := by
      intro m al hal he
      obtain ⟨c, hc, hcid, -, -, -, -⟩ := billWalk_allocs_spec t p rest m al hal
      have hmm : c.1.id ∈ rest.map (fun pr => pr.1.id) :=
        List.mem_map_of_mem _ hc
      rw [hcid, he] at hmm
      exact hbid hmm
    rw [billWalk]
    by_cases hn : n ≤ 0
    · rw [if_pos hn]
      refine List.forall₂_same.mpr (fun x _ => ?_)
      simp [allocAmtFor_nil, reserveTransfer_zero]
    · rw [if_neg hn]
      by_cases hc : isCandidateSnap t p (b, sa) = true
      · rw [if_pos hc]
        set a := min b.boxesAvailable n with ha
        refine List.Forall₂.cons ?_ ?_
        · have hz : allocAmtFor (billWalk t p (n - a) rest).2.1 b.id = 0 :=
            allocAmtFor_eq_zero (fun al hal => hfresh _ al hal)
          simp [allocAmtFor_cons, hz, reserveTransfer]
        · refine forall₂_imp_mem (ih hndr (n - a)) ?_
          intro x hx y _ hxy
          have hxid : x.1.id ≠ b.id := by
            intro he
            exact hbid (he ▸ List.mem_map_of_mem _ hx)
          rw [allocAmtFor_cons, if_neg (fun he => hxid he.symm), zero_add]
          exact hxy
      · rw [if_neg hc]
        refine List.Forall₂.cons ?_ ?_
        · rw [allocAmtFor_eq_zero (fun al hal => hfresh _ al hal),
            reserveTransfer_zero]
        · refine forall₂_imp_mem (ih hndr n) ?_
          intro x hx y _ hxy
          exact hxy

theorem totalAvailable_nonneg (l : List Stock) (t p : Nat) :
    0 ≤ totalAvailable l t p := by
  refine List.sum_nonneg (fun x hx => ?_)
  simp only [List.mem_map, candidateBatches, List.mem_filter] at hx
  obtain ⟨b, ⟨-, hcand⟩, rfl⟩ := hx
  simp only [isCandidate, Bool.and_eq_true, beq_iff_eq,
    decide_eq_true_eq] at hcand
  exact le_of_lt hcand.1.2

theorem totalAvailable_cons (b : Stock) (l : List Stock) (t p : Nat) :
    totalAvailable (b :: l) t p =
      (if isCandidate t p b = true then b.boxesAvailable else 0) +
        totalAvailable l t p := by
  by_cases hc : isCandidate t p b = true
  · simp [totalAvailable, candidateBatches, List.filter_cons, hc]
  · simp only [totalAvailable, candidateBatches, List.filter_cons]
    rw [if_neg hc, if_neg (by simpa using hc)]
    simp

theorem pairsAvailable_nonneg (t p : Nat) {l : List (Stock × Boxes)}
    (hsi : ∀ pr ∈ l, 0 < pr.2 → 0 ≤ pr.1.boxesAvailable) :
    0 ≤ pairsAvailable t p l := by
  refine List.sum_nonneg (fun x hx => ?_)
  simp only [List.mem_map, List.mem_filter] at hx
  obtain ⟨pr, ⟨hm, hcand⟩, rfl⟩ := hx
  simp only [isCandidateSnap, Bool.and_eq_true, beq_iff_eq,
    decide_eq_true_eq] at hcand
  exact hsi pr hm hcand.1.2

theorem pairsAvailable_cons (b : Stock) (sa : Boxes)
    (l : List (Stock × Boxes)) (t p : Nat) :
    pairsAvailable t p ((b, sa) :: l) =
      (if isCandidateSnap t p (b, sa) = true then b.boxesAvailable else 0) +
        pairsAvailable t p l := by
  by_cases hc : isCandidateSnap t p (b, sa) = true
  · simp [pairsAvailable, List.filter_cons, hc]
  · simp only [pairsAvailable, List.filter_cons]
    rw [if_neg hc, if_neg (by simpa using hc)]
    simp

theorem pairsAvailable_snap (stocks : List Stock) (t p : Nat) :
    pairsAvailable t p (stocks.map (fun b => (b, b.boxesAvailable))) =
      totalAvailable stocks t p := by
  induction stocks with
  | nil => rfl
  | cons b rest ih =>
    rw [List.map_cons, pairsAvailable_cons, totalAvailable_cons,
      isCandidateSnap_self, ih]

/-- The leftover `boxes_needed` after the walk: when every batch the
snapshot filter selects still has a non-negative live availability, the
walk drains the selected batches until either the need or their live
availability is exhausted. -/
theorem billWalk_rem (t p : Nat) :
    ∀ (l : List (Stock × Boxes)),
      (∀ pr ∈ l, 0 < pr.2 → 0 ≤ pr.1.boxesAvailable) →
      ∀ (n : Boxes), 0 ≤ n →
      (billWalk t p n l).2.2 = max (n - pairsAvailable t p l) 0 := by
  intro l
  induction l with
  | nil =>
    intro _ n hn
    show n = max (n - pairsAvailable t p []) 0
    have h₁ : pairsAvailable t p [] = 0 := rfl
    rw [h₁, sub_zero]
    exact (max_eq_left hn).symm
  | cons pr rest ih =>
    obtain ⟨b, sa⟩ := pr
    intro hsi n hn
    have hsir : ∀ pr ∈ rest, 0 < pr.2 → 0 ≤ pr.1.boxesAvailable :=
      fun pr hm => hsi pr (by simp [hm])
    have hpa := pairsAvailable_nonneg t p hsir
    rw [billWalk, pairsAvailable_cons]
    by_cases hzero : n ≤ 0
    · rw [if_pos hzero]
      have hn0 : n = 0 := le_antisymm hzero hn
      subst hn0
      have hc0 : 0 ≤ (if isCandidateSnap t p (b, sa) = true
          then b.boxesAvailable else 0) := by
        split
        · next hcand =>
            simp only [isCandidateSnap, Bool.and_eq_true, beq_iff_eq,
              decide_eq_true_eq] at hcand
            exact hsi (b, sa) (by simp) hcand.1.2
        · exact le_rfl
      rw [max_eq_right (by linarith)]
    · rw [if_neg hzero]
      push_neg at hzero
      by_cases hc : isCandidateSnap t p (b, sa) = true
      · rw [if_pos hc, if_pos hc]
        have hav0 : 0 ≤ b.boxesAvailable := by
          simp only [isCandidateSnap, Bool.and_eq_true, beq_iff_eq,
            decide_eq_true_eq] at hc
          exact hsi (b, sa) (by simp) hc.1.2
        have hminle : min b.boxesAvailable n ≤ n := min_le_right _ _
        show (billWalk t p (n - min b.boxesAvailable n) rest).2.2 = _
        rw [ih hsir (n - min b.boxesAvailable n) (by linarith)]
        rcases le_total b.boxesAvailable n with hle | hle
        · rw [min_eq_left hle]
          congr 1
          ring
        · rw [min_eq_right hle]
          rw [max_eq_right (by linarith), max_eq_right (by linarith)]
      · rw [if_neg hc, if_neg hc, ih hsir n hn, zero_add]

/-- Each batch is drawn from at most once per item: the recorded allocation
rows carry pairwise distinct stock ids. -/
theorem billWalk_allocs_nodup (t p : Nat) :
    ∀ (l : List (Stock × Boxes)),
      (l.map (fun pr => pr.1.id)).Nodup → ∀ (n : Boxes),
      (((billWalk t p n l).2.1).map OrderItemAllocation.stockId).Nodup := by
  intro l
  induction l with
  | nil => intro _ n; simp [billWalk]
  | cons pr rest ih =>
    obtain ⟨b, sa⟩ := pr
    intro hnd n
    have hndr : (rest.map (fun pr => pr.1.id)).Nodup :=
      (List.nodup_cons.mp hnd).2
    have hbid : b.id ∉ rest.map (fun pr => pr.1.id) :=
      (List.nodup_cons.mp hnd).1
    rw [billWalk]
    by_cases hn : n ≤ 0
    · rw [if_pos hn]; simp
    · rw [if_neg hn]
      by_cases hc : isCandidateSnap t p (b, sa) = true
      · rw [if_pos hc]
        simp only [List.map_cons, List.nodup_cons]
        refine ⟨?_, ih hndr _⟩
        intro hmem
        simp only [List.mem_map] at hmem
        obtain ⟨al, hal, he⟩ := hmem
        obtain ⟨c, hcm, hcid, -, -, -, -⟩ :=
          billWalk_allocs_spec t p rest _ al hal
        have hmm : c.1.id ∈ rest.map (fun pr => pr.1.id) :=
          List.mem_map_of_mem _ hcm
        rw [hcid, he] at hmm
        exact hbid hmm
      · rw [if_neg hc]
        exact ih hndr n

/-- When the oldest selected batch alone covers the need, the walk takes
exactly the needed amount from it, records a single allocation row, and
leaves every other batch untouched. -/
theorem billWalk_first_covers (t p : Nat) {n : Boxes} (hn : 0 < n) :
    ∀ (l₁ : List (Stock × Boxes)) {l₂ : List (Stock × Boxes)}
      {b₀ : Stock} {sa₀ : Boxes},
      (∀ pr ∈ l₁, isCandidateSnap t p pr = false) →
      isCandidateSnap t p (b₀, sa₀) = true → n ≤ b₀.boxesAvailable →
      billWalk t p n (l₁ ++ (b₀, sa₀) :: l₂) =
        (l₁ ++ (reserveTransfer b₀ n, sa₀) :: l₂, [⟨b₀.id, n⟩], 0) := by
  intro l₁
  induction l₁ with
  | nil =>
    intro l₂ b₀ sa₀ _ hcand hcov
    simp only [List.nil_append]
    rw [billWalk, if_neg (not_le.mpr hn), if_pos hcand]
    have ha : min b₀.boxesAvailable n = n := min_eq_right hcov
    rw [ha]
    simp only [sub_self]
    rw [billWalk_nonpos t p le_rfl l₂]
    rfl
  | cons c l₁ ih =>
    intro l₂ b₀ sa₀ hl₁ hcand hcov
    obtain ⟨cb, csa⟩ := c
    have hcnot : isCandidateSnap t p (cb, csa) = false := hl₁ _ (by simp)
    simp only [List.cons_append]
    rw [billWalk, if_neg (not_le.mpr hn),
      if_neg (by simp [hcnot]),
      ih (fun pr hpr => hl₁ pr (by simp [hpr])) hcand hcov]

/-- In a list sorted by `created_at`, a selected batch of minimal
`created_at` is walked first, with no selected batch before it. -/
theorem sorted_min_candidate_decomp (t p : Nat) :
    ∀ (l : List (Stock × Boxes)),
      l.Pairwise (fun x y => x.1.createdAt < y.1.createdAt) →
      ∀ pr₀ ∈ l, isCandidateSnap t p pr₀ = true →
      (∀ c ∈ l, isCandidateSnap t p c = true →
        pr₀.1.createdAt ≤ c.1.createdAt) →
      ∃ l₁ l₂, l = l₁ ++ pr₀ :: l₂ ∧
        ∀ pr ∈ l₁, isCandidateSnap t p pr = false := by
  intro l
  induction l with
  | nil => intro _ pr₀ hpr₀; simp at hpr₀
  | cons y rest ih =>
    intro hsort pr₀ hmem hcand hmin
    rcases List.mem_cons.mp hmem with rfl | hmem
    · exact ⟨[], rest, by simp⟩
    · have hy : isCandidateSnap t p y = false := by
        by_contra hyc
        have hyc' : isCandidateSnap t p y = true := by
          cases hy₂ : isCandidateSnap t p y
          · exact absurd hy₂ hyc
          · rfl
        have h₁ := hmin y (by simp) hyc'
        have h₂ : y.1.createdAt < pr₀.1.createdAt :=
          (List.pairwise_cons.mp hsort).1 pr₀ hmem
        omega
      obtain ⟨l₁, l₂, hl, hl₁⟩ :=
        ih (List.pairwise_cons.mp hsort).2 pr₀ hmem hcand
          (fun c hc hcc => hmin c (by simp [hc]) hcc)
      refine ⟨y :: l₁, l₂, by simp [hl], ?_⟩
      intro pr hpr
      rcases List.mem_cons.mp hpr with rfl | hpr
      · exact hy
      · exact hl₁ pr hpr

/-! ### Facts about the bill item loop -/

theorem itemsAllocAmt_nil (sid : Nat) : itemsAllocAmt [] sid = 0 := rfl

theorem itemsAllocAmt_cons (i : OrderItem) (l : List OrderItem) (sid : Nat) :
    itemsAllocAmt (i :: l) sid =
      allocAmtFor i.allocations sid + itemsAllocAmt l sid := by
  simp [itemsAllocAmt, allocAmtFor_append]

theorem reserveTransfer_id (b : Stock) (a : Boxes) :
    (reserveTransfer b a).id = b.id := rfl

theorem reserveTransfer_comp (b : Stock) (a₁ a₂ : Boxes) :
    reserveTransfer (reserveTransfer b a₁) a₂ =
      reserveTransfer b (a₁ + a₂) := by
  simp only [reserveTransfer]
  congr 1 <;> ring

theorem reserveTransfer_inj {b : Stock} {a₁ a₂ : Boxes}
    (h : reserveTransfer b a₁ = reserveTransfer b a₂) : a₁ = a₂ := by
  have h₁ := congrArg Stock.boxesAvailable h
  simp only [reserveTransfer] at h₁
  linarith

/-- The combined effect of the bill item loop: item fields other than the
appended allocations are untouched, every appended allocation row is
non-negative and references an existing batch, each batch moves exactly
the boxes newly allocated to it from available to reserved while its
snapshot availability never changes, and a batch whose snapshot
availability is positive keeps a non-negative live availability. -/
theorem billItems_ok_spec (t : Nat) :
    ∀ (items : List OrderItem) (pairs pairs' : List (Stock × Boxes))
      (items' : List OrderItem),
      ((pairs.map (fun pr => pr.1.id)).Nodup) →
      (∀ pr ∈ pairs, 0 < pr.2 → 0 ≤ pr.1.boxesAvailable) →
      billItems t pairs items = .ok (pairs', items') →
      (List.Forall₂ (fun i i' =>
        i'.id = i.id ∧ i'.productId = i.productId ∧
        i'.boxesRequested = i.boxesRequested ∧
        i'.boxesFulfilled = i.boxesFulfilled ∧
        i'.boxesPending = i.boxesPending ∧
        ∃ new, i'.allocations = i.allocations ++ new ∧
          (new.map OrderItemAllocation.stockId).Nodup ∧
          ∀ al ∈ new, 0 ≤ al.boxesAllocated ∧
            al.stockId ∈ pairs.map (fun pr => pr.1.id)) items items') ∧
      (List.Forall₂ (fun pr pr' =>
        pr' = (reserveTransfer pr.1
          (itemsAllocAmt items' pr.1.id - itemsAllocAmt items pr.1.id),
          pr.2) ∧
        (0 ≤ pr.1.boxesAvailable → 0 ≤ pr'.1.boxesAvailable))
        pairs pairs') := by
  intro items
  induction items with
  | nil =>
    intro pairs pairs' items' hnd hsi h
    rw [billItems] at h
    cases h
    refine ⟨List.Forall₂.nil, ?_⟩
    refine List.forall₂_same.mpr (fun pr _ => ?_)
    constructor
    · rw [itemsAllocAmt_nil, sub_zero, reserveTransfer_zero]
    · exact fun hb => hb
  | cons item rest ih =>
    intro pairs pairs' items' hnd hsi h
    rw [billItems] at h
    by_cases hf : item.boxesFulfilled = 0
    · rw [if_pos hf] at h
      cases hrec : billItems t pairs rest with
      | error e => rw [hrec] at h; cases h
      | ok pr =>
        rw [hrec] at h
        cases h
        obtain ⟨hitems, hstocks⟩ := ih pairs pr.1 pr.2 hnd hsi hrec
        constructor
        · refine List.Forall₂.cons ?_ hitems
          exact ⟨rfl, rfl, rfl, rfl, rfl, [], by simp, by simp, by simp⟩
        · refine hstocks.imp (fun {x x'} hb => ?_)
          obtain ⟨hb₁, hb₂⟩ := hb
          refine ⟨?_, hb₂⟩
          rwa [itemsAllocAmt_cons, itemsAllocAmt_cons,
            show allocAmtFor item.allocations x.1.id +
                itemsAllocAmt pr.2 x.1.id -
              (allocAmtFor item.allocations x.1.id +
                itemsAllocAmt rest x.1.id) =
              itemsAllocAmt pr.2 x.1.id - itemsAllocAmt rest x.1.id by ring]
    · rw [if_neg hf] at h
      by_cases hrem :
          0 < (billWalk t item.productId item.boxesFulfilled pairs).2.2
      · rw [if_pos hrem] at h; cases h
      · rw [if_neg hrem] at h
        set walked := billWalk t item.productId item.boxesFulfilled pairs
          with hw
        cases hrec : billItems t walked.1 rest with
        | error e => rw [hrec] at h; cases h
        | ok pr =>
          rw [hrec] at h
          cases h
          have hdelta := billWalk_delta t item.productId pairs hnd
            item.boxesFulfilled
          have hpoint := billWalk_pointwise t item.productId pairs
            item.boxesFulfilled
          have hids : walked.1.map (fun x => x.1.id) =
              pairs.map (fun x => x.1.id) := by
            refine (forall₂_pair_map_eq ?_).1
            exact hdelta.imp (fun {x x'} hb => ⟨_, hb⟩)
          have hnd₁ : (walked.1.map (fun x => x.1.id)).Nodup := by
            rw [hids]; exact hnd
          have hsi₁ : ∀ x ∈ walked.1, 0 < x.2 →
              0 ≤ x.1.boxesAvailable := by
            intro x' hm hpos
            obtain ⟨x, hxm, a, haimp, heq⟩ := forall₂_mem_right hpoint x' hm
            have h2 : x'.2 = x.2 := by rw [heq]
            have hav : 0 ≤ x.1.boxesAvailable := hsi x hxm (h2 ▸ hpos)
            obtain ⟨ha0, hab⟩ := haimp hav
            rw [heq]
            show 0 ≤ x.1.boxesAvailable - a
            linarith
          obtain ⟨hitems, hstocks⟩ := ih walked.1 pr.1 pr.2 hnd₁ hsi₁ hrec
          have hwalkmem := billWalk_allocs_spec t item.productId pairs
            item.boxesFulfilled
          constructor
          · refine List.Forall₂.cons ?_ ?_
            · refine ⟨rfl, rfl, rfl, rfl, rfl, walked.2.1, rfl, ?_, ?_⟩
              · rw [hw]
                exact billWalk_allocs_nodup t item.productId pairs hnd
                  item.boxesFulfilled
              intro al hal
              obtain ⟨c, hcm, hcid, hcand, -, havimp, -⟩ := hwalkmem al hal
              have hc2 : 0 < c.2 := by
                simp only [isCandidateSnap, Bool.and_eq_true, beq_iff_eq,
                  decide_eq_true_eq] at hcand
                exact hcand.1.2
              refine ⟨havimp (hsi c hcm hc2), ?_⟩
              exact hcid ▸ List.mem_map_of_mem _ hcm
            · refine hitems.imp (fun {i i'} hi => ?_)
              obtain ⟨h₁, h₂, h₃, h₄, h₅, new, hnew, hndnew, hmem⟩ := hi
              exact ⟨h₁, h₂, h₃, h₄, h₅, new, hnew, hndnew,
                fun al hal => ⟨(hmem al hal).1, hids ▸ (hmem al hal).2⟩⟩
          · have hzip := forall₂_and hdelta hpoint
            have hcomp := forall₂_compose hzip hstocks
            refine forall₂_imp_mem hcomp ?_
            intro x _ x' _ hbb
            obtain ⟨x₁, ⟨hb₁, a, haimp, hb₁p⟩, hb₂, hb₃⟩ := hbb
            have hbid : x₁.1.id = x.1.id := by rw [hb₁]; rfl
            have h2 : x₁.2 = x.2 := by rw [hb₁]
            constructor
            · have e2 : x₁.1 = reserveTransfer x.1
                  (allocAmtFor walked.2.1 x.1.id) := by rw [hb₁]
              rw [hb₂, hbid, h2, e2, reserveTransfer_comp]
              have harith : allocAmtFor walked.2.1 x.1.id +
                  (itemsAllocAmt pr.2 x.1.id - itemsAllocAmt rest x.1.id) =
                  itemsAllocAmt ({ item with allocations :=
                    item.allocations ++ walked.2.1 } :: pr.2) x.1.id -
                  itemsAllocAmt (item :: rest) x.1.id := by
                rw [itemsAllocAmt_cons, itemsAllocAmt_cons]
                simp only
                rw [allocAmtFor_append]
                ring
              rw [harith]
            · intro hava
              refine hb₃ ?_
              rw [hb₁p]
              show 0 ≤ x.1.boxesAvailable - a
              obtain ⟨ha0, hab⟩ := haimp hava
              linarith

/-- `billItems_ok_spec` read back on the stock rows: `bill_order` enters
the loop with every row paired with its committed availability. -/
theorem billItems_ok_stocks (t : Nat) (items : List OrderItem)
    (stocks : List Stock) (pairs' : List (Stock × Boxes))
    (items' : List OrderItem)
    (hnd : (stocks.map Stock.id).Nodup)
    (h : billItems t (stocks.map (fun b => (b, b.boxesAvailable))) items =
      .ok (pairs', items')) :
    (List.Forall₂ (fun i i' =>
      i'.id = i.id ∧ i'.productId = i.productId ∧
      i'.boxesRequested = i.boxesRequested ∧
      i'.boxesFulfilled = i.boxesFulfilled ∧
      i'.boxesPending = i.boxesPending ∧
      ∃ new, i'.allocations = i.allocations ++ new ∧
        (new.map OrderItemAllocation.stockId).Nodup ∧
        ∀ al ∈ new, 0 ≤ al.boxesAllocated ∧
          al.stockId ∈ stocks.map Stock.id) items items') ∧
    (List.Forall₂ (fun b b' =>
      b' = reserveTransfer b
        (itemsAllocAmt items' b.id - itemsAllocAmt items b.id) ∧
      (0 ≤ b.boxesAvailable → 0 ≤ b'.boxesAvailable))
      stocks (pairs'.map Prod.fst)) := by
  have hnd' : ((stocks.map (fun b => (b, b.boxesAvailable))).map
      (fun pr => pr.1.id)).Nodup := by
    rw [List.map_map]
    exact hnd
  have hsi' : ∀ pr ∈ stocks.map (fun b => (b, b.boxesAvailable)),
      0 < pr.2 → 0 ≤ pr.1.boxesAvailable := by
    intro pr hm hpos
    obtain ⟨b, -, rfl⟩ := List.mem_map.mp hm
    exact le_of_lt hpos
  obtain ⟨hitems, hstocks⟩ :=
    billItems_ok_spec t items _ pairs' items' hnd' hsi' h
  constructor
  · refine hitems.imp (fun {i i'} hi => ?_)
    obtain ⟨h₁, h₂, h₃, h₄, h₅, new, hnew, hndnew, hmem⟩ := hi
    refine ⟨h₁, h₂, h₃, h₄, h₅, new, hnew, hndnew,
      fun al hal => ⟨(hmem al hal).1, ?_⟩⟩
    have hh := (hmem al hal).2
    rw [List.map_map] at hh
    exact hh
  · refine List.forall₂_map_right_iff.mpr ?_
    have hs := List.forall₂_map_left_iff.mp hstocks
    refine hs.imp (fun {b pr'} hb => ?_)
    obtain ⟨heq, himp⟩ := hb
    constructor
    · rw [heq]
    · intro hav
      exact himp hav

/-- The only error the bill item loop raises is `INSUFFICIENT_STOCK`,
naming the product of one of the items of the order. -/
theorem billItems_error_spec (t : Nat) :
    ∀ (items : List OrderItem) (pairs : List (Stock × Boxes)) (e : Err),
      billItems t pairs items = .error e →
      ∃ item ∈ items, e = .insufficientStock item.productId := by
  intro items
  induction items with
  | nil => intro pairs e h; rw [billItems] at h; cases h
  | cons item rest ih =>
    intro pairs e h
    rw [billItems] at h
    by_cases hf : item.boxesFulfilled = 0
    · rw [if_pos hf] at h
      cases hrec : billItems t pairs rest with
      | error e' =>
        rw [hrec] at h
        cases h
        obtain ⟨i, hi, he⟩ := ih pairs e hrec
        exact ⟨i, by simp [hi], he⟩
      | ok pr => rw [hrec] at h; cases h
    · rw [if_neg hf] at h
      by_cases hrem :
          0 < (billWalk t item.productId item.boxesFulfilled pairs).2.2
      · rw [if_pos hrem] at h
        cases h
        exact ⟨item, by simp, rfl⟩
      · rw [if_neg hrem] at h
        cases hrec : billItems t
            (billWalk t item.productId item.boxesFulfilled pairs).1 rest with
        | error e' =>
          rw [hrec] at h
          cases h
          obtain ⟨i, hi, he⟩ := ih _ e hrec
          exact ⟨i, by simp [hi], he⟩
        | ok pr => rw [hrec] at h; cases h

/-- Sufficiency of a first-item shortfall: when the candidate pool cannot
cover the leading item, the loop raises `INSUFFICIENT_STOCK` for it. -/
theorem billItems_first_short (t : Nat) (stocks : List Stock)
    (item : OrderItem) (rest : List OrderItem)
    (hf : 0 < item.boxesFulfilled)
    (hta : totalAvailable stocks t item.productId < item.boxesFulfilled) :
    billItems t (stocks.map (fun b => (b, b.boxesAvailable)))
      (item :: rest) = .error (.insufficientStock item.productId) := by
  rw [billItems, if_neg (ne_of_gt hf)]
  have hsi : ∀ pr ∈ stocks.map (fun b => (b, b.boxesAvailable)),
      0 < pr.2 → 0 ≤ pr.1.boxesAvailable := by
    intro pr hm hpos
    obtain ⟨b, -, rfl⟩ := List.mem_map.mp hm
    exact le_of_lt hpos
  have hrem := billWalk_rem t item.productId _ hsi item.boxesFulfilled
    (le_of_lt hf)
  have hpos : 0 < (billWalk t item.productId item.boxesFulfilled
      (stocks.map (fun b => (b, b.boxesAvailable)))).2.2 := by
    rw [hrem, pairsAvailable_snap]
    have h2 : 0 < item.boxesFulfilled -
        totalAvailable stocks t item.productId := by
      linarith
    rw [max_eq_left (le_of_lt h2)]
    exact h2
  rw [if_pos hpos]

/-! ### Preservation of the ledger invariant -/

theorem orderContrib_congr {pred : OrderStatus → Bool} {sid : Nat}
    {o o' : Order} (hitems : o'.items = o.items)
    (hps : pred o'.status = pred o.status) :
    orderContrib pred sid o' = orderContrib pred sid o := by
  unfold orderContrib orderAllocs
  rw [hitems, hps]

/-- A guarded status/timestamp rewrite of one order (the shape shared by the
seven simple transitions) preserves the invariant provided it keeps the
items and stays on the same side of every status classification. -/
theorem inv_updateOrder {s : DbState} {oid : Nat} {o : Order}
    (hInv : Inv s) (hfind : orderById s oid = some o) (g : Order → Order)
    (hid : (g o).id = o.id) (href : (g o).orderRef = o.orderRef)
    (hitems : (g o).items = o.items)
    (hres : reservedStatus (g o).status = reservedStatus o.status)
    (hdis : ((g o).status == OrderStatus.dispatched) =
      (o.status == OrderStatus.dispatched))
    (hpre : preBilledStatus (g o).status = true →
      preBilledStatus o.status = true)
    (hpost : postEstimateStatus (g o).status = true →
      postEstimateStatus o.status = true) :
    Inv (updateOrder s oid g) := by
  obtain ⟨hsn, hslt, hsort, hon, holt, hall, hpree, hresv, hdisp, hbz,
    hsum, hisum⟩ := hInv
  have hfind' : s.orders.find? (fun x => x.id == oid) = some o := hfind
  obtain ⟨hoid, l₁, l₂, hl, hl₁⟩ := find?_id_decomp hfind'
  have hl₂ : ∀ x ∈ l₂, x.id ≠ oid := by
    intro x hx
    rw [← hoid]
    exact nodup_decomp_right (hl ▸ hon) x hx
  have hmap : s.orders.map (fun p => if p.id = oid then g p else p) =
      l₁ ++ g o :: l₂ := by
    rw [hl]; exact map_update_decomp g hl₁ hl₂ hoid
  have hmem₁ : ∀ x ∈ l₁, x ∈ s.orders := by
    intro x hx; rw [hl]; exact List.mem_append.mpr (Or.inl hx)
  have hmem₂ : ∀ x ∈ l₂, x ∈ s.orders := by
    intro x hx; rw [hl]; simp [hx]
  have homem : o ∈ s.orders := by rw [hl]; simp
  have hcontrib : ∀ (pred : OrderStatus → Bool),
      pred (g o).status = pred o.status → ∀ sid,
      statusContrib pred (l₁ ++ g o :: l₂) sid =
        statusContrib pred s.orders sid := by
    intro pred hps sid
    rw [hl, statusContrib_append, statusContrib_append, statusContrib_cons,
      statusContrib_cons, orderContrib_congr hitems hps]
  have horders : (updateOrder s oid g).orders = l₁ ++ g o :: l₂ := hmap
  have hstocks : (updateOrder s oid g).stocks = s.stocks := rfl
  have htick : (updateOrder s oid g).tick = s.tick + 1 := rfl
  refine ⟨?_, ?_, ?_, ?_, ?_, ?_, ?_, ?_, ?_, ?_, ?_, ?_⟩
  · rw [hstocks]; exact hsn
  · intro b hb
    rw [hstocks] at hb
    obtain ⟨h₁, h₂⟩ := hslt b hb
    rw [htick]
    omega
  · rw [hstocks]; exact hsort
  · rw [horders]
    have he : (l₁ ++ g o :: l₂).map Order.id =
        (l₁ ++ o :: l₂).map Order.id := by simp [hid]
    rw [he, ← hl]
    exact hon
  · intro o' ho'
    rw [horders] at ho'
    rw [htick]
    rcases List.mem_append.mp ho' with h | h
    · obtain ⟨h₁, h₂⟩ := holt o' (hmem₁ o' h); omega
    · rcases List.mem_cons.mp h with rfl | h
      · obtain ⟨h₁, h₂⟩ := holt o homem
        rw [hid, href]
        omega
      · obtain ⟨h₁, h₂⟩ := holt o' (hmem₂ o' h); omega
  · intro o' ho' i hi a ha
    rw [horders] at ho'
    rw [htick]
    rcases List.mem_append.mp ho' with h | h
    · obtain ⟨h₁, h₂⟩ := hall o' (hmem₁ o' h) i hi a ha
      exact ⟨h₁, by omega⟩
    · rcases List.mem_cons.mp h with rfl | h
      · rw [hitems] at hi
        obtain ⟨h₁, h₂⟩ := hall o homem i hi a ha
        exact ⟨h₁, by omega⟩
      · obtain ⟨h₁, h₂⟩ := hall o' (hmem₂ o' h) i hi a ha
        exact ⟨h₁, by omega⟩
  · intro o' ho' hps i hi
    rw [horders] at ho'
    rcases List.mem_append.mp ho' with h | h
    · exact hpree o' (hmem₁ o' h) hps i hi
    · rcases List.mem_cons.mp h with rfl | h
      · rw [hitems] at hi
        exact hpree o homem (hpre hps) i hi
      · exact hpree o' (hmem₂ o' h) hps i hi
  · intro b hb
    rw [hstocks] at hb
    rw [horders, hcontrib reservedStatus hres]
    exact hresv b hb
  · intro b hb
    rw [hstocks] at hb
    rw [horders, hcontrib (· == OrderStatus.dispatched) hdis]
    exact hdisp b hb
  · intro b hb; rw [hstocks] at hb; exact hbz b hb
  · intro b hb; rw [hstocks] at hb; exact hsum b hb
  · intro o' ho' hps i hi
    rw [horders] at ho'
    rcases List.mem_append.mp ho' with h | h
    · exact hisum o' (hmem₁ o' h) hps i hi
    · rcases List.mem_cons.mp h with rfl | h
      · rw [hitems] at hi
        exact hisum o homem (hpost hps) i hi
      · exact hisum o' (hmem₂ o' h) hps i hi

theorem statusContrib_eq_zero {pred : OrderStatus → Bool}
    {orders : List Order} {sid : Nat}
    (h : ∀ o ∈ orders, ∀ a ∈ orderAllocs o, a.stockId ≠ sid) :
    statusContrib pred orders sid = 0 := by
  unfold statusContrib
  refine List.sum_eq_zero ?_
  intro x hx
  simp only [List.mem_map] at hx
  obtain ⟨o, ho, rfl⟩ := hx
  unfold orderContrib
  split
  · exact allocAmtFor_eq_zero (h o ho)
  · rfl

theorem mem_orderAllocs {o : Order} {a : OrderItemAllocation} :
    a ∈ orderAllocs o ↔ ∃ i ∈ o.items, a ∈ i.allocations := by
  simp only [orderAllocs, List.mem_flatten, List.mem_map]
  constructor
  · rintro ⟨-, ⟨i, hi, rfl⟩, ha⟩
    exact ⟨i, hi, ha⟩
  · rintro ⟨i, hi, ha⟩
    exact ⟨i.allocations, ⟨i, hi, rfl⟩, ha⟩

theorem inv_addStock {s : DbState} {t p : Nat} {n : Boxes} (hInv : Inv s) :
    Inv (addStock t p n s) := by
  obtain ⟨hsn, hslt, hsort, hon, holt, hall, hpree, hresv, hdisp, hbz,
    hsum, hisum⟩ := hInv
  have hfreshContrib : ∀ (pred : OrderStatus → Bool),
      statusContrib pred s.orders s.tick = 0 := by
    intro pred
    refine statusContrib_eq_zero ?_
    intro o ho a ha
    obtain ⟨i, hi, hia⟩ := mem_orderAllocs.mp ha
    exact Nat.ne_of_lt (hall o ho i hi a hia).2
  refine ⟨?_, ?_, ?_, ?_, ?_, ?_, ?_, ?_, ?_, ?_, ?_, ?_⟩
  · simp only [addStock, List.map_append, List.map_cons, List.map_nil]
    rw [List.nodup_append]
    refine ⟨hsn, by simp, ?_⟩
    intro x hx
    simp only [List.mem_map] at hx
    obtain ⟨b, hb, rfl⟩ := hx
    have := (hslt b hb).1
    simp only [List.mem_singleton]
    omega
  · intro b hb
    simp only [addStock, List.mem_append, List.mem_singleton] at hb
    rcases hb with hb | rfl
    · obtain ⟨h₁, h₂⟩ := hslt b hb
      exact ⟨by simp only [addStock]; omega, by simp only [addStock]; omega⟩
    · exact ⟨by simp only [addStock]; omega, by simp only [addStock]; omega⟩
  · simp only [addStock]
    rw [List.pairwise_append]
    refine ⟨hsort, by simp, ?_⟩
    intro x hx y hy
    simp only [List.mem_singleton] at hy
    subst hy
    exact (hslt x hx).2
  · exact hon
  · intro o ho
    obtain ⟨h₁, h₂⟩ := holt o ho
    exact ⟨by simp only [addStock]; omega, by simp only [addStock]; omega⟩
  · intro o ho i hi a ha
    obtain ⟨h₁, h₂⟩ := hall o ho i hi a ha
    exact ⟨h₁, by simp only [addStock]; omega⟩
  · exact hpree
  · intro b hb
    simp only [addStock, List.mem_append, List.mem_singleton] at hb
    rcases hb with hb | rfl
    · exact hresv b hb
    · exact (hfreshContrib reservedStatus).symm
  · intro b hb
    simp only [addStock, List.mem_append, List.mem_singleton] at hb
    rcases hb with hb | rfl
    · exact hdisp b hb
    · exact (hfreshContrib _).symm
  · intro b hb
    simp only [addStock, List.mem_append, List.mem_singleton] at hb
    rcases hb with hb | rfl
    · exact hbz b hb
    · rfl
  · intro b hb
    simp only [addStock, List.mem_append, List.mem_singleton] at hb
    rcases hb with hb | rfl
    · exact hsum b hb
    · simp
  · exact hisum

theorem inv_deleteStock {s s' : DbState} {sid : Nat} (hInv : Inv s)
    (h : deleteStock sid s = .ok s') : Inv s' := by
  obtain ⟨hsn, hslt, hsort, hon, holt, hall, hpree, hresv, hdisp, hbz,
    hsum, hisum⟩ := hInv
  unfold deleteStock at h
  cases hfind : stockById s sid with
  | none => rw [hfind] at h; cases h
  | some b =>
    rw [hfind] at h
    have h₂ : (if 0 < b.boxesReserved ∨ 0 < b.boxesBilled then
        (Except.error Err.stockInUse : Except Err DbState)
      else .ok { s with stocks := s.stocks.filter (fun c => c.id ≠ sid) }) =
        .ok s' := h
    by_cases hguard : 0 < b.boxesReserved ∨ 0 < b.boxesBilled
    · rw [if_pos hguard] at h₂; cases h₂
    · rw [if_neg hguard] at h₂
      cases h₂
      have hsub : (s.stocks.filter (fun c => c.id ≠ sid)).Sublist s.stocks :=
        List.filter_sublist _
      have hmem : ∀ c ∈ s.stocks.filter (fun c => c.id ≠ sid),
          c ∈ s.stocks := fun c hc => hsub.mem hc
      refine ⟨?_, ?_, ?_, hon, holt, hall, hpree, ?_, ?_, ?_, ?_, hisum⟩
      · exact (hsub.map Stock.id).nodup hsn
      · intro c hc; exact hslt c (hmem c hc)
      · exact hsort.sublist hsub
      · intro c hc; exact hresv c (hmem c hc)
      · intro c hc; exact hdisp c (hmem c hc)
      · intro c hc; exact hbz c (hmem c hc)
      · intro c hc; exact hsum c (hmem c hc)

theorem inv_createOrder {s : DbState} {t sh c u : Nat}
    {items : List OrderItemCreate} (hInv : Inv s) :
    Inv (createOrder t sh c u items s) := by
  obtain ⟨hsn, hslt, hsort, hon, holt, hall, hpree, hresv, hdisp, hbz,
    hsum, hisum⟩ := hInv
  have hnewAlloc : ∀ i ∈ (items.enum.map (fun p =>
      ({ id := s.tick + 1 + p.1, productId := p.2.productId,
         boxesRequested := p.2.boxesRequested, boxesFulfilled := 0,
         boxesPending := 0, allocations := [] } : OrderItem))),
      i.allocations = [] := by
    intro i hi
    simp only [List.mem_map] at hi
    obtain ⟨pq, hpq, rfl⟩ := hi
    rfl
  refine ⟨hsn, ?_, hsort, ?_, ?_, ?_, ?_, ?_, ?_, hbz, hsum, ?_⟩
  · intro b hb
    obtain ⟨h₁, h₂⟩ := hslt b hb
    simp only [createOrder]
    exact ⟨by omega, by omega⟩
  · simp only [createOrder, List.map_append, List.map_cons, List.map_nil]
    rw [List.nodup_append]
    refine ⟨hon, by simp, ?_⟩
    intro x hx
    simp only [List.mem_map] at hx
    obtain ⟨o, ho, rfl⟩ := hx
    have := (holt o ho).1
    simp only [List.mem_singleton]
    omega
  · intro o ho
    simp only [createOrder, List.mem_append, List.mem_singleton] at ho
    rcases ho with ho | rfl
    · obtain ⟨h₁, h₂⟩ := holt o ho
      exact ⟨by simp only [createOrder]; omega, by simp only [createOrder]; omega⟩
    · exact ⟨by simp only [createOrder]; omega, by simp only [createOrder]; omega⟩
  · intro o ho i hi a ha
    simp only [createOrder, List.mem_append, List.mem_singleton] at ho
    rcases ho with ho | rfl
    · obtain ⟨h₁, h₂⟩ := hall o ho i hi a ha
      exact ⟨h₁, by simp only [createOrder]; omega⟩
    · rw [hnewAlloc i hi] at ha
      cases ha
  · intro o ho hps i hi
    simp only [createOrder, List.mem_append, List.mem_singleton] at ho
    rcases ho with ho | rfl
    · exact hpree o ho hps i hi
    · exact hnewAlloc i hi
  · intro b hb
    simp only [createOrder]
    rw [statusContrib_append, statusContrib_cons, statusContrib_nil]
    have hz : orderContrib reservedStatus b.id
        { id := s.tick, tenantId := t, shopId := sh, categoryId := c,
          placedBy := u, parentOrderId := none, status := .placed,
          orderRef := s.tick,
          items := items.enum.map (fun p =>
            { id := s.tick + 1 + p.1, productId := p.2.productId,
              boxesRequested := p.2.boxesRequested, boxesFulfilled := 0,
              boxesPending := 0, allocations := [] }),
          submittedAt := none, forwardedAt := none, approvedAt := none,
          estimatedAt := none, billedAt := none, dispatchedAt := none,
          deliveredAt := none } = 0 := rfl
    rw [hz]
    rw [show statusContrib reservedStatus s.orders b.id + (0 + 0) =
      statusContrib reservedStatus s.orders b.id by ring]
    exact hresv b hb
  · intro b hb
    simp only [createOrder]
    rw [statusContrib_append, statusContrib_cons, statusContrib_nil]
    have hz : orderContrib (· == OrderStatus.dispatched) b.id
        { id := s.tick, tenantId := t, shopId := sh, categoryId := c,
          placedBy := u, parentOrderId := none, status := .placed,
          orderRef := s.tick,
          items := items.enum.map (fun p =>
            { id := s.tick + 1 + p.1, productId := p.2.productId,
              boxesRequested := p.2.boxesRequested, boxesFulfilled := 0,
              boxesPending := 0, allocations := [] }),
          submittedAt := none, forwardedAt := none, approvedAt := none,
          estimatedAt := none, billedAt := none, dispatchedAt := none,
          deliveredAt := none } = 0 := rfl
    rw [hz]
    rw [show statusContrib (· == OrderStatus.dispatched) s.orders b.id + (0 + 0) =
      statusContrib (· == OrderStatus.dispatched) s.orders b.id by ring]
    exact hdisp b hb
  · intro o ho hps i hi
    simp only [createOrder, List.mem_append, List.mem_singleton] at ho
    rcases ho with ho | rfl
    · exact hisum o ho hps i hi
    · simp only [postEstimateStatus] at hps
      cases hps

theorem inv_submitOrder {s s' : DbState} {oid : Nat} (hInv : Inv s)
    (h : submitOrder oid s = .ok s') : Inv s' := by
  unfold submitOrder at h
  split at h
  · cases h
  · next o hfind =>
    split at h
    · next hst =>
      cases h
      refine inv_updateOrder hInv hfind _ rfl rfl rfl ?_ ?_ ?_ ?_ <;>
        simp [hst, reservedStatus, preBilledStatus, postEstimateStatus]
    · cases h

theorem inv_forwardOrder {s s' : DbState} {oid : Nat} (hInv : Inv s)
    (h : forwardOrder oid s = .ok s') : Inv s' := by
  unfold forwardOrder at h
  split at h
  · cases h
  · next o hfind =>
    split at h
    · next hst =>
      cases h
      refine inv_updateOrder hInv hfind _ rfl rfl rfl ?_ ?_ ?_ ?_ <;>
        simp [hst, reservedStatus, preBilledStatus, postEstimateStatus]
    · cases h

theorem inv_approveOrder {s s' : DbState} {oid : Nat} (hInv : Inv s)
    (h : approveOrder oid s = .ok s') : Inv s' := by
  unfold approveOrder at h
  split at h
  · cases h
  · next o hfind =>
    split at h
    · next hst =>
      cases h
      refine inv_updateOrder hInv hfind _ rfl rfl rfl ?_ ?_ ?_ ?_ <;>
        simp [hst, reservedStatus, preBilledStatus, postEstimateStatus]
    · cases h

theorem inv_holdOrder {s s' : DbState} {oid : Nat} (hInv : Inv s)
    (h : holdOrder oid s = .ok s') : Inv s' := by
  unfold holdOrder at h
  split at h
  · cases h
  · next o hfind =>
    split at h
    · next hst =>
      cases h
      refine inv_updateOrder hInv hfind _ rfl rfl rfl ?_ ?_ ?_ ?_ <;>
        simp [hst, reservedStatus, preBilledStatus, postEstimateStatus]
    · cases h

theorem inv_cancelOrder {s s' : DbState} {oid : Nat} (hInv : Inv s)
    (h : cancelOrder oid s = .ok s') : Inv s' := by
  unfold cancelOrder at h
  split at h
  · cases h
  · next o hfind =>
    split at h
    · next hst =>
      cases h
      refine inv_updateOrder hInv hfind _ rfl rfl rfl ?_ ?_ ?_ ?_ <;>
        rcases hst with hst | hst <;>
        simp [hst, reservedStatus, preBilledStatus, postEstimateStatus]
    · cases h

theorem inv_markCounting {s s' : DbState} {oid : Nat} (hInv : Inv s)
    (h : markCounting oid s = .ok s') : Inv s' := by
  unfold markCounting at h
  split at h
  · cases h
  · next o hfind =>
    split at h
    · next hst =>
      cases h
      refine inv_updateOrder hInv hfind _ rfl rfl rfl ?_ ?_ ?_ ?_ <;>
        simp [hst, reservedStatus, preBilledStatus, postEstimateStatus]
    · cases h

theorem estimateItem_fst (st : List Stock) (t : Nat) (i : OrderItem) :
    ((estimateItem st t i).1).id = i.id ∧
    ((estimateItem st t i).1).productId = i.productId ∧
    ((estimateItem st t i).1).boxesRequested = i.boxesRequested ∧
    ((estimateItem st t i).1).allocations = i.allocations := by
  simp only [estimateItem]
  by_cases h₁ : i.boxesRequested ≤ totalAvailable st t i.productId
  · rw [if_pos h₁]; exact ⟨rfl, rfl, rfl, rfl⟩
  · rw [if_neg h₁]
    by_cases h₂ : 0 < totalAvailable st t i.productId
    · rw [if_pos h₂]; exact ⟨rfl, rfl, rfl, rfl⟩
    · rw [if_neg h₂]; exact ⟨rfl, rfl, rfl, rfl⟩

theorem estimateItem_sum (st : List Stock) (t : Nat) (i : OrderItem) :
    ((estimateItem st t i).1).boxesFulfilled +
      ((estimateItem st t i).1).boxesPending = i.boxesRequested := by
  simp only [estimateItem]
  by_cases h₁ : i.boxesRequested ≤ totalAvailable st t i.productId
  · rw [if_pos h₁]; simp
  · rw [if_neg h₁]
    by_cases h₂ : 0 < totalAvailable st t i.productId
    · rw [if_pos h₂]; simp
    · rw [if_neg h₂]; simp

theorem mkChildOrder_item_fields {parent : Order}
    {childItems : List (Nat × Boxes)} {tick : Nat} :
    ∀ i ∈ (mkChildOrder parent childItems tick).items,
      i.allocations = [] ∧ i.boxesPending = 0 ∧
      i.boxesFulfilled = i.boxesRequested := by
  intro i hi
  simp only [mkChildOrder, List.mem_map] at hi
  obtain ⟨pq, hpq, rfl⟩ := hi
  exact ⟨rfl, rfl, rfl⟩

theorem inv_estimateOrder {s s' : DbState} {oid : Nat} (hInv : Inv s)
    (h : estimateOrder oid s = .ok s') : Inv s' := by
  obtain ⟨hsn, hslt, hsort, hon, holt, hall, hpree, hresv, hdisp, hbz,
    hsum, hisum⟩ := hInv
  unfold estimateOrder at h
  split at h
  · cases h
  · next o hfind =>
    split at h
    · next hst =>
      cases h
      have hfind' : s.orders.find? (fun x => x.id == oid) = some o := hfind
      obtain ⟨hoid, l₁, l₂, hl, hl₁⟩ := find?_id_decomp hfind'
      have hl₂ : ∀ x ∈ l₂, x.id ≠ oid := by
        intro x hx
        rw [← hoid]
        exact nodup_decomp_right (hl ▸ hon) x hx
      have hmem₁ : ∀ x ∈ l₁, x ∈ s.orders := by
        intro x hx; rw [hl]; exact List.mem_append.mpr (Or.inl hx)
      have hmem₂ : ∀ x ∈ l₂, x ∈ s.orders := by
        intro x hx; rw [hl]; simp [hx]
      have homem : o ∈ s.orders := by rw [hl]; simp
      have halloc_map :
          (((o.items.map (estimateItem s.stocks o.tenantId)).map Prod.fst).map
            OrderItem.allocations) = o.items.map OrderItem.allocations := by
        rw [List.map_map, List.map_map]
        exact List.map_congr_left (fun i _ =>
          (estimateItem_fst s.stocks o.tenantId i).2.2.2)
      have halloc_of_mem : ∀ i' ∈ (o.items.map
          (estimateItem s.stocks o.tenantId)).map Prod.fst,
          ∃ i ∈ o.items, i'.allocations = i.allocations := by
        intro i' hi'
        have hmm : i'.allocations ∈ (((o.items.map
            (estimateItem s.stocks o.tenantId)).map Prod.fst).map
              OrderItem.allocations) := List.mem_map_of_mem _ hi'
        rw [halloc_map] at hmm
        simp only [List.mem_map] at hmm
        obtain ⟨i, hi, he⟩ := hmm
        exact ⟨i, hi, he.symm⟩
      have hsum_of_mem : ∀ i' ∈ (o.items.map
          (estimateItem s.stocks o.tenantId)).map Prod.fst,
          i'.boxesFulfilled + i'.boxesPending = i'.boxesRequested := by
        intro i' hi'
        simp only [List.map_map, List.mem_map] at hi'
        obtain ⟨i, hi, rfl⟩ := hi'
        simp only [Function.comp]
        rw [(estimateItem_fst s.stocks o.tenantId i).2.2.1]
        exact estimateItem_sum s.stocks o.tenantId i
      have hmap : s.orders.map (fun p => if p.id = oid then
          { p with status := OrderStatus.estimated,
                   estimatedAt := some s.tick,
                   items := (o.items.map
                     (estimateItem s.stocks o.tenantId)).map Prod.fst }
          else p) = l₁ ++
            { o with status := OrderStatus.estimated,
                     estimatedAt := some s.tick,
                     items := (o.items.map
                       (estimateItem s.stocks o.tenantId)).map Prod.fst }
            :: l₂ := by
        rw [hl]; exact map_update_decomp _ hl₁ hl₂ hoid
      have hcontribGo : ∀ (pred : OrderStatus → Bool),
          pred OrderStatus.estimated = false →
          pred OrderStatus.approved = false → ∀ sid,
          statusContrib pred (l₁ ++
            { o with status := OrderStatus.estimated,
                     estimatedAt := some s.tick,
                     items := (o.items.map
                       (estimateItem s.stocks o.tenantId)).map Prod.fst }
            :: l₂) sid = statusContrib pred s.orders sid := by
        intro pred h₁ h₂ sid
        rw [hl, statusContrib_append, statusContrib_append,
          statusContrib_cons, statusContrib_cons]
        have hz₁ : orderContrib pred sid
            { o with status := OrderStatus.estimated,
                     estimatedAt := some s.tick,
                     items := (o.items.map
                       (estimateItem s.stocks o.tenantId)).map Prod.fst }
            = 0 := by
          unfold orderContrib
          simp only [h₁]
          rfl
        have hz₂ : orderContrib pred sid o = 0 := by
          unfold orderContrib
          rw [hst]
          simp only [h₂]
          rfl
        rw [hz₁, hz₂]
      have hidseq : (l₁ ++
          { o with status := OrderStatus.estimated,
                   estimatedAt := some s.tick,
                   items := (o.items.map
                     (estimateItem s.stocks o.tenantId)).map Prod.fst }
          :: l₂).map Order.id = s.orders.map Order.id := by
        rw [hl]; simp
      simp only [estimateBody]
      split
      · -- branch: no child order
        refine ⟨hsn, ?_, hsort, ?_, ?_, ?_, ?_, ?_, ?_, hbz, hsum, ?_⟩
        · show ∀ b ∈ s.stocks, b.id < s.tick + 1 ∧ b.createdAt < s.tick + 1
          intro b hb
          obtain ⟨h₁, h₂⟩ := hslt b hb
          exact ⟨by omega, by omega⟩
        · rw [hmap, hidseq]
          exact hon
        · show ∀ o' ∈ (_ : List Order), o'.id < s.tick + 1 ∧ o'.orderRef < s.tick + 1
          intro o' ho'
          rw [hmap] at ho'
          rcases List.mem_append.mp ho' with hmo | hmo
          · obtain ⟨h₁, h₂⟩ := holt o' (hmem₁ o' hmo)
            exact ⟨by omega, by omega⟩
          · rcases List.mem_cons.mp hmo with rfl | hmo
            · obtain ⟨h₁, h₂⟩ := holt o homem
              exact ⟨by show o.id < s.tick + 1; omega,
                by show o.orderRef < s.tick + 1; omega⟩
            · obtain ⟨h₁, h₂⟩ := holt o' (hmem₂ o' hmo)
              exact ⟨by omega, by omega⟩
        · show ∀ o' ∈ (_ : List Order), ∀ i ∈ o'.items,
            ∀ a ∈ i.allocations, 0 ≤ a.boxesAllocated ∧ a.stockId < s.tick + 1
          intro o' ho' i hi a ha
          rw [hmap] at ho'
          rcases List.mem_append.mp ho' with hmo | hmo
          · obtain ⟨h₁, h₂⟩ := hall o' (hmem₁ o' hmo) i hi a ha
            exact ⟨h₁, by omega⟩
          · rcases List.mem_cons.mp hmo with rfl | hmo
            · obtain ⟨iold, hiold, he⟩ := halloc_of_mem i hi
              rw [he] at ha
              obtain ⟨h₁, h₂⟩ := hall o homem iold hiold a ha
              exact ⟨h₁, by omega⟩
            · obtain ⟨h₁, h₂⟩ := hall o' (hmem₂ o' hmo) i hi a ha
              exact ⟨h₁, by omega⟩
        · intro o' ho' hps i hi
          rw [hmap] at ho'
          rcases List.mem_append.mp ho' with hmo | hmo
          · exact hpree o' (hmem₁ o' hmo) hps i hi
          · rcases List.mem_cons.mp hmo with rfl | hmo
            · obtain ⟨iold, hiold, he⟩ := halloc_of_mem i hi
              rw [he]
              exact hpree o homem (by rw [hst]; rfl) iold hiold
            · exact hpree o' (hmem₂ o' hmo) hps i hi
        · intro b hb
          rw [hmap, hcontribGo reservedStatus rfl rfl]
          exact hresv b hb
        · intro b hb
          rw [hmap, hcontribGo (· == OrderStatus.dispatched) rfl rfl]
          exact hdisp b hb
        · intro o' ho' hps i hi
          rw [hmap] at ho'
          rcases List.mem_append.mp ho' with hmo | hmo
          · exact hisum o' (hmem₁ o' hmo) hps i hi
          · rcases List.mem_cons.mp hmo with rfl | hmo
            · exact hsum_of_mem i hi
            · exact hisum o' (hmem₂ o' hmo) hps i hi
      · -- branch: child order appended
        refine ⟨hsn, ?_, hsort, ?_, ?_, ?_, ?_, ?_, ?_, hbz, hsum, ?_⟩
        · show ∀ b ∈ s.stocks, b.id < s.tick + 2 + ((o.items.map (estimateItem s.stocks o.tenantId)).filterMap Prod.snd).length ∧ b.createdAt < s.tick + 2 + ((o.items.map (estimateItem s.stocks o.tenantId)).filterMap Prod.snd).length
          intro b hb
          obtain ⟨h₁, h₂⟩ := hslt b hb
          exact ⟨by omega, by omega⟩
        · rw [hmap, List.map_append, hidseq]
          rw [List.nodup_append]
          refine ⟨hon, by simp, ?_⟩
          intro x hx
          simp only [List.mem_map] at hx
          obtain ⟨o', ho', rfl⟩ := hx
          have := (holt o' ho').1
          simp only [mkChildOrder, List.map_cons, List.map_nil,
            List.mem_singleton]
          omega
        · show ∀ o' ∈ (_ : List Order), o'.id < s.tick + 2 + ((o.items.map (estimateItem s.stocks o.tenantId)).filterMap Prod.snd).length ∧ o'.orderRef < s.tick + 2 + ((o.items.map (estimateItem s.stocks o.tenantId)).filterMap Prod.snd).length
          intro o' ho'
          rw [hmap] at ho'
          rcases List.mem_append.mp ho' with hmo | hmo
          · rcases List.mem_append.mp hmo with hmo | hmo
            · obtain ⟨h₁, h₂⟩ := holt o' (hmem₁ o' hmo)
              exact ⟨by omega, by omega⟩
            · rcases List.mem_cons.mp hmo with rfl | hmo
              · obtain ⟨h₁, h₂⟩ := holt o homem
                exact ⟨by show o.id < s.tick + 2 + ((o.items.map (estimateItem s.stocks o.tenantId)).filterMap Prod.snd).length; omega,
                  by show o.orderRef < s.tick + 2 + ((o.items.map (estimateItem s.stocks o.tenantId)).filterMap Prod.snd).length; omega⟩
              · obtain ⟨h₁, h₂⟩ := holt o' (hmem₂ o' hmo)
                exact ⟨by omega, by omega⟩
          · simp only [List.mem_singleton] at hmo
            subst hmo
            exact ⟨by simp only [mkChildOrder]; omega,
              by simp only [mkChildOrder]; omega⟩
        · show ∀ o' ∈ (_ : List Order), ∀ i ∈ o'.items,
            ∀ a ∈ i.allocations, 0 ≤ a.boxesAllocated ∧ a.stockId < s.tick + 2 + ((o.items.map (estimateItem s.stocks o.tenantId)).filterMap Prod.snd).length
          intro o' ho' i hi a ha
          rw [hmap] at ho'
          rcases List.mem_append.mp ho' with hmo | hmo
          · rcases List.mem_append.mp hmo with hmo | hmo
            · obtain ⟨h₁, h₂⟩ := hall o' (hmem₁ o' hmo) i hi a ha
              exact ⟨h₁, by omega⟩
            · rcases List.mem_cons.mp hmo with rfl | hmo
              · obtain ⟨iold, hiold, he⟩ := halloc_of_mem i hi
                rw [he] at ha
                obtain ⟨h₁, h₂⟩ := hall o homem iold hiold a ha
                exact ⟨h₁, by omega⟩
              · obtain ⟨h₁, h₂⟩ := hall o' (hmem₂ o' hmo) i hi a ha
                exact ⟨h₁, by omega⟩
          · simp only [List.mem_singleton] at hmo
            subst hmo
            rw [(mkChildOrder_item_fields i hi).1] at ha
            cases ha
        · intro o' ho' hps i hi
          rw [hmap] at ho'
          rcases List.mem_append.mp ho' with hmo | hmo
          · rcases List.mem_append.mp hmo with hmo | hmo
            · exact hpree o' (hmem₁ o' hmo) hps i hi
            · rcases List.mem_cons.mp hmo with rfl | hmo
              · obtain ⟨iold, hiold, he⟩ := halloc_of_mem i hi
                rw [he]
                exact hpree o homem (by rw [hst]; rfl) iold hiold
              · exact hpree o' (hmem₂ o' hmo) hps i hi
          · simp only [List.mem_singleton] at hmo
            subst hmo
            exact (mkChildOrder_item_fields i hi).1
        · intro b hb
          rw [hmap, statusContrib_append, statusContrib_cons,
            statusContrib_nil, hcontribGo reservedStatus rfl rfl]
          have hz : orderContrib reservedStatus b.id
              (mkChildOrder o ((o.items.map
                (estimateItem s.stocks o.tenantId)).filterMap Prod.snd)
                (s.tick + 1)) = 0 := rfl
          rw [hz]
          rw [show statusContrib reservedStatus s.orders b.id + (0 + 0) =
            statusContrib reservedStatus s.orders b.id by ring]
          exact hresv b hb
        · intro b hb
          rw [hmap, statusContrib_append, statusContrib_cons,
            statusContrib_nil,
            hcontribGo (· == OrderStatus.dispatched) rfl rfl]
          have hz : orderContrib (· == OrderStatus.dispatched) b.id
              (mkChildOrder o ((o.items.map
                (estimateItem s.stocks o.tenantId)).filterMap Prod.snd)
                (s.tick + 1)) = 0 := rfl
          rw [hz]
          rw [show statusContrib (· == OrderStatus.dispatched) s.orders b.id
            + (0 + 0) = statusContrib (· == OrderStatus.dispatched)
              s.orders b.id by ring]
          exact hdisp b hb
        · intro o' ho' hps i hi
          rw [hmap] at ho'
          rcases List.mem_append.mp ho' with hmo | hmo
          · rcases List.mem_append.mp hmo with hmo | hmo
            · exact hisum o' (hmem₁ o' hmo) hps i hi
            · rcases List.mem_cons.mp hmo with rfl | hmo
              · exact hsum_of_mem i hi
              · exact hisum o' (hmem₂ o' hmo) hps i hi
          · simp only [List.mem_singleton] at hmo
            subst hmo
            obtain ⟨-, hp0, hfr⟩ := mkChildOrder_item_fields i hi
            rw [hp0, hfr]
            ring
    · cases h

theorem inv_billOrder {s s' : DbState} {oid : Nat} (hInv : Inv s)
    (h : billOrder oid s = .ok s') : Inv s' := by
  obtain ⟨hsn, hslt, hsort, hon, holt, hall, hpree, hresv, hdisp, hbz,
    hsum, hisum⟩ := hInv
  unfold billOrder at h
  split at h
  · cases h
  · next o hfind =>
    split at h
    · next hst =>
      split at h
      · cases h
      · next stocks1 items1 hbill =>
        cases h
        obtain ⟨hitems, hstocks⟩ :=
          billItems_ok_stocks o.tenantId o.items s.stocks stocks1 items1
            hsn hbill
        have hfind' : s.orders.find? (fun x => x.id == oid) = some o := hfind
        obtain ⟨hoid, l₁, l₂, hl, hl₁⟩ := find?_id_decomp hfind'
        have hl₂ : ∀ x ∈ l₂, x.id ≠ oid := by
          intro x hx
          rw [← hoid]
          exact nodup_decomp_right (hl ▸ hon) x hx
        have hmem₁ : ∀ x ∈ l₁, x ∈ s.orders := by
          intro x hx; rw [hl]; exact List.mem_append.mpr (Or.inl hx)
        have hmem₂ : ∀ x ∈ l₂, x ∈ s.orders := by
          intro x hx; rw [hl]; simp [hx]
        have homem : o ∈ s.orders := by rw [hl]; simp
        have hmap : s.orders.map (fun p => if p.id = oid then
            { p with status := OrderStatus.billed,
                     billedAt := some s.tick, items := items1 }
            else p) = l₁ ++
              { o with status := OrderStatus.billed,
                       billedAt := some s.tick, items := items1 }
              :: l₂ := by
          rw [hl]; exact map_update_decomp _ hl₁ hl₂ hoid
        have hold0 : ∀ sid, itemsAllocAmt o.items sid = 0 := by
          intro sid
          refine allocAmtFor_eq_zero ?_
          intro a ha
          simp only [List.mem_flatten, List.mem_map] at ha
          obtain ⟨-, ⟨i, hi, rfl⟩, hmem⟩ := ha
          rw [hpree o homem (by rw [hst]; rfl) i hi] at hmem
          cases hmem
        have hidmap : (stocks1.map Prod.fst).map Stock.id =
              s.stocks.map Stock.id ∧
            (stocks1.map Prod.fst).map Stock.createdAt =
              s.stocks.map Stock.createdAt :=
          forall₂_map_eq (hstocks.imp (fun {b b'} hb => ⟨_, hb.1⟩))
        have hstockfacts : ∀ b' ∈ stocks1.map Prod.fst, ∃ b ∈ s.stocks,
            b'.id = b.id ∧ b'.createdAt = b.createdAt ∧
            b'.boxesTotal = b.boxesTotal ∧ b'.boxesBilled = b.boxesBilled ∧
            b'.boxesDispatched = b.boxesDispatched ∧
            b'.boxesReserved = b.boxesReserved + itemsAllocAmt items1 b.id ∧
            b'.boxesAvailable = b.boxesAvailable - itemsAllocAmt items1 b.id ∧
            (0 ≤ b.boxesAvailable → 0 ≤ b'.boxesAvailable) := by
          intro b' hb'
          obtain ⟨b, hbmem, hrel, himp⟩ := forall₂_mem_right hstocks b' hb'
          refine ⟨b, hbmem, ?_, ?_, ?_, ?_, ?_, ?_, ?_, himp⟩
          · rw [hrel]; rfl
          · rw [hrel]; rfl
          · rw [hrel]; rfl
          · rw [hrel]; rfl
          · rw [hrel]; rfl
          · rw [hrel]
            simp only [reserveTransfer]
            rw [hold0 b.id]
            ring
          · rw [hrel]
            simp only [reserveTransfer]
            rw [hold0 b.id]
            ring
        have hcontribNew : ∀ sid,
            statusContrib reservedStatus (l₁ ++
              { o with status := OrderStatus.billed,
                       billedAt := some s.tick, items := items1 }
              :: l₂) sid =
            statusContrib reservedStatus s.orders sid +
              itemsAllocAmt items1 sid := by
          intro sid
          rw [hl, statusContrib_append, statusContrib_append,
            statusContrib_cons, statusContrib_cons]
          have hz₁ : orderContrib reservedStatus sid
              { o with status := OrderStatus.billed,
                       billedAt := some s.tick, items := items1 } =
              itemsAllocAmt items1 sid := rfl
          have hz₂ : orderContrib reservedStatus sid o = 0 := by
            unfold orderContrib
            rw [hst]
            rfl
          rw [hz₁, hz₂]
          ring
        have hcontribDisp : ∀ sid,
            statusContrib (· == OrderStatus.dispatched) (l₁ ++
              { o with status := OrderStatus.billed,
                       billedAt := some s.tick, items := items1 }
              :: l₂) sid =
            statusContrib (· == OrderStatus.dispatched) s.orders sid := by
          intro sid
          rw [hl, statusContrib_append, statusContrib_append,
            statusContrib_cons, statusContrib_cons]
          have hz₁ : orderContrib (· == OrderStatus.dispatched) sid
              { o with status := OrderStatus.billed,
                       billedAt := some s.tick, items := items1 } = 0 := rfl
          have hz₂ : orderContrib (· == OrderStatus.dispatched) sid o = 0 := by
            unfold orderContrib
            rw [hst]
            rfl
          rw [hz₁, hz₂]
        refine ⟨?_, ?_, ?_, ?_, ?_, ?_, ?_, ?_, ?_, ?_, ?_, ?_⟩
        · show ((stocks1.map Prod.fst).map Stock.id).Nodup
          rw [hidmap.1]; exact hsn
        · show ∀ b ∈ stocks1.map Prod.fst,
            b.id < s.tick + 1 ∧ b.createdAt < s.tick + 1
          intro b' hb'
          obtain ⟨b, hbmem, hid, hcr, -⟩ := hstockfacts b' hb'
          obtain ⟨h₁, h₂⟩ := hslt b hbmem
          rw [hid, hcr]
          exact ⟨by omega, by omega⟩
        · show (stocks1.map Prod.fst).Pairwise
            (fun a b => a.createdAt < b.createdAt)
          have h₁ : (s.stocks.map Stock.createdAt).Pairwise (· < ·) :=
            List.pairwise_map.mpr hsort
          rw [← hidmap.2] at h₁
          exact List.pairwise_map.mp h₁
        · rw [hmap]
          have he : (l₁ ++
              { o with status := OrderStatus.billed,
                       billedAt := some s.tick, items := items1 }
              :: l₂).map Order.id = s.orders.map Order.id := by
            rw [hl]; simp
          rw [he]
          exact hon
        · show ∀ o' ∈ (_ : List Order),
            o'.id < s.tick + 1 ∧ o'.orderRef < s.tick + 1
          intro o' ho'
          rw [hmap] at ho'
          rcases List.mem_append.mp ho' with hmo | hmo
          · obtain ⟨h₁, h₂⟩ := holt o' (hmem₁ o' hmo)
            exact ⟨by omega, by omega⟩
          · rcases List.mem_cons.mp hmo with rfl | hmo
            · obtain ⟨h₁, h₂⟩ := holt o homem
              exact ⟨by show o.id < s.tick + 1; omega,
                by show o.orderRef < s.tick + 1; omega⟩
            · obtain ⟨h₁, h₂⟩ := holt o' (hmem₂ o' hmo)
              exact ⟨by omega, by omega⟩
        · show ∀ o' ∈ (_ : List Order), ∀ i ∈ o'.items,
            ∀ a ∈ i.allocations, 0 ≤ a.boxesAllocated ∧
              a.stockId < s.tick + 1
          intro o' ho' i hi a ha
          rw [hmap] at ho'
          rcases List.mem_append.mp ho' with hmo | hmo
          · obtain ⟨h₁, h₂⟩ := hall o' (hmem₁ o' hmo) i hi a ha
            exact ⟨h₁, by omega⟩
          · rcases List.mem_cons.mp hmo with rfl | hmo
            · obtain ⟨iold, hioldmem, hrel⟩ := forall₂_mem_right hitems i hi
              obtain ⟨-, -, -, -, -, new, hnew, -, hnewok⟩ := hrel
              rw [hnew] at ha
              rcases List.mem_append.mp ha with ha | ha
              · obtain ⟨h₁, h₂⟩ := hall o homem iold hioldmem a ha
                exact ⟨h₁, by omega⟩
              · obtain ⟨h₁, h₂⟩ := hnewok a ha
                simp only [List.mem_map] at h₂
                obtain ⟨b, hbmem, hbid⟩ := h₂
                have := (hslt b hbmem).1
                exact ⟨h₁, by omega⟩
            · obtain ⟨h₁, h₂⟩ := hall o' (hmem₂ o' hmo) i hi a ha
              exact ⟨h₁, by omega⟩
        · intro o' ho' hps i hi
          rw [hmap] at ho'
          rcases List.mem_append.mp ho' with hmo | hmo
          · exact hpree o' (hmem₁ o' hmo) hps i hi
          · rcases List.mem_cons.mp hmo with rfl | hmo
            · simp only [preBilledStatus] at hps
              cases hps
            · exact hpree o' (hmem₂ o' hmo) hps i hi
        · show ∀ b ∈ stocks1.map Prod.fst,
            b.boxesReserved = statusContrib reservedStatus
            (s.orders.map (fun p => if p.id = oid then
              { p with status := OrderStatus.billed,
                       billedAt := some s.tick, items := items1 }
              else p)) b.id
          intro b' hb'
          obtain ⟨b, hbmem, hid, -, -, -, -, hres, -, -⟩ := hstockfacts b' hb'
          rw [hmap, hid, hcontribNew b.id, hres, hresv b hbmem]
        · show ∀ b ∈ stocks1.map Prod.fst, b.boxesDispatched =
            statusContrib (· == OrderStatus.dispatched)
            (s.orders.map (fun p => if p.id = oid then
              { p with status := OrderStatus.billed,
                       billedAt := some s.tick, items := items1 }
              else p)) b.id
          intro b' hb'
          obtain ⟨b, hbmem, hid, -, -, -, hdis, -, -, -⟩ := hstockfacts b' hb'
          rw [hmap, hid, hcontribDisp b.id, hdis, hdisp b hbmem]
        · show ∀ b ∈ stocks1.map Prod.fst, b.boxesBilled = 0
          intro b' hb'
          obtain ⟨b, hbmem, -, -, -, hbb, -⟩ := hstockfacts b' hb'
          rw [hbb]
          exact hbz b hbmem
        · show ∀ b ∈ stocks1.map Prod.fst,
            b.boxesAvailable + b.boxesReserved +
            b.boxesDispatched ≤ b.boxesTotal
          intro b' hb'
          obtain ⟨b, hbmem, -, -, htot, -, hdis, hres, havq, -⟩ :=
            hstockfacts b' hb'
          rw [htot, hdis, hres, havq]
          have := hsum b hbmem
          linarith
        · intro o' ho' hps i hi
          rw [hmap] at ho'
          rcases List.mem_append.mp ho' with hmo | hmo
          · exact hisum o' (hmem₁ o' hmo) hps i hi
          · rcases List.mem_cons.mp hmo with rfl | hmo
            · obtain ⟨iold, hioldmem, hrel⟩ := forall₂_mem_right hitems i hi
              obtain ⟨-, -, hreq, hful, hpen, -⟩ := hrel
              rw [hreq, hful, hpen]
              exact hisum o homem (by rw [hst]; rfl) iold hioldmem
            · exact hisum o' (hmem₂ o' hmo) hps i hi
    · cases h

theorem dispatchTransfer_zero (b : Stock) : dispatchTransfer b 0 = b := by
  cases b; simp [dispatchTransfer]

theorem deliverTransfer_zero (b : Stock) : deliverTransfer b 0 = b := by
  cases b; simp [deliverTransfer]

theorem dispatchTransfer_comp (b : Stock) (a₁ a₂ : Boxes) :
    dispatchTransfer (dispatchTransfer b a₁) a₂ =
      dispatchTransfer b (a₁ + a₂) := by
  simp only [dispatchTransfer]
  congr 1 <;> ring

theorem deliverTransfer_comp (b : Stock) (a₁ a₂ : Boxes) :
    deliverTransfer (deliverTransfer b a₁) a₂ =
      deliverTransfer b (a₁ + a₂) := by
  simp only [deliverTransfer]
  congr 1 <;> ring

/-- The dispatch loop in aggregate: every batch loses the boxes the
processed allocations reserve on it and gains them as dispatched; batches no
allocation references (including deleted ids) are untouched. -/
theorem foldl_dispatchAlloc (allocs : List OrderItemAllocation) :
    ∀ (stocks : List Stock),
      allocs.foldl applyDispatchAlloc stocks =
        stocks.map (fun b => dispatchTransfer b (allocAmtFor allocs b.id)) := by
  induction allocs with
  | nil =>
    intro stocks
    simp only [List.foldl_nil, allocAmtFor_nil, dispatchTransfer_zero]
    exact (List.map_id _).symm
  | cons a rest ih =>
    intro stocks
    rw [List.foldl_cons, ih, applyDispatchAlloc, List.map_map]
    refine List.map_congr_left (fun b _ => ?_)
    simp only [Function.comp]
    by_cases hb : b.id = a.stockId
    · rw [if_pos hb]
      have h₁ : ({ b with
          boxesReserved := b.boxesReserved - a.boxesAllocated,
          boxesDispatched := b.boxesDispatched + a.boxesAllocated } : Stock) =
          dispatchTransfer b a.boxesAllocated := rfl
      rw [h₁, dispatchTransfer_comp]
      congr 1
      rw [allocAmtFor_cons, if_pos hb.symm]
      rfl
    · rw [if_neg hb]
      congr 1
      rw [allocAmtFor_cons, if_neg (fun he => hb he.symm), zero_add]

/-- The deliver loop in aggregate. -/
theorem foldl_deliverAlloc (allocs : List OrderItemAllocation) :
    ∀ (stocks : List Stock),
      allocs.foldl applyDeliverAlloc stocks =
        stocks.map (fun b => deliverTransfer b (allocAmtFor allocs b.id)) := by
  induction allocs with
  | nil =>
    intro stocks
    simp only [List.foldl_nil, allocAmtFor_nil, deliverTransfer_zero]
    exact (List.map_id _).symm
  | cons a rest ih =>
    intro stocks
    rw [List.foldl_cons, ih, applyDeliverAlloc, List.map_map]
    refine List.map_congr_left (fun b _ => ?_)
    simp only [Function.comp]
    by_cases hb : b.id = a.stockId
    · rw [if_pos hb]
      have h₁ : ({ b with
          boxesDispatched := b.boxesDispatched - a.boxesAllocated,
          boxesTotal := b.boxesTotal - a.boxesAllocated } : Stock) =
          deliverTransfer b a.boxesAllocated := rfl
      rw [h₁, deliverTransfer_comp]
      congr 1
      rw [allocAmtFor_cons, if_pos hb.symm]
      rfl
    · rw [if_neg hb]
      congr 1
      rw [allocAmtFor_cons, if_neg (fun he => hb he.symm), zero_add]

theorem inv_dispatchOrder {s s' : DbState} {oid : Nat} (hInv : Inv s)
    (h : dispatchOrder oid s = .ok s') : Inv s' := by
  obtain ⟨hsn, hslt, hsort, hon, holt, hall, hpree, hresv, hdisp, hbz,
    hsum, hisum⟩ := hInv
  unfold dispatchOrder at h
  split at h
  · cases h
  · next o hfind =>
    split at h
    · next hst =>
      cases h
      have hfind' : s.orders.find? (fun x => x.id == oid) = some o := hfind
      obtain ⟨hoid, l₁, l₂, hl, hl₁⟩ := find?_id_decomp hfind'
      have hl₂ : ∀ x ∈ l₂, x.id ≠ oid := by
        intro x hx
        rw [← hoid]
        exact nodup_decomp_right (hl ▸ hon) x hx
      have hmem₁ : ∀ x ∈ l₁, x ∈ s.orders := by
        intro x hx; rw [hl]; exact List.mem_append.mpr (Or.inl hx)
      have hmem₂ : ∀ x ∈ l₂, x ∈ s.orders := by
        intro x hx; rw [hl]; simp [hx]
      have homem : o ∈ s.orders := by rw [hl]; simp
      have hmap : s.orders.map (fun p => if p.id = oid then
          { p with status := OrderStatus.dispatched,
                   dispatchedAt := some s.tick }
          else p) = l₁ ++
            { o with status := OrderStatus.dispatched,
                     dispatchedAt := some s.tick }
            :: l₂ := by
        rw [hl]; exact map_update_decomp _ hl₁ hl₂ hoid
      have hfold := foldl_dispatchAlloc (orderAllocs o) s.stocks
      have hcontribRes : ∀ sid,
          statusContrib reservedStatus (l₁ ++
            { o with status := OrderStatus.dispatched,
                     dispatchedAt := some s.tick }
            :: l₂) sid =
          statusContrib reservedStatus s.orders sid -
            allocAmtFor (orderAllocs o) sid := by
        intro sid
        rw [hl, statusContrib_append, statusContrib_append,
          statusContrib_cons, statusContrib_cons]
        have hz₁ : orderContrib reservedStatus sid
            { o with status := OrderStatus.dispatched,
                     dispatchedAt := some s.tick } = 0 := rfl
        have hz₂ : orderContrib reservedStatus sid o =
            allocAmtFor (orderAllocs o) sid := by
          unfold orderContrib
          rw [hst]
          rfl
        rw [hz₁, hz₂]
        ring
      have hcontribDis : ∀ sid,
          statusContrib (· == OrderStatus.dispatched) (l₁ ++
            { o with status := OrderStatus.dispatched,
                     dispatchedAt := some s.tick }
            :: l₂) sid =
          statusContrib (· == OrderStatus.dispatched) s.orders sid +
            allocAmtFor (orderAllocs o) sid := by
        intro sid
        rw [hl, statusContrib_append, statusContrib_append,
          statusContrib_cons, statusContrib_cons]
        have hz₁ : orderContrib (· == OrderStatus.dispatched) sid
            { o with status := OrderStatus.dispatched,
                     dispatchedAt := some s.tick } =
            allocAmtFor (orderAllocs o) sid := rfl
        have hz₂ : orderContrib (· == OrderStatus.dispatched) sid o = 0 := by
          unfold orderContrib
          rw [hst]
          rfl
        rw [hz₁, hz₂]
        ring
      refine ⟨?_, ?_, ?_, ?_, ?_, ?_, ?_, ?_, ?_, ?_, ?_, ?_⟩
      · show (((orderAllocs o).foldl applyDispatchAlloc s.stocks).map
          Stock.id).Nodup
        rw [hfold, List.map_map]
        have he : (Stock.id ∘ fun b =>
            dispatchTransfer b (allocAmtFor (orderAllocs o) b.id)) =
            Stock.id := rfl
        rw [he]
        exact hsn
      · show ∀ b ∈ (orderAllocs o).foldl applyDispatchAlloc s.stocks,
          b.id < s.tick + 1 ∧ b.createdAt < s.tick + 1
        intro b' hb'
        rw [hfold] at hb'
        simp only [List.mem_map] at hb'
        obtain ⟨b, hbmem, rfl⟩ := hb'
        obtain ⟨h₁, h₂⟩ := hslt b hbmem
        exact ⟨by show b.id < s.tick + 1; omega,
          by show b.createdAt < s.tick + 1; omega⟩
      · show ((orderAllocs o).foldl applyDispatchAlloc s.stocks).Pairwise
          (fun a b => a.createdAt < b.createdAt)
        rw [hfold, List.pairwise_map]
        exact hsort
      · rw [hmap]
        have he : (l₁ ++
            { o with status := OrderStatus.dispatched,
                     dispatchedAt := some s.tick }
            :: l₂).map Order.id = s.orders.map Order.id := by
          rw [hl]; simp
        rw [he]
        exact hon
      · show ∀ o' ∈ (_ : List Order),
          o'.id < s.tick + 1 ∧ o'.orderRef < s.tick + 1
        intro o' ho'
        rw [hmap] at ho'
        rcases List.mem_append.mp ho' with hmo | hmo
        · obtain ⟨h₁, h₂⟩ := holt o' (hmem₁ o' hmo)
          exact ⟨by omega, by omega⟩
        · rcases List.mem_cons.mp hmo with rfl | hmo
          · obtain ⟨h₁, h₂⟩ := holt o homem
            exact ⟨by show o.id < s.tick + 1; omega,
              by show o.orderRef < s.tick + 1; omega⟩
          · obtain ⟨h₁, h₂⟩ := holt o' (hmem₂ o' hmo)
            exact ⟨by omega, by omega⟩
      · show ∀ o' ∈ (_ : List Order), ∀ i ∈ o'.items,
          ∀ a ∈ i.allocations, 0 ≤ a.boxesAllocated ∧ a.stockId < s.tick + 1
        intro o' ho' i hi a ha
        rw [hmap] at ho'
        rcases List.mem_append.mp ho' with hmo | hmo
        · obtain ⟨h₁, h₂⟩ := hall o' (hmem₁ o' hmo) i hi a ha
          exact ⟨h₁, by omega⟩
        · rcases List.mem_cons.mp hmo with rfl | hmo
          · obtain ⟨h₁, h₂⟩ := hall o homem i hi a ha
            exact ⟨h₁, by omega⟩
          · obtain ⟨h₁, h₂⟩ := hall o' (hmem₂ o' hmo) i hi a ha
            exact ⟨h₁, by omega⟩
      · intro o' ho' hps i hi
        rw [hmap] at ho'
        rcases List.mem_append.mp ho' with hmo | hmo
        · exact hpree o' (hmem₁ o' hmo) hps i hi
        · rcases List.mem_cons.mp hmo with rfl | hmo
          · simp only [preBilledStatus] at hps
            cases hps
          · exact hpree o' (hmem₂ o' hmo) hps i hi
      · show ∀ b ∈ (orderAllocs o).foldl applyDispatchAlloc s.stocks,
          b.boxesReserved = statusContrib reservedStatus
            (s.orders.map (fun p => if p.id = oid then
              { p with status := OrderStatus.dispatched,
                       dispatchedAt := some s.tick }
              else p)) b.id
        intro b' hb'
        rw [hfold] at hb'
        simp only [List.mem_map] at hb'
        obtain ⟨b, hbmem, rfl⟩ := hb'
        rw [hmap]
        have hid : (dispatchTransfer b
            (allocAmtFor (orderAllocs o) b.id)).id = b.id := rfl
        rw [hid, hcontribRes b.id]
        have hres : (dispatchTransfer b
            (allocAmtFor (orderAllocs o) b.id)).boxesReserved =
            b.boxesReserved - allocAmtFor (orderAllocs o) b.id := rfl
        rw [hres, hresv b hbmem]
      · show ∀ b ∈ (orderAllocs o).foldl applyDispatchAlloc s.stocks,
          b.boxesDispatched = statusContrib (· == OrderStatus.dispatched)
            (s.orders.map (fun p => if p.id = oid then
              { p with status := OrderStatus.dispatched,
                       dispatchedAt := some s.tick }
              else p)) b.id
        intro b' hb'
        rw [hfold] at hb'
        simp only [List.mem_map] at hb'
        obtain ⟨b, hbmem, rfl⟩ := hb'
        rw [hmap]
        have hid : (dispatchTransfer b
            (allocAmtFor (orderAllocs o) b.id)).id = b.id := rfl
        rw [hid, hcontribDis b.id]
        have hdi : (dispatchTransfer b
            (allocAmtFor (orderAllocs o) b.id)).boxesDispatched =
            b.boxesDispatched + allocAmtFor (orderAllocs o) b.id := rfl
        rw [hdi, hdisp b hbmem]
      · show ∀ b ∈ (orderAllocs o).foldl applyDispatchAlloc s.stocks,
          b.boxesBilled = 0
        intro b' hb'
        rw [hfold] at hb'
        simp only [List.mem_map] at hb'
        obtain ⟨b, hbmem, rfl⟩ := hb'
        exact hbz b hbmem
      · show ∀ b ∈ (orderAllocs o).foldl applyDispatchAlloc s.stocks,
          b.boxesAvailable + b.boxesReserved + b.boxesDispatched ≤
            b.boxesTotal
        intro b' hb'
        rw [hfold] at hb'
        simp only [List.mem_map] at hb'
        obtain ⟨b, hbmem, rfl⟩ := hb'
        have := hsum b hbmem
        simp only [dispatchTransfer]
        linarith
      · intro o' ho' hps i hi
        rw [hmap] at ho'
        rcases List.mem_append.mp ho' with hmo | hmo
        · exact hisum o' (hmem₁ o' hmo) hps i hi
        · rcases List.mem_cons.mp hmo with rfl | hmo
          · exact hisum o homem (by rw [hst]; rfl) i hi
          · exact hisum o' (hmem₂ o' hmo) hps i hi
    · cases h

theorem inv_deliverOrder {s s' : DbState} {oid : Nat} (hInv : Inv s)
    (h : deliverOrder oid s = .ok s') : Inv s' := by
  obtain ⟨hsn, hslt, hsort, hon, holt, hall, hpree, hresv, hdisp, hbz,
    hsum, hisum⟩ := hInv
  unfold deliverOrder at h
  split at h
  · cases h
  · next o hfind =>
    split at h
    · next hst =>
      cases h
      have hfind' : s.orders.find? (fun x => x.id == oid) = some o := hfind
      obtain ⟨hoid, l₁, l₂, hl, hl₁⟩ := find?_id_decomp hfind'
      have hl₂ : ∀ x ∈ l₂, x.id ≠ oid := by
        intro x hx
        rw [← hoid]
        exact nodup_decomp_right (hl ▸ hon) x hx
      have hmem₁ : ∀ x ∈ l₁, x ∈ s.orders := by
        intro x hx; rw [hl]; exact List.mem_append.mpr (Or.inl hx)
      have hmem₂ : ∀ x ∈ l₂, x ∈ s.orders := by
        intro x hx; rw [hl]; simp [hx]
      have homem : o ∈ s.orders := by rw [hl]; simp
      have hmap : s.orders.map (fun p => if p.id = oid then
          { p with status := OrderStatus.delivered,
                   deliveredAt := some s.tick }
          else p) = l₁ ++
            { o with status := OrderStatus.delivered,
                     deliveredAt := some s.tick }
            :: l₂ := by
        rw [hl]; exact map_update_decomp _ hl₁ hl₂ hoid
      have hfold := foldl_deliverAlloc (orderAllocs o) s.stocks
      have hcontribRes : ∀ sid,
          statusContrib reservedStatus (l₁ ++
            { o with status := OrderStatus.delivered,
                     deliveredAt := some s.tick }
            :: l₂) sid =
          statusContrib reservedStatus s.orders sid := by
        intro sid
        rw [hl, statusContrib_append, statusContrib_append,
          statusContrib_cons, statusContrib_cons]
        have hz₁ : orderContrib reservedStatus sid
            { o with status := OrderStatus.delivered,
                     deliveredAt := some s.tick } = 0 := rfl
        have hz₂ : orderContrib reservedStatus sid o = 0 := by
          unfold orderContrib
          rw [hst]
          rfl
        rw [hz₁, hz₂]
      have hcontribDis : ∀ sid,
          statusContrib (· == OrderStatus.dispatched) (l₁ ++
            { o with status := OrderStatus.delivered,
                     deliveredAt := some s.tick }
            :: l₂) sid =
          statusContrib (· == OrderStatus.dispatched) s.orders sid -
            allocAmtFor (orderAllocs o) sid := by
        intro sid
        rw [hl, statusContrib_append, statusContrib_append,
          statusContrib_cons, statusContrib_cons]
        have hz₁ : orderContrib (· == OrderStatus.dispatched) sid
            { o with status := OrderStatus.delivered,
                     deliveredAt := some s.tick } = 0 := rfl
        have hz₂ : orderContrib (· == OrderStatus.dispatched) sid o =
            allocAmtFor (orderAllocs o) sid := by
          unfold orderContrib
          rw [hst]
          rfl
        rw [hz₁, hz₂]
        ring
      refine ⟨?_, ?_, ?_, ?_, ?_, ?_, ?_, ?_, ?_, ?_, ?_, ?_⟩
      · show (((orderAllocs o).foldl applyDeliverAlloc s.stocks).map
          Stock.id).Nodup
        rw [hfold, List.map_map]
        have he : (Stock.id ∘ fun b =>
            deliverTransfer b (allocAmtFor (orderAllocs o) b.id)) =
            Stock.id := rfl
        rw [he]
        exact hsn
      · show ∀ b ∈ (orderAllocs o).foldl applyDeliverAlloc s.stocks,
          b.id < s.tick + 1 ∧ b.createdAt < s.tick + 1
        intro b' hb'
        rw [hfold] at hb'
        simp only [List.mem_map] at hb'
        obtain ⟨b, hbmem, rfl⟩ := hb'
        obtain ⟨h₁, h₂⟩ := hslt b hbmem
        exact ⟨by show b.id < s.tick + 1; omega,
          by show b.createdAt < s.tick + 1; omega⟩
      · show ((orderAllocs o).foldl applyDeliverAlloc s.stocks).Pairwise
          (fun a b => a.createdAt < b.createdAt)
        rw [hfold, List.pairwise_map]
        exact hsort
      · rw [hmap]
        have he : (l₁ ++
            { o with status := OrderStatus.delivered,
                     deliveredAt := some s.tick }
            :: l₂).map Order.id = s.orders.map Order.id := by
          rw [hl]; simp
        rw [he]
        exact hon
      · show ∀ o' ∈ (_ : List Order),
          o'.id < s.tick + 1 ∧ o'.orderRef < s.tick + 1
        intro o' ho'
        rw [hmap] at ho'
        rcases List.mem_append.mp ho' with hmo | hmo
        · obtain ⟨h₁, h₂⟩ := holt o' (hmem₁ o' hmo)
          exact ⟨by omega, by omega⟩
        · rcases List.mem_cons.mp hmo with rfl | hmo
          · obtain ⟨h₁, h₂⟩ := holt o homem
            exact ⟨by show o.id < s.tick + 1; omega,
              by show o.orderRef < s.tick + 1; omega⟩
          · obtain ⟨h₁, h₂⟩ := holt o' (hmem₂ o' hmo)
            exact ⟨by omega, by omega⟩
      · show ∀ o' ∈ (_ : List Order), ∀ i ∈ o'.items,
          ∀ a ∈ i.allocations, 0 ≤ a.boxesAllocated ∧ a.stockId < s.tick + 1
        intro o' ho' i hi a ha
        rw [hmap] at ho'
        rcases List.mem_append.mp ho' with hmo | hmo
        · obtain ⟨h₁, h₂⟩ := hall o' (hmem₁ o' hmo) i hi a ha
          exact ⟨h₁, by omega⟩
        · rcases List.mem_cons.mp hmo with rfl | hmo
          · obtain ⟨h₁, h₂⟩ := hall o homem i hi a ha
            exact ⟨h₁, by omega⟩
          · obtain ⟨h₁, h₂⟩ := hall o' (hmem₂ o' hmo) i hi a ha
            exact ⟨h₁, by omega⟩
      · intro o' ho' hps i hi
        rw [hmap] at ho'
        rcases List.mem_append.mp ho' with hmo | hmo
        · exact hpree o' (hmem₁ o' hmo) hps i hi
        · rcases List.mem_cons.mp hmo with rfl | hmo
          · simp only [preBilledStatus] at hps
            cases hps
          · exact hpree o' (hmem₂ o' hmo) hps i hi
      · show ∀ b ∈ (orderAllocs o).foldl applyDeliverAlloc s.stocks,
          b.boxesReserved = statusContrib reservedStatus
            (s.orders.map (fun p => if p.id = oid then
              { p with status := OrderStatus.delivered,
                       deliveredAt := some s.tick }
              else p)) b.id
        intro b' hb'
        rw [hfold] at hb'
        simp only [List.mem_map] at hb'
        obtain ⟨b, hbmem, rfl⟩ := hb'
        rw [hmap]
        have hid : (deliverTransfer b
            (allocAmtFor (orderAllocs o) b.id)).id = b.id := rfl
        rw [hid, hcontribRes b.id]
        have hres : (deliverTransfer b
            (allocAmtFor (orderAllocs o) b.id)).boxesReserved =
            b.boxesReserved := rfl
        rw [hres, hresv b hbmem]
      · show ∀ b ∈ (orderAllocs o).foldl applyDeliverAlloc s.stocks,
          b.boxesDispatched = statusContrib (· == OrderStatus.dispatched)
            (s.orders.map (fun p => if p.id = oid then
              { p with status := OrderStatus.delivered,
                       deliveredAt := some s.tick }
              else p)) b.id
        intro b' hb'
        rw [hfold] at hb'
        simp only [List.mem_map] at hb'
        obtain ⟨b, hbmem, rfl⟩ := hb'
        rw [hmap]
        have hid : (deliverTransfer b
            (allocAmtFor (orderAllocs o) b.id)).id = b.id := rfl
        rw [hid, hcontribDis b.id]
        have hdi : (deliverTransfer b
            (allocAmtFor (orderAllocs o) b.id)).boxesDispatched =
            b.boxesDispatched - allocAmtFor (orderAllocs o) b.id := rfl
        rw [hdi, hdisp b hbmem]
      · show ∀ b ∈ (orderAllocs o).foldl applyDeliverAlloc s.stocks,
          b.boxesBilled = 0
        intro b' hb'
        rw [hfold] at hb'
        simp only [List.mem_map] at hb'
        obtain ⟨b, hbmem, rfl⟩ := hb'
        exact hbz b hbmem
      · show ∀ b ∈ (orderAllocs o).foldl applyDeliverAlloc s.stocks,
          b.boxesAvailable + b.boxesReserved + b.boxesDispatched ≤
            b.boxesTotal
        intro b' hb'
        rw [hfold] at hb'
        simp only [List.mem_map] at hb'
        obtain ⟨b, hbmem, rfl⟩ := hb'
        have := hsum b hbmem
        simp only [deliverTransfer]
        linarith
      · intro o' ho' hps i hi
        rw [hmap] at ho'
        rcases List.mem_append.mp ho' with hmo | hmo
        · exact hisum o' (hmem₁ o' hmo) hps i hi
        · rcases List.mem_cons.mp hmo with rfl | hmo
          · exact hisum o homem (by rw [hst]; rfl) i hi
          · exact hisum o' (hmem₂ o' hmo) hps i hi
    · cases h

theorem inv_markPacking {s s' : DbState} {oid : Nat} (hInv : Inv s)
    (h : markPacking oid s = .ok s') : Inv s' := by
  unfold markPacking at h
  split at h
  · cases h
  · next o hfind =>
    split at h
    · next hst =>
      cases h
      refine inv_updateOrder hInv hfind _ rfl rfl rfl ?_ ?_ ?_ ?_ <;>
        simp [hst, reservedStatus, preBilledStatus, postEstimateStatus]
    · cases h

/-- Every successful request preserves the ledger invariant. -/
theorem inv_applyOp {s s' : DbState} {op : Op} (hInv : Inv s)
    (h : applyOp op s = .ok s') : Inv s' := by
  cases op with
  | addStock t p n => cases h; exact inv_addStock hInv
  | deleteStock sid => exact inv_deleteStock hInv h
  | createOrder t sh c u items => cases h; exact inv_createOrder hInv
  | submit oid => exact inv_submitOrder hInv h
  | forward oid => exact inv_forwardOrder hInv h
  | approve oid => exact inv_approveOrder hInv h
  | hold oid => exact inv_holdOrder hInv h
  | cancel oid => exact inv_cancelOrder hInv h
  | estimate oid => exact inv_estimateOrder hInv h
  | bill oid => exact inv_billOrder hInv h
  | counting oid => exact inv_markCounting hInv h
  | packing oid => exact inv_markPacking hInv h
  | dispatch oid => exact inv_dispatchOrder hInv h
  | deliver oid => exact inv_deliverOrder hInv h

theorem inv_runOp {s : DbState} {op : Op} (hInv : Inv s) :
    Inv (runOp s op) := by
  unfold runOp
  split
  · next s' hres => exact inv_applyOp hInv hres
  · exact hInv

theorem inv_initState : Inv initState := by
  refine ⟨?_, ?_, ?_, ?_, ?_, ?_, ?_, ?_, ?_, ?_, ?_, ?_⟩ <;>
    simp [initState]

theorem inv_foldl {s : DbState} (hInv : Inv s) :
    ∀ (ops : List Op), Inv (ops.foldl runOp s) := by
  intro ops
  induction ops generalizing s with
  | nil => exact hInv
  | cons op rest ih =>
    rw [List.foldl_cons]
    exact ih (inv_runOp hInv)

/-- The ledger invariant holds in every state reachable from the empty
database. -/
theorem inv_execTrace (ops : List Op) : Inv (execTrace ops) :=
  inv_foldl inv_initState ops

/-- `boxes_available` stays non-negative across any successful request whose
`add_stock` payload is non-negative. -/
theorem availNonneg_applyOp {s s' : DbState} {op : Op} (hInv : Inv s)
    (hA : AvailNonneg s) (hgood : goodOp op) (h : applyOp op s = .ok s') :
    AvailNonneg s' := by
  obtain ⟨hsn, -, -, -, -, -, -, -, -, -, -, -⟩ := hInv
  cases op with
  | addStock t p n =>
    cases h
    intro b hb
    simp only [addStock, List.mem_append, List.mem_singleton] at hb
    rcases hb with hb | rfl
    · exact hA b hb
    · exact hgood
  | deleteStock sid =>
    replace h : deleteStock sid s = .ok s' := h
    unfold deleteStock at h
    split at h
    · cases h
    · next b hfind =>
      have h₂ : (if 0 < b.boxesReserved ∨ 0 < b.boxesBilled then
          (Except.error Err.stockInUse : Except Err DbState)
        else .ok { s with
          stocks := s.stocks.filter (fun c => c.id ≠ sid) }) = .ok s' := h
      by_cases hguard : 0 < b.boxesReserved ∨ 0 < b.boxesBilled
      · rw [if_pos hguard] at h₂; cases h₂
      · rw [if_neg hguard] at h₂
        cases h₂
        intro c hc
        exact hA c ((List.filter_sublist _).mem hc)
  | createOrder t sh c u items => cases h; exact hA
  | submit oid =>
    replace h : submitOrder oid s = .ok s' := h
    unfold submitOrder at h
    split at h
    · cases h
    · split at h
      · cases h; exact hA
      · cases h
  | forward oid =>
    replace h : forwardOrder oid s = .ok s' := h
    unfold forwardOrder at h
    split at h
    · cases h
    · split at h
      · cases h; exact hA
      · cases h
  | approve oid =>
    replace h : approveOrder oid s = .ok s' := h
    unfold approveOrder at h
    split at h
    · cases h
    · split at h
      · cases h; exact hA
      · cases h
  | hold oid =>
    replace h : holdOrder oid s = .ok s' := h
    unfold holdOrder at h
    split at h
    · cases h
    · split at h
      · cases h; exact hA
      · cases h
  | cancel oid =>
    replace h : cancelOrder oid s = .ok s' := h
    unfold cancelOrder at h
    split at h
    · cases h
    · split at h
      · cases h; exact hA
      · cases h
  | counting oid =>
    replace h : markCounting oid s = .ok s' := h
    unfold markCounting at h
    split at h
    · cases h
    · split at h
      · cases h; exact hA
      · cases h
  | packing oid =>
    replace h : markPacking oid s = .ok s' := h
    unfold markPacking at h
    split at h
    · cases h
    · split at h
      · cases h; exact hA
      · cases h
  | estimate oid =>
    replace h : estimateOrder oid s = .ok s' := h
    unfold estimateOrder at h
    split at h
    · cases h
    · split at h
      · cases h
        simp only [estimateBody]
        split
        · exact hA
        · exact hA
      · cases h
  | bill oid =>
    replace h : billOrder oid s = .ok s' := h
    unfold billOrder at h
    split at h
    · cases h
    · next o hfind =>
      split at h
      · next hst =>
        split at h
        · cases h
        · next stocks1 items1 hbill =>
          cases h
          obtain ⟨-, hstocks⟩ := billItems_ok_stocks o.tenantId o.items
            s.stocks stocks1 items1 hsn hbill
          intro b' hb'
          obtain ⟨b, hbmem, -, himp⟩ := forall₂_mem_right hstocks b' hb'
          exact himp (hA b hbmem)
      · cases h
  | dispatch oid =>
    replace h : dispatchOrder oid s = .ok s' := h
    unfold dispatchOrder at h
    split at h
    · cases h
    · next o hfind =>
      split at h
      · cases h
        intro b' hb'
        rw [foldl_dispatchAlloc] at hb'
        simp only [List.mem_map] at hb'
        obtain ⟨b, hbmem, rfl⟩ := hb'
        exact hA b hbmem
      · cases h
  | deliver oid =>
    replace h : deliverOrder oid s = .ok s' := h
    unfold deliverOrder at h
    split at h
    · cases h
    · next o hfind =>
      split at h
      · cases h
        intro b' hb'
        rw [foldl_deliverAlloc] at hb'
        simp only [List.mem_map] at hb'
        obtain ⟨b, hbmem, rfl⟩ := hb'
        exact hA b hbmem
      · cases h

theorem availNonneg_runOp {s : DbState} {op : Op} (hInv : Inv s)
    (hA : AvailNonneg s) (hgood : goodOp op) : AvailNonneg (runOp s op) := by
  unfold runOp
  split
  · next s' hres => exact availNonneg_applyOp hInv hA hgood hres
  · exact hA

theorem availNonneg_foldl {s : DbState} (hInv : Inv s) (hA : AvailNonneg s) :
    ∀ (ops : List Op), (∀ op ∈ ops, goodOp op) →
      AvailNonneg (ops.foldl runOp s) := by
  intro ops
  induction ops generalizing s with
  | nil => intro _; exact hA
  | cons op rest ih =>
    intro hgood
    rw [List.foldl_cons]
    exact ih (inv_runOp hInv)
      (availNonneg_runOp hInv hA (hgood op (by simp)))
      (fun op' hop' => hgood op' (by simp [hop']))

theorem availNonneg_execTrace (ops : List Op)
    (hgood : ∀ op ∈ ops, goodOp op) : AvailNonneg (execTrace ops) :=
  availNonneg_foldl inv_initState (fun b hb => by simp [initState] at hb)
    ops hgood

/-! ### Stability of `boxes_requested` -/

theorem find?_append_keep {l extra : List Order} {p : Order → Bool}
    {a : Order} (h : l.find? p = some a) : (l ++ extra).find? p = some a := by
  rw [List.find?_append, h]
  rfl

theorem find?_req_forall₂ : ∀ {items items' : List OrderItem} {iid : Nat},
    List.Forall₂ (fun i i' => i'.id = i.id ∧
      i'.boxesRequested = i.boxesRequested) items items' →
    (items'.find? (fun i => i.id == iid)).map OrderItem.boxesRequested =
      (items.find? (fun i => i.id == iid)).map OrderItem.boxesRequested
  | _, _, _, List.Forall₂.nil => rfl
  | i :: l, i' :: l', iid, List.Forall₂.cons hR hrest => by
    obtain ⟨hid, hreq⟩ := hR
    rw [List.find?_cons, List.find?_cons, hid]
    cases hc : (i.id == iid) with
    | true => simp [hreq]
    | false => exact find?_req_forall₂ hrest

theorem forall₂_req_of_map {items : List OrderItem} {f : OrderItem → OrderItem}
    (hf : ∀ i, (f i).id = i.id ∧ (f i).boxesRequested = i.boxesRequested) :
    List.Forall₂ (fun i i' => i'.id = i.id ∧
      i'.boxesRequested = i.boxesRequested) items (items.map f) := by
  induction items with
  | nil => exact List.Forall₂.nil
  | cons i l ih => exact List.Forall₂.cons (hf i) ih

theorem itemReqL_append {orders extra : List Order} {oid iid : Nat}
    {r : Boxes} (h : itemReqL orders oid iid = some r) :
    itemReqL (orders ++ extra) oid iid = some r := by
  unfold itemReqL at h ⊢
  cases hfind : orders.find? (fun o => o.id == oid) with
  | none => rw [hfind] at h; cases h
  | some o =>
    rw [hfind] at h
    rw [find?_append_keep hfind]
    exact h

theorem itemReqL_map {orders : List Order} {g : Order → Order}
    {oid iid : Nat} {r : Boxes}
    (hg : ∀ p, (g p).id = p.id)
    (hreq : ∀ p ∈ orders,
      ((g p).items.find? (fun i => i.id == iid)).map
        OrderItem.boxesRequested =
      (p.items.find? (fun i => i.id == iid)).map OrderItem.boxesRequested)
    (h : itemReqL orders oid iid = some r) :
    itemReqL (orders.map g) oid iid = some r := by
  unfold itemReqL at h ⊢
  cases hfind : orders.find? (fun o => o.id == oid) with
  | none => rw [hfind] at h; cases h
  | some o =>
    rw [hfind] at h
    have hcomp : ((fun x => x.id == oid) ∘ g) =
        (fun x : Order => x.id == oid) := by
      funext p
      simp only [Function.comp]
      rw [hg p]
    rw [List.find?_map, hcomp, hfind]
    show ((g o).items.find? (fun i => i.id == iid)).map
      OrderItem.boxesRequested = some r
    rw [hreq o (List.mem_of_find?_eq_some hfind)]
    exact h

/-- With distinct order ids, any member carrying the searched id is the one
`find?` returns. -/
theorem eq_of_find?_of_mem {orders : List Order}
    (hon : (orders.map Order.id).Nodup) {oid : Nat} {o p : Order}
    (hfind : orders.find? (fun x => x.id == oid) = some o)
    (hp : p ∈ orders) (hpid : p.id = oid) : p = o := by
  obtain ⟨hoid, l₁, l₂, hl, hl₁⟩ := find?_id_decomp hfind
  have hl₂ : ∀ x ∈ l₂, x.id ≠ oid := by
    intro x hx
    rw [← hoid]
    exact nodup_decomp_right (hl ▸ hon) x hx
  rw [hl] at hp
  rcases List.mem_append.mp hp with hmo | hmo
  · exact absurd hpid (hl₁ p hmo)
  · rcases List.mem_cons.mp hmo with rfl | hmo
    · rfl
    · exact absurd hpid (hl₂ p hmo)

/-- `boxes_requested` of an existing item survives every request: no
operation rewrites it (estimate and bill replace the item list of one order
but keep the id and `boxes_requested` of each item). -/
theorem itemReq_runOp {s : DbState} {op : Op} {oid iid : Nat} {r : Boxes}
    (hInv : Inv s) (h : itemReq s oid iid = some r) :
    itemReq (runOp s op) oid iid = some r := by
  obtain ⟨hsn, -, -, hon, -, -, -, -, -, -, -, -⟩ := hInv
  unfold runOp
  split
  · next s' hres =>
    cases op with
    | addStock t p n => cases hres; exact h
    | deleteStock sid =>
      replace hres : deleteStock sid s = .ok s' := hres
      unfold deleteStock at hres
      split at hres
      · cases hres
      · next b hfindb =>
        have h₂ : (if 0 < b.boxesReserved ∨ 0 < b.boxesBilled then
            (Except.error Err.stockInUse : Except Err DbState)
          else .ok { s with
            stocks := s.stocks.filter (fun c => c.id ≠ sid) }) =
            .ok s' := hres
        by_cases hguard : 0 < b.boxesReserved ∨ 0 < b.boxesBilled
        · rw [if_pos hguard] at h₂; cases h₂
        · rw [if_neg hguard] at h₂; cases h₂; exact h
    | createOrder t sh c u items =>
      cases hres
      show itemReqL (s.orders ++ _) oid iid = some r
      exact itemReqL_append h
    | submit uid =>
      replace hres : submitOrder uid s = .ok s' := hres
      unfold submitOrder at hres
      split at hres
      · cases hres
      · split at hres
        · cases hres
          show itemReqL (s.orders.map _) oid iid = some r
          refine itemReqL_map ?_ ?_ h
          · intro p
            by_cases hp : p.id = uid <;> simp [hp]
          · intro p _
            by_cases hp : p.id = uid <;> simp [hp]
        · cases hres
    | forward uid =>
      replace hres : forwardOrder uid s = .ok s' := hres
      unfold forwardOrder at hres
      split at hres
      · cases hres
      · split at hres
        · cases hres
          show itemReqL (s.orders.map _) oid iid = some r
          refine itemReqL_map ?_ ?_ h
          · intro p
            by_cases hp : p.id = uid <;> simp [hp]
          · intro p _
            by_cases hp : p.id = uid <;> simp [hp]
        · cases hres
    | approve uid =>
      replace hres : approveOrder uid s = .ok s' := hres
      unfold approveOrder at hres
      split at hres
      · cases hres
      · split at hres
        · cases hres
          show itemReqL (s.orders.map _) oid iid = some r
          refine itemReqL_map ?_ ?_ h
          · intro p
            by_cases hp : p.id = uid <;> simp [hp]
          · intro p _
            by_cases hp : p.id = uid <;> simp [hp]
        · cases hres
    | hold uid =>
      replace hres : holdOrder uid s = .ok s' := hres
      unfold holdOrder at hres
      split at hres
      · cases hres
      · split at hres
        · cases hres
          show itemReqL (s.orders.map _) oid iid = some r
          refine itemReqL_map ?_ ?_ h
          · intro p
            by_cases hp : p.id = uid <;> simp [hp]
          · intro p _
            by_cases hp : p.id = uid <;> simp [hp]
        · cases hres
    | cancel uid =>
      replace hres : cancelOrder uid s = .ok s' := hres
      unfold cancelOrder at hres
      split at hres
      · cases hres
      · split at hres
        · cases hres
          show itemReqL (s.orders.map _) oid iid = some r
          refine itemReqL_map ?_ ?_ h
          · intro p
            by_cases hp : p.id = uid <;> simp [hp]
          · intro p _
            by_cases hp : p.id = uid <;> simp [hp]
        · cases hres
    | counting uid =>
      replace hres : markCounting uid s = .ok s' := hres
      unfold markCounting at hres
      split at hres
      · cases hres
      · split at hres
        · cases hres
          show itemReqL (s.orders.map _) oid iid = some r
          refine itemReqL_map ?_ ?_ h
          · intro p
            by_cases hp : p.id = uid <;> simp [hp]
          · intro p _
            by_cases hp : p.id = uid <;> simp [hp]
        · cases hres
    | packing uid =>
      replace hres : markPacking uid s = .ok s' := hres
      unfold markPacking at hres
      split at hres
      · cases hres
      · split at hres
        · cases hres
          show itemReqL (s.orders.map _) oid iid = some r
          refine itemReqL_map ?_ ?_ h
          · intro p
            by_cases hp : p.id = uid <;> simp [hp]
          · intro p _
            by_cases hp : p.id = uid <;> simp [hp]
        · cases hres
    | dispatch uid =>
      replace hres : dispatchOrder uid s = .ok s' := hres
      unfold dispatchOrder at hres
      split at hres
      · cases hres
      · split at hres
        · cases hres
          show itemReqL (s.orders.map _) oid iid = some r
          refine itemReqL_map ?_ ?_ h
          · intro p
            by_cases hp : p.id = uid <;> simp [hp]
          · intro p _
            by_cases hp : p.id = uid <;> simp [hp]
        · cases hres
    | deliver uid =>
      replace hres : deliverOrder uid s = .ok s' := hres
      unfold deliverOrder at hres
      split at hres
      · cases hres
      · split at hres
        · cases hres
          show itemReqL (s.orders.map _) oid iid = some r
          refine itemReqL_map ?_ ?_ h
          · intro p
            by_cases hp : p.id = uid <;> simp [hp]
          · intro p _
            by_cases hp : p.id = uid <;> simp [hp]
        · cases hres
    | estimate uid =>
      replace hres : estimateOrder uid s = .ok s' := hres
      unfold estimateOrder at hres
      split at hres
      · cases hres
      · next o₂ hfind₂ =>
        split at hres
        · cases hres
          have hmain : itemReqL (s.orders.map (fun p =>
              if p.id = uid then
                { p with status := OrderStatus.estimated,
                         estimatedAt := some s.tick,
                         items := (o₂.items.map
                           (estimateItem s.stocks o₂.tenantId)).map
                             Prod.fst }
              else p)) oid iid = some r := by
            refine itemReqL_map ?_ ?_ h
            · intro p
              by_cases hp : p.id = uid <;> simp [hp]
            · intro p hpmem
              by_cases hp : p.id = uid
              · rw [if_pos hp]
                have hp₂ : p = o₂ := eq_of_find?_of_mem hon hfind₂ hpmem hp
                subst hp₂
                show (((p.items.map (estimateItem s.stocks p.tenantId)).map
                  Prod.fst).find? (fun i => i.id == iid)).map
                    OrderItem.boxesRequested = _
                rw [List.map_map]
                exact find?_req_forall₂ (forall₂_req_of_map (fun i =>
                  ⟨(estimateItem_fst s.stocks p.tenantId i).1,
                   (estimateItem_fst s.stocks p.tenantId i).2.2.1⟩))
              · rw [if_neg hp]
          simp only [estimateBody]
          split
          · exact hmain
          · exact itemReqL_append hmain
        · cases hres
    | bill uid =>
      replace hres : billOrder uid s = .ok s' := hres
      unfold billOrder at hres
      split at hres
      · cases hres
      · next o₂ hfind₂ =>
        split at hres
        · next hst =>
          split at hres
          · cases hres
          · next stocks1 items1 hbill =>
            cases hres
            obtain ⟨hitems, -⟩ := billItems_ok_stocks o₂.tenantId o₂.items
              s.stocks stocks1 items1 hsn hbill
            show itemReqL (s.orders.map _) oid iid = some r
            refine itemReqL_map ?_ ?_ h
            · intro p
              by_cases hp : p.id = uid <;> simp [hp]
            · intro p hpmem
              by_cases hp : p.id = uid
              · rw [if_pos hp]
                have hp₂ : p = o₂ := eq_of_find?_of_mem hon hfind₂ hpmem hp
                subst hp₂
                show ((items1.find? (fun i => i.id == iid)).map
                  OrderItem.boxesRequested) = _
                exact find?_req_forall₂ (hitems.imp (fun {i i'} hi =>
                  ⟨hi.1, hi.2.2.1⟩))
              · rw [if_neg hp]
        · cases hres
  · exact h

theorem itemReq_foldl {s : DbState} (hInv : Inv s) {oid iid : Nat}
    {r : Boxes} (h : itemReq s oid iid = some r) :
    ∀ ops : List Op, itemReq (ops.foldl runOp s) oid iid = some r := by
  intro ops
  induction ops generalizing s with
  | nil => exact h
  | cons op rest ih =>
    rw [List.foldl_cons]
    exact ih (inv_runOp hInv) (itemReq_runOp hInv h)

/-! ### Success shapes of the estimate transition -/

/-- The three-way `total_available` comparison performed per item by
estimate (orders.py lines 330-346), with the guard `0 ≤ boxes_requested`
on the exhausted case (the first branch of the code wins when both its
condition and `total_available = 0` hold, which requires a non-positive
`boxes_requested`). -/
theorem estimateItem_cases (st : List Stock) (t : Nat) (i : OrderItem) :
    (i.boxesRequested ≤ totalAvailable st t i.productId →
      ((estimateItem st t i).1).boxesFulfilled = i.boxesRequested ∧
      ((estimateItem st t i).1).boxesPending = 0) ∧
    (0 < totalAvailable st t i.productId ∧
        totalAvailable st t i.productId < i.boxesRequested →
      ((estimateItem st t i).1).boxesFulfilled =
        totalAvailable st t i.productId ∧
      ((estimateItem st t i).1).boxesPending =
        i.boxesRequested - totalAvailable st t i.productId) ∧
    (totalAvailable st t i.productId = 0 ∧ 0 ≤ i.boxesRequested →
      ((estimateItem st t i).1).boxesFulfilled = 0 ∧
      ((estimateItem st t i).1).boxesPending = i.boxesRequested) := by
  simp only [estimateItem]
  by_cases h₁ : i.boxesRequested ≤ totalAvailable st t i.productId
  · rw [if_pos h₁]
    refine ⟨fun _ => ⟨rfl, rfl⟩, fun h₂ => absurd h₁ (not_le.mpr h₂.2),
      fun h₃ => ⟨?_, ?_⟩⟩
    · show i.boxesRequested = 0
      exact le_antisymm (h₃.1 ▸ h₁) h₃.2
    · show (0 : Boxes) = i.boxesRequested
      exact (le_antisymm (h₃.1 ▸ h₁) h₃.2).symm
  · rw [if_neg h₁]
    by_cases h₂ : 0 < totalAvailable st t i.productId
    · rw [if_pos h₂]
      exact ⟨fun h => absurd h h₁, fun _ => ⟨rfl, rfl⟩,
        fun h₃ => absurd (h₃.1 ▸ h₂) (lt_irrefl 0)⟩
    · rw [if_neg h₂]
      exact ⟨fun h => absurd h h₁, fun h => absurd h.1 h₂,
        fun _ => ⟨rfl, rfl⟩⟩

/-- `find?` by id commutes with an id-preserving per-order update. -/
theorem find?_map_update {orders : List Order} {oid : Nat} {o : Order}
    (hfind : orders.find? (fun x => x.id == oid) = some o)
    (g : Order → Order) (hg : ∀ p, (g p).id = p.id) :
    (orders.map (fun p => if p.id = oid then g p else p)).find?
      (fun x => x.id == oid) = some (g o) := by
  obtain ⟨ho, l₁, l₂, hl, hl₁⟩ := find?_id_decomp hfind
  rw [hl, List.map_append, List.map_cons, List.find?_append]
  have h₁ : (l₁.map (fun p => if p.id = oid then g p else p)).find?
      (fun x => x.id == oid) = none := by
    rw [List.find?_eq_none]
    intro x hx
    obtain ⟨p, hp, rfl⟩ := List.mem_map.mp hx
    rw [if_neg (hl₁ p hp)]
    simp [hl₁ p hp]
  rw [h₁]
  show ((if o.id = oid then g o else o) ::
    l₂.map (fun p => if p.id = oid then g p else p)).find?
      (fun x => x.id == oid) = some (g o)
  rw [if_pos ho, List.find?_cons]
  have hpred : ((g o).id == oid) = true := by simp [hg o, ho]
  rw [hpred]

/-- The `child_items` entry produced for an item is exactly its post-
estimate `(product_id, boxes_pending)` pair when the pending quantity is
positive, and absent otherwise (`total_available` is a sum of positive
availabilities, hence non-negative). -/
theorem estimateItem_snd (st : List Stock) (t : Nat) (i : OrderItem) :
    (estimateItem st t i).2 =
      if 0 < ((estimateItem st t i).1).boxesPending
      then some (((estimateItem st t i).1).productId,
                 ((estimateItem st t i).1).boxesPending)
      else none := by
  have hta := totalAvailable_nonneg st t i.productId
  simp only [estimateItem]
  by_cases h₁ : i.boxesRequested ≤ totalAvailable st t i.productId
  · rw [if_pos h₁]
    show (none : Option (Nat × Boxes)) =
      if (0 : Boxes) < 0 then some (i.productId, 0) else none
    rw [if_neg (lt_irrefl 0)]
  · rw [if_neg h₁]
    by_cases h₂ : 0 < totalAvailable st t i.productId
    · rw [if_pos h₂]
      show some (i.productId,
          i.boxesRequested - totalAvailable st t i.productId) =
        if 0 < i.boxesRequested - totalAvailable st t i.productId
        then some (i.productId,
          i.boxesRequested - totalAvailable st t i.productId)
        else none
      rw [if_pos (sub_pos.mpr (not_le.mp h₁))]
    · rw [if_neg h₂]
      show some (i.productId, i.boxesRequested) =
        if 0 < i.boxesRequested
        then some (i.productId, i.boxesRequested) else none
      rw [if_pos (lt_of_le_of_lt hta (not_le.mp h₁))]

/-- The `child_items` list is the projection of the shortfall items of the
estimated parent. -/
theorem childItems_eq (st : List Stock) (t : Nat) (items : List OrderItem) :
    (items.map (estimateItem st t)).filterMap Prod.snd =
      (((items.map (estimateItem st t)).map Prod.fst).filter
        (fun i => decide (0 < i.boxesPending))).map
        (fun i => (i.productId, i.boxesPending)) := by
  induction items with
  | nil => rfl
  | cons i rest ih =>
    simp only [List.map_cons, List.filterMap_cons, List.filter_cons,
      estimateItem_snd st t i]
    by_cases hp : 0 < ((estimateItem st t i).1).boxesPending
    · simp only [if_pos hp, decide_eq_true hp, if_true, List.map_cons]
      rw [ih]
    · simp only [if_neg hp, decide_eq_false hp, Bool.false_eq_true,
        if_false]
      exact ih

/-- The child order's items carry back exactly the `child_items` payload. -/
theorem mkChildOrder_items_proj (parent : Order)
    (childItems : List (Nat × Boxes)) (tick : Nat) :
    (mkChildOrder parent childItems tick).items.map
      (fun i => (i.productId, i.boxesRequested)) = childItems := by
  simp only [mkChildOrder, List.map_map]
  have hc : ((fun i : OrderItem => (i.productId, i.boxesRequested)) ∘
      (fun p : Nat × (Nat × Boxes) =>
        ({ id := tick + 1 + p.1, productId := p.2.1,
           boxesRequested := p.2.2, boxesFulfilled := p.2.2,
           boxesPending := 0, allocations := [] } : OrderItem))) =
      Prod.snd := by
    funext p
    rfl
  rw [hc, List.enum_map_snd]

/-- An id-preserving per-order update leaves the id sequence unchanged. -/
theorem map_id_map_update (orders : List Order) (oid : Nat)
    (g : Order → Order) (hg : ∀ p, (g p).id = p.id) :
    (orders.map (fun p => if p.id = oid then g p else p)).map Order.id =
      orders.map Order.id := by
  rw [List.map_map]
  exact List.map_congr_left (fun p _ => by
    by_cases h : p.id = oid <;> simp [h, hg p])

/-- The guarded reduction of `bill_order` on an ESTIMATED order. -/
theorem billOrder_eq (s : DbState) (oid : Nat) (o : Order)
    (hfind : orderById s oid = some o)
    (hst : o.status = OrderStatus.estimated) :
    billOrder oid s =
      match billItems o.tenantId
          (s.stocks.map (fun b => (b, b.boxesAvailable))) o.items with
      | .error e => .error e
      | .ok (pairs', items') =>
        .ok { s with
                stocks := pairs'.map Prod.fst,
                orders := s.orders.map (fun p =>
                  if p.id = oid then
                    { p with status := OrderStatus.billed,
                             billedAt := some s.tick, items := items' }
                  else p),
                tick := s.tick + 1 } := by
  unfold billOrder
  rw [hfind]
  exact if_pos hst

/-- With duplicate-free batch ids, a member carrying a member's id is that
member. -/
theorem stock_eq_of_id {stocks : List Stock}
    (hnd : (stocks.map Stock.id).Nodup) {b b' : Stock}
    (hb : b ∈ stocks) (hb' : b' ∈ stocks) (he : b'.id = b.id) : b' = b := by
  induction stocks with
  | nil => cases hb
  | cons a rest ih =>
    simp only [List.map_cons, List.nodup_cons] at hnd
    rcases List.mem_cons.mp hb with rfl | hb₂
    · rcases List.mem_cons.mp hb' with rfl | hb₂'
      · rfl
      · exact absurd (he ▸ List.mem_map_of_mem Stock.id hb₂') hnd.1
    · rcases List.mem_cons.mp hb' with rfl | hb₂'
      · exact absurd (he.symm ▸ List.mem_map_of_mem Stock.id hb₂) hnd.1
      · exact ih hnd.2 hb₂ hb₂'

/-- No operation other than deliver ever decreases a surviving batch's
`boxes_total`: add_stock only appends, delete removes, bill moves
available→reserved and dispatch reserved→dispatched, all keeping the
total. -/
theorem total_nondecreasing {s s' : DbState} {op : Op} (hInv : Inv s)
    (hndl : ∀ u, op ≠ Op.deliver u) (h : applyOp op s = .ok s') :
    ∀ b ∈ s.stocks, ∀ b' ∈ s'.stocks, b'.id = b.id →
      b.boxesTotal ≤ b'.boxesTotal := by
  obtain ⟨hsn, hslt, -, -, -, -, -, -, -, -, -, -⟩ := hInv
  cases op with
  | addStock t p n =>
    cases h
    intro b hb b' hb' he
    simp only [addStock, List.mem_append, List.mem_singleton] at hb'
    rcases hb' with hb' | rfl
    · have heq : b' = b := stock_eq_of_id hsn hb hb' he
      exact le_of_eq (by rw [heq])
    · exfalso
      have hlt := (hslt b hb).1
      have hti : s.tick = b.id := he
      omega
  | deleteStock sid =>
    replace h : deleteStock sid s = .ok s' := h
    unfold deleteStock at h
    split at h
    · cases h
    · next c hfind =>
      have h₂ : (if 0 < c.boxesReserved ∨ 0 < c.boxesBilled then
          (Except.error Err.stockInUse : Except Err DbState)
        else .ok { s with
          stocks := s.stocks.filter (fun d => d.id ≠ sid) }) = .ok s' := h
      by_cases hguard : 0 < c.boxesReserved ∨ 0 < c.boxesBilled
      · rw [if_pos hguard] at h₂; cases h₂
      · rw [if_neg hguard] at h₂
        cases h₂
        intro b hb b' hb' he
        have hb'' : b' ∈ s.stocks := (List.filter_sublist _).mem hb'
        have heq : b' = b := stock_eq_of_id hsn hb hb'' he
        exact le_of_eq (by rw [heq])
  | createOrder t sh c u items =>
    cases h
    intro b hb b' hb' he
    have hb'' : b' ∈ s.stocks := hb'
    have heq : b' = b := stock_eq_of_id hsn hb hb'' he
    exact le_of_eq (by rw [heq])
  | submit u =>
    replace h : submitOrder u s = .ok s' := h
    unfold submitOrder at h
    split at h
    · cases h
    · split at h
      · cases h
        intro b hb b' hb' he
        exact le_of_eq (by rw [stock_eq_of_id hsn hb hb' he])
      · cases h
  | forward u =>
    replace h : forwardOrder u s = .ok s' := h
    unfold forwardOrder at h
    split at h
    · cases h
    · split at h
      · cases h
        intro b hb b' hb' he
        exact le_of_eq (by rw [stock_eq_of_id hsn hb hb' he])
      · cases h
  | approve u =>
    replace h : approveOrder u s = .ok s' := h
    unfold approveOrder at h
    split at h
    · cases h
    · split at h
      · cases h
        intro b hb b' hb' he
        exact le_of_eq (by rw [stock_eq_of_id hsn hb hb' he])
      · cases h
  | hold u =>
    replace h : holdOrder u s = .ok s' := h
    unfold holdOrder at h
    split at h
    · cases h
    · split at h
      · cases h
        intro b hb b' hb' he
        exact le_of_eq (by rw [stock_eq_of_id hsn hb hb' he])
      · cases h
  | cancel u =>
    replace h : cancelOrder u s = .ok s' := h
    unfold cancelOrder at h
    split at h
    · cases h
    · split at h
      · cases h
        intro b hb b' hb' he
        exact le_of_eq (by rw [stock_eq_of_id hsn hb hb' he])
      · cases h
  | counting u =>
    replace h : markCounting u s = .ok s' := h
    unfold markCounting at h
    split at h
    · cases h
    · split at h
      · cases h
        intro b hb b' hb' he
        exact le_of_eq (by rw [stock_eq_of_id hsn hb hb' he])
      · cases h
  | packing u =>
    replace h : markPacking u s = .ok s' := h
    unfold markPacking at h
    split at h
    · cases h
    · split at h
      · cases h
        intro b hb b' hb' he
        exact le_of_eq (by rw [stock_eq_of_id hsn hb hb' he])
      · cases h
  | estimate u =>
    replace h : estimateOrder u s = .ok s' := h
    unfold estimateOrder at h
    split at h
    · cases h
    · next o hfind =>
      split at h
      · cases h
        intro b hb b' hb' he
        have hstk : (estimateBody s u o).stocks = s.stocks := by
          simp only [estimateBody]
          split
          · rfl
          · rfl
        rw [hstk] at hb'
        exact le_of_eq (by rw [stock_eq_of_id hsn hb hb' he])
      · cases h
  | bill u =>
    replace h : billOrder u s = .ok s' := h
    unfold billOrder at h
    split at h
    · cases h
    · next o hfind =>
      split at h
      · split at h
        · cases h
        · next stocks₁ items₁ hbill =>
          cases h
          obtain ⟨-, hstocks⟩ := billItems_ok_stocks o.tenantId o.items
            s.stocks stocks₁ items₁ hsn hbill
          intro b hb b' hb' he
          obtain ⟨b₀, hb₀, hrel, -⟩ := forall₂_mem_right hstocks b' hb'
          have hid : b₀.id = b.id := by rw [hrel] at he; exact he
          have heq : b₀ = b := stock_eq_of_id hsn hb hb₀ hid
          subst heq
          rw [hrel]
          exact le_refl _
      · cases h
  | dispatch u =>
    replace h : dispatchOrder u s = .ok s' := h
    unfold dispatchOrder at h
    split at h
    · cases h
    · next o hfind =>
      split at h
      · cases h
        intro b hb b' hb' he
        rw [foldl_dispatchAlloc] at hb'
        simp only [List.mem_map] at hb'
        obtain ⟨b₀, hb₀, rfl⟩ := hb'
        have hid : b₀.id = b.id := he
        have heq : b₀ = b := stock_eq_of_id hsn hb hb₀ hid
        subst heq
        exact le_refl _
      · cases h
  | deliver u => exact absurd rfl (hndl u)

/-! ### The transition guard table -/

/-- The `Op` router agrees with the transition router. -/
theorem applyOp_opOfTransition (t : TKind) (oid : Nat) (s : DbState) :
    applyOp (opOfTransition t oid) s = applyTransition t oid s := by
  cases t <;> rfl

/-- Every transition handler fails with NOT_FOUND on a missing order id. -/
theorem transition_notFound {t : TKind} {oid : Nat} {s : DbState}
    (hfind : orderById s oid = none) :
    applyTransition t oid s = .error .notFound := by
  cases t with
  | submit =>
    show submitOrder oid s = Except.error Err.notFound
    unfold submitOrder
    rw [hfind]
  | forward =>
    show forwardOrder oid s = Except.error Err.notFound
    unfold forwardOrder
    rw [hfind]
  | approve =>
    show approveOrder oid s = Except.error Err.notFound
    unfold approveOrder
    rw [hfind]
  | hold =>
    show holdOrder oid s = Except.error Err.notFound
    unfold holdOrder
    rw [hfind]
  | cancel =>
    show cancelOrder oid s = Except.error Err.notFound
    unfold cancelOrder
    rw [hfind]
  | estimate =>
    show estimateOrder oid s = Except.error Err.notFound
    unfold estimateOrder
    rw [hfind]
  | bill =>
    show billOrder oid s = Except.error Err.notFound
    unfold billOrder
    rw [hfind]
  | counting =>
    show markCounting oid s = Except.error Err.notFound
    unfold markCounting
    rw [hfind]
  | packing =>
    show markPacking oid s = Except.error Err.notFound
    unfold markPacking
    rw [hfind]
  | dispatch =>
    show dispatchOrder oid s = Except.error Err.notFound
    unfold dispatchOrder
    rw [hfind]
  | deliver =>
    show deliverOrder oid s = Except.error Err.notFound
    unfold deliverOrder
    rw [hfind]

/-- Every transition handler fails with INVALID_STATUS when the order's
status is outside its required source statuses. -/
theorem transition_not_source {t : TKind} {oid : Nat} {s : DbState}
    {o : Order} (hfind : orderById s oid = some o)
    (hns : o.status ∉ requiredSources t) :
    applyTransition t oid s = .error .invalidStatus := by
  cases t with
  | submit =>
    have hc : ¬(o.status = OrderStatus.placed) :=
      fun he => hns (by rw [he]; decide)
    show submitOrder oid s = Except.error Err.invalidStatus
    unfold submitOrder
    rw [hfind]
    exact if_neg hc
  | forward =>
    have hc : ¬(o.status = OrderStatus.submitted) :=
      fun he => hns (by rw [he]; decide)
    show forwardOrder oid s = Except.error Err.invalidStatus
    unfold forwardOrder
    rw [hfind]
    exact if_neg hc
  | approve =>
    have hc : ¬(o.status = OrderStatus.forwarded) :=
      fun he => hns (by rw [he]; decide)
    show approveOrder oid s = Except.error Err.invalidStatus
    unfold approveOrder
    rw [hfind]
    exact if_neg hc
  | hold =>
    have hc : ¬(o.status = OrderStatus.forwarded) :=
      fun he => hns (by rw [he]; decide)
    show holdOrder oid s = Except.error Err.invalidStatus
    unfold holdOrder
    rw [hfind]
    exact if_neg hc
  | cancel =>
    have hc : ¬(o.status = OrderStatus.forwarded ∨
        o.status = OrderStatus.hold) := by
      intro hor
      apply hns
      rcases hor with he | he <;> rw [he] <;> decide
    show cancelOrder oid s = Except.error Err.invalidStatus
    unfold cancelOrder
    rw [hfind]
    exact if_neg hc
  | estimate =>
    have hc : ¬(o.status = OrderStatus.approved) :=
      fun he => hns (by rw [he]; decide)
    show estimateOrder oid s = Except.error Err.invalidStatus
    unfold estimateOrder
    rw [hfind]
    exact if_neg hc
  | bill =>
    have hc : ¬(o.status = OrderStatus.estimated) :=
      fun he => hns (by rw [he]; decide)
    show billOrder oid s = Except.error Err.invalidStatus
    unfold billOrder
    rw [hfind]
    exact if_neg hc
  | counting =>
    have hc : ¬(o.status = OrderStatus.billed) :=
      fun he => hns (by rw [he]; decide)
    show markCounting oid s = Except.error Err.invalidStatus
    unfold markCounting
    rw [hfind]
    exact if_neg hc
  | packing =>
    have hc : ¬(o.status = OrderStatus.counting) :=
      fun he => hns (by rw [he]; decide)
    show markPacking oid s = Except.error Err.invalidStatus
    unfold markPacking
    rw [hfind]
    exact if_neg hc
  | dispatch =>
    have hc : ¬(o.status = OrderStatus.packing) :=
      fun he => hns (by rw [he]; decide)
    show dispatchOrder oid s = Except.error Err.invalidStatus
    unfold dispatchOrder
    rw [hfind]
    exact if_neg hc
  | deliver =>
    have hc : ¬(o.status = OrderStatus.dispatched) :=
      fun he => hns (by rw [he]; decide)
    show deliverOrder oid s = Except.error Err.invalidStatus
    unfold deliverOrder
    rw [hfind]
    exact if_neg hc

/-- A successful transition leaves the order in the transition's target
status. -/
theorem transition_success_status {t : TKind} {oid : Nat} {s s' : DbState}
    (h : applyTransition t oid s = .ok s') :
    ∃ o', orderById s' oid = some o' ∧ o'.status = targetStatus t := by
  cases t with
  | submit =>
    replace h : submitOrder oid s = .ok s' := h
    unfold submitOrder at h
    split at h
    · cases h
    · next o hfind =>
      split at h
      · cases h
        exact ⟨_, find?_map_update hfind
          (fun p =>
            { p with
                status := OrderStatus.submitted,
                submittedAt := some s.tick }) (fun p => rfl), rfl⟩
      · cases h
  | forward =>
    replace h : forwardOrder oid s = .ok s' := h
    unfold forwardOrder at h
    split at h
    · cases h
    · next o hfind =>
      split at h
      · cases h
        exact ⟨_, find?_map_update hfind
          (fun p =>
            { p with
                status := OrderStatus.forwarded,
                forwardedAt := some s.tick }) (fun p => rfl), rfl⟩
      · cases h
  | approve =>
    replace h : approveOrder oid s = .ok s' := h
    unfold approveOrder at h
    split at h
    · cases h
    · next o hfind =>
      split at h
      · cases h
        exact ⟨_, find?_map_update hfind
          (fun p =>
            { p with
                status := OrderStatus.approved,
                approvedAt := some s.tick }) (fun p => rfl), rfl⟩
      · cases h
  | hold =>
    replace h : holdOrder oid s = .ok s' := h
    unfold holdOrder at h
    split at h
    · cases h
    · next o hfind =>
      split at h
      · cases h
        exact ⟨_, find?_map_update hfind
          (fun p => { p with status := OrderStatus.hold })
          (fun p => rfl), rfl⟩
      · cases h
  | cancel =>
    replace h : cancelOrder oid s = .ok s' := h
    unfold cancelOrder at h
    split at h
    · cases h
    · next o hfind =>
      split at h
      · cases h
        exact ⟨_, find?_map_update hfind
          (fun p => { p with status := OrderStatus.cancelled })
          (fun p => rfl), rfl⟩
      · cases h
  | estimate =>
    replace h : estimateOrder oid s = .ok s' := h
    unfold estimateOrder at h
    split at h
    · cases h
    · next o hfind =>
      split at h
      · cases h
        have hf := find?_map_update
          (show s.orders.find? (fun x => x.id == oid) = some o from hfind)
          (fun p =>
            { p with
                status := OrderStatus.estimated,
                estimatedAt := some s.tick,
                items := (o.items.map
                  (estimateItem s.stocks o.tenantId)).map Prod.fst })
          (fun p => rfl)
        refine ⟨{ o with
            status := OrderStatus.estimated,
            estimatedAt := some s.tick,
            items := (o.items.map
              (estimateItem s.stocks o.tenantId)).map Prod.fst }, ?_, rfl⟩
        simp only [orderById, estimateBody]
        split
        · exact hf
        · exact find?_append_keep hf
      · cases h
  | bill =>
    replace h : billOrder oid s = .ok s' := h
    unfold billOrder at h
    split at h
    · cases h
    · next o hfind =>
      split at h
      · split at h
        · cases h
        · next stocks₁ items₁ hbill =>
          cases h
          exact ⟨_, find?_map_update hfind
            (fun p =>
              { p with
                  status := OrderStatus.billed,
                  billedAt := some s.tick,
                  items := items₁ }) (fun p => rfl), rfl⟩
      · cases h
  | counting =>
    replace h : markCounting oid s = .ok s' := h
    unfold markCounting at h
    split at h
    · cases h
    · next o hfind =>
      split at h
      · cases h
        exact ⟨_, find?_map_update hfind
          (fun p => { p with status := OrderStatus.counting })
          (fun p => rfl), rfl⟩
      · cases h
  | packing =>
    replace h : markPacking oid s = .ok s' := h
    unfold markPacking at h
    split at h
    · cases h
    · next o hfind =>
      split at h
      · cases h
        exact ⟨_, find?_map_update hfind
          (fun p => { p with status := OrderStatus.packing })
          (fun p => rfl), rfl⟩
      · cases h
  | dispatch =>
    replace h : dispatchOrder oid s = .ok s' := h
    unfold dispatchOrder at h
    split at h
    · cases h
    · next o hfind =>
      split at h
      · cases h
        exact ⟨_, find?_map_update hfind
          (fun p =>
            { p with
                status := OrderStatus.dispatched,
                dispatchedAt := some s.tick }) (fun p => rfl), rfl⟩
      · cases h
  | deliver =>
    replace h : deliverOrder oid s = .ok s' := h
    unfold deliverOrder at h
    split at h
    · cases h
    · next o hfind =>
      split at h
      · cases h
        exact ⟨_, find?_map_update hfind
          (fun p =>
            { p with
                status := OrderStatus.delivered,
                deliveredAt := some s.tick }) (fun p => rfl), rfl⟩
      · cases h

/-! ### Claim theorems -/

/-- Counterexample to claim C5 as stated: `add_stock` never validates
`boxes_total`, so the in-scope operation `add_stock(tenant=1, product=1,
boxes_total=-1)` alone reaches a state whose single batch has
`boxes_available = -1 < 0`, violating the claimed non-negativity. -/
theorem stock_counters_cex :
    ∃ b ∈ (execTrace [Op.addStock 1 1 (-1)]).stocks,
      b.boxesAvailable < 0 ∧ b.boxesTotal < 0 := by decide

/-- Claim C5 (amended): in every state reachable by the in-scope operations
in which each `add_stock` call carried a non-negative `boxes_total`, every
stock batch satisfies `boxes_available + boxes_reserved + boxes_dispatched
≤ boxes_total` with all four counters non-negative. -/
theorem stock_counter_invariant (ops : List Op)
    (hgood : ∀ t p n, Op.addStock t p n ∈ ops → 0 ≤ n) :
    ∀ b ∈ (execTrace ops).stocks,
      0 ≤ b.boxesAvailable ∧ 0 ≤ b.boxesReserved ∧
      0 ≤ b.boxesDispatched ∧ 0 ≤ b.boxesTotal ∧
      b.boxesAvailable + b.boxesReserved + b.boxesDispatched ≤
        b.boxesTotal := by
  have hgood' : ∀ op ∈ ops, goodOp op := by
    intro op hop
    cases op
    case addStock t p n => exact hgood t p n hop
    all_goals trivial
  obtain ⟨-, -, -, -, -, hall, -, hresv, hdisp, -, hsum, -⟩ :=
    inv_execTrace ops
  have hA := availNonneg_execTrace ops hgood'
  intro b hb
  have hres0 : 0 ≤ b.boxesReserved := by
    rw [hresv b hb]
    exact statusContrib_nonneg
      (fun o ho i hi a ha => (hall o ho i hi a ha).1)
  have hdis0 : 0 ≤ b.boxesDispatched := by
    rw [hdisp b hb]
    exact statusContrib_nonneg
      (fun o ho i hi a ha => (hall o ho i hi a ha).1)
  have hav0 := hA b hb
  have hs := hsum b hb
  exact ⟨hav0, hres0, hdis0, by linarith, hs⟩

theorem stock_counter_invariant_witness :
    (∀ t p n, Op.addStock t p n ∈
      [Op.addStock 1 2 5, Op.addStock 1 2 7] → 0 ≤ n) ∧
    ∀ b ∈ (execTrace [Op.addStock 1 2 5, Op.addStock 1 2 7]).stocks,
      0 ≤ b.boxesAvailable ∧ 0 ≤ b.boxesReserved ∧
      0 ≤ b.boxesDispatched ∧ 0 ≤ b.boxesTotal ∧
      b.boxesAvailable + b.boxesReserved + b.boxesDispatched ≤
        b.boxesTotal := by
  have hg : ∀ t p n, Op.addStock t p n ∈
      [Op.addStock 1 2 5, Op.addStock 1 2 7] → 0 ≤ n := by
    intro t p n hmem
    simp only [List.mem_cons, List.not_mem_nil, or_false,
      Op.addStock.injEq] at hmem
    rcases hmem with ⟨-, -, rfl⟩ | ⟨-, -, rfl⟩ <;> decide
  exact ⟨hg, stock_counter_invariant _ hg⟩

/-- Claim C6: in every reachable state, every item of an order that passed
estimate (status ESTIMATED or later) satisfies `boxes_fulfilled +
boxes_pending = boxes_requested`, and the `boxes_requested` of an existing
item is never changed by any further sequence of operations. -/
theorem item_sum_and_requested_immutable (ops more : List Op) :
    (∀ o ∈ (execTrace ops).orders, postEstimateStatus o.status = true →
      ∀ i ∈ o.items,
        i.boxesFulfilled + i.boxesPending = i.boxesRequested) ∧
    (∀ oid iid r, itemReq (execTrace ops) oid iid = some r →
      itemReq (execTrace (ops ++ more)) oid iid = some r) := by
  constructor
  · obtain ⟨-, -, -, -, -, -, -, -, -, -, -, hisum⟩ := inv_execTrace ops
    exact hisum
  · intro oid iid r h
    unfold execTrace
    rw [List.foldl_append]
    exact itemReq_foldl (inv_execTrace ops) h more

theorem item_sum_and_requested_immutable_witness :
    (∀ o ∈ (execTrace [Op.addStock 1 7 2,
        Op.createOrder 1 2 3 4 [⟨7, 5⟩], Op.submit 1, Op.forward 1,
        Op.approve 1, Op.estimate 1]).orders,
      postEstimateStatus o.status = true →
      ∀ i ∈ o.items,
        i.boxesFulfilled + i.boxesPending = i.boxesRequested) ∧
    itemReq (execTrace ([Op.addStock 1 7 2,
      Op.createOrder 1 2 3 4 [⟨7, 5⟩], Op.submit 1, Op.forward 1,
      Op.approve 1, Op.estimate 1] ++ [Op.bill 1])) 1 2 = some 5 := by
  have h := item_sum_and_requested_immutable [Op.addStock 1 7 2,
    Op.createOrder 1 2 3 4 [⟨7, 5⟩], Op.submit 1, Op.forward 1,
    Op.approve 1, Op.estimate 1] [Op.bill 1]
  exact ⟨h.1, h.2 1 2 5 (by decide)⟩

/-- Counterexample to claim C9 as stated: `delete_stock` only guards
`boxes_reserved` and `boxes_billed`, so a reachable batch whose whole
reservation was already dispatched (`boxes_dispatched > 0`) is deleted
without any in-use error. -/
theorem delete_guard_cex :
    ∃ b ∈ (execTrace [Op.addStock 1 7 10,
        Op.createOrder 1 2 3 4 [⟨7, 5⟩], Op.submit 1, Op.forward 1,
        Op.approve 1, Op.estimate 1, Op.bill 1, Op.counting 1,
        Op.packing 1, Op.dispatch 1]).stocks,
      0 < b.boxesDispatched ∧
      stockById (runOp (execTrace [Op.addStock 1 7 10,
        Op.createOrder 1 2 3 4 [⟨7, 5⟩], Op.submit 1, Op.forward 1,
        Op.approve 1, Op.estimate 1, Op.bill 1, Op.counting 1,
        Op.packing 1, Op.dispatch 1]) (Op.deleteStock b.id)) b.id =
          none := by
  decide

/-- Claim C9 (amended): `delete_stock` fails with STOCK_IN_USE and commits
no change exactly when the batch has `boxes_reserved > 0` or
`boxes_billed > 0`; otherwise (regardless of `boxes_dispatched`) it removes
the row. -/
theorem delete_stock_guard (s : DbState) (sid : Nat) (b : Stock)
    (hfind : stockById s sid = some b) :
    (0 < b.boxesReserved ∨ 0 < b.boxesBilled →
      deleteStock sid s = .error .stockInUse ∧
      runOp s (Op.deleteStock sid) = s) ∧
    (¬(0 < b.boxesReserved ∨ 0 < b.boxesBilled) →
      deleteStock sid s =
        .ok { s with stocks := s.stocks.filter (fun c => c.id ≠ sid) }) := by
  have hred : deleteStock sid s =
      if 0 < b.boxesReserved ∨ 0 < b.boxesBilled then .error .stockInUse
      else .ok { s with stocks := s.stocks.filter (fun c => c.id ≠ sid) } := by
    unfold deleteStock
    rw [hfind]
  constructor
  · intro hbusy
    have hdel : deleteStock sid s = .error .stockInUse := by
      rw [hred, if_pos hbusy]
    refine ⟨hdel, ?_⟩
    have hrun : runOp s (Op.deleteStock sid) =
        match deleteStock sid s with
        | .ok s2 => s2
        | .error _ => s := rfl
    rw [hrun, hdel]
  · intro hfree
    rw [hred, if_neg hfree]

theorem delete_stock_guard_witness :
    deleteStock 0 (execTrace [Op.addStock 1 7 10,
      Op.createOrder 1 2 3 4 [⟨7, 5⟩], Op.submit 1, Op.forward 1,
      Op.approve 1, Op.estimate 1, Op.bill 1]) = .error .stockInUse ∧
    runOp (execTrace [Op.addStock 1 7 10,
      Op.createOrder 1 2 3 4 [⟨7, 5⟩], Op.submit 1, Op.forward 1,
      Op.approve 1, Op.estimate 1, Op.bill 1]) (Op.deleteStock 0) =
      execTrace [Op.addStock 1 7 10,
        Op.createOrder 1 2 3 4 [⟨7, 5⟩], Op.submit 1, Op.forward 1,
        Op.approve 1, Op.estimate 1, Op.bill 1] :=
  (delete_stock_guard _ 0 ⟨0, 1, 7, 10, 5, 5, 0, 0, true, 0⟩
    (by decide)).1 (by decide)

/-- Counterexample to claim C2 as stated: `boxes_requested` is an
unvalidated int, and for an item with a negative request and
`total_available = 0` the first branch of the code fires
(`boxes_requested ≤ total_available`), so the claimed
`total_available == 0` outcome `(0, boxes_requested)` does not hold. -/
theorem estimate_arith_cex :
    ∃ o ∈ (execTrace [Op.createOrder 1 2 3 4 [⟨7, -1⟩], Op.submit 0,
        Op.forward 0, Op.approve 0, Op.estimate 0]).orders,
      o.status = OrderStatus.estimated ∧
      ∃ i ∈ o.items,
        totalAvailable (execTrace [Op.createOrder 1 2 3 4 [⟨7, -1⟩],
          Op.submit 0, Op.forward 0, Op.approve 0,
          Op.estimate 0]).stocks o.tenantId i.productId = 0 ∧
        ¬(i.boxesFulfilled = 0 ∧ i.boxesPending = i.boxesRequested) := by
  decide

/-- Claim C2 (amended): for an order in APPROVED status, estimate succeeds,
leaves every stock batch unchanged, and rewrites each item independently by
the three-way `total_available` comparison — the exhausted case needing
`0 ≤ boxes_requested` since the code's first branch wins on a non-positive
request. -/
theorem estimate_arithmetic (s : DbState) (oid : Nat) (o : Order)
    (hfind : orderById s oid = some o)
    (hst : o.status = OrderStatus.approved) :
    ∃ s', estimateOrder oid s = .ok s' ∧ s'.stocks = s.stocks ∧
      ∃ o', orderById s' oid = some o' ∧
        o'.status = OrderStatus.estimated ∧
        List.Forall₂ (fun i i' =>
          i'.id = i.id ∧ i'.productId = i.productId ∧
          i'.boxesRequested = i.boxesRequested ∧
          i'.allocations = i.allocations ∧
          (i.boxesRequested ≤ totalAvailable s.stocks o.tenantId i.productId →
            i'.boxesFulfilled = i.boxesRequested ∧ i'.boxesPending = 0) ∧
          (0 < totalAvailable s.stocks o.tenantId i.productId ∧
              totalAvailable s.stocks o.tenantId i.productId <
                i.boxesRequested →
            i'.boxesFulfilled =
              totalAvailable s.stocks o.tenantId i.productId ∧
            i'.boxesPending = i.boxesRequested -
              totalAvailable s.stocks o.tenantId i.productId) ∧
          (totalAvailable s.stocks o.tenantId i.productId = 0 ∧
              0 ≤ i.boxesRequested →
            i'.boxesFulfilled = 0 ∧ i'.boxesPending = i.boxesRequested))
          o.items o'.items := by
  refine ⟨estimateBody s oid o, ?_, ?_, ?_⟩
  · unfold estimateOrder
    rw [hfind]
    show (if o.status = OrderStatus.approved
        then Except.ok (estimateBody s oid o)
        else Except.error Err.invalidStatus) = Except.ok (estimateBody s oid o)
    rw [if_pos hst]
  · simp only [estimateBody]
    split
    · rfl
    · rfl
  · have hf := find?_map_update
      (show s.orders.find? (fun x => x.id == oid) = some o from hfind)
      (fun p =>
        { p with
            status := OrderStatus.estimated,
            estimatedAt := some s.tick,
            items := (o.items.map
              (estimateItem s.stocks o.tenantId)).map Prod.fst })
      (fun p => rfl)
    refine ⟨{ o with
        status := OrderStatus.estimated,
        estimatedAt := some s.tick,
        items := (o.items.map
          (estimateItem s.stocks o.tenantId)).map Prod.fst }, ?_, rfl, ?_⟩
    · simp only [orderById, estimateBody]
      split
      · exact hf
      · exact find?_append_keep hf
    · show List.Forall₂ _ o.items
        ((o.items.map (estimateItem s.stocks o.tenantId)).map Prod.fst)
      rw [List.map_map]
      refine List.forall₂_map_right_iff.mpr (List.forall₂_same.mpr ?_)
      intro i hi
      obtain ⟨h1, h2, h3, h4⟩ := estimateItem_fst s.stocks o.tenantId i
      obtain ⟨c1, c2, c3⟩ := estimateItem_cases s.stocks o.tenantId i
      exact ⟨h1, h2, h3, h4, c1, c2, c3⟩

theorem estimate_arithmetic_witness :
    ∃ s', estimateOrder 1 (execTrace [Op.addStock 1 7 3,
        Op.createOrder 1 2 3 4 [⟨7, 5⟩], Op.submit 1, Op.forward 1,
        Op.approve 1]) = .ok s' ∧
      s'.stocks = (execTrace [Op.addStock 1 7 3,
        Op.createOrder 1 2 3 4 [⟨7, 5⟩], Op.submit 1, Op.forward 1,
        Op.approve 1]).stocks ∧
      ∃ o', orderById s' 1 = some o' ∧
        o'.status = OrderStatus.estimated := by
  obtain ⟨s', h1, h2, o', h3, h4, -⟩ :=
    estimate_arithmetic (execTrace [Op.addStock 1 7 3,
      Op.createOrder 1 2 3 4 [⟨7, 5⟩], Op.submit 1, Op.forward 1,
      Op.approve 1]) 1
      ⟨1, 1, 2, 3, 4, none, OrderStatus.approved, 1, [⟨2, 7, 5, 0, 0, []⟩],
        some 3, some 4, some 5, none, none, none, none⟩ (by decide) rfl
  exact ⟨s', h1, h2, o', h3, h4⟩

/-- Claim C10: a split child order is created directly in ESTIMATED status
with `estimated_at` already stamped and no earlier lifecycle timestamps
(it never passes through PLACED, SUBMITTED, FORWARDED or APPROVED), and
every child item carries `boxes_fulfilled = boxes_requested` and
`boxes_pending = 0` without any availability check — immediately eligible
for bill. -/
theorem child_order_shape (s : DbState) (oid : Nat) (o : Order)
    (hfind : orderById s oid = some o)
    (hst : o.status = OrderStatus.approved)
    (hne : ((o.items.map (estimateItem s.stocks o.tenantId)).filterMap
      Prod.snd) ≠ []) :
    ∃ s', estimateOrder oid s = .ok s' ∧
      ∃ child ∈ s'.orders,
        child.parentOrderId = some o.id ∧
        child.status = OrderStatus.estimated ∧
        child.estimatedAt.isSome = true ∧
        child.submittedAt = none ∧ child.forwardedAt = none ∧
        child.approvedAt = none ∧
        ∀ i ∈ child.items,
          i.boxesFulfilled = i.boxesRequested ∧ i.boxesPending = 0 := by
  refine ⟨estimateBody s oid o, ?_, ?_⟩
  · unfold estimateOrder
    rw [hfind]
    show (if o.status = OrderStatus.approved
        then Except.ok (estimateBody s oid o)
        else Except.error Err.invalidStatus) = Except.ok (estimateBody s oid o)
    rw [if_pos hst]
  · have hcond : ¬((((o.items.map
        (estimateItem s.stocks o.tenantId)).filterMap
        Prod.snd)).isEmpty = true) := by
      simpa [List.isEmpty_iff] using hne
    simp only [estimateBody]
    rw [if_neg hcond]
    refine ⟨mkChildOrder o ((o.items.map
        (estimateItem s.stocks o.tenantId)).filterMap Prod.snd) (s.tick + 1),
      by simp, rfl, rfl, rfl, rfl, rfl, rfl, ?_⟩
    intro i hi
    obtain ⟨-, hp, hf⟩ := mkChildOrder_item_fields i hi
    exact ⟨hf, hp⟩

theorem child_order_shape_witness :
    ∃ s', estimateOrder 1 (execTrace [Op.addStock 1 7 2,
        Op.createOrder 1 2 3 4 [⟨7, 5⟩], Op.submit 1, Op.forward 1,
        Op.approve 1]) = .ok s' ∧
      ∃ child ∈ s'.orders,
        child.parentOrderId = some 1 ∧
        child.status = OrderStatus.estimated ∧
        child.estimatedAt.isSome = true ∧
        child.submittedAt = none ∧ child.forwardedAt = none ∧
        child.approvedAt = none ∧
        ∀ i ∈ child.items,
          i.boxesFulfilled = i.boxesRequested ∧ i.boxesPending = 0 :=
  child_order_shape _ 1
    ⟨1, 1, 2, 3, 4, none, OrderStatus.approved, 1, [⟨2, 7, 5, 0, 0, []⟩],
      some 3, some 4, some 5, none, none, none, none⟩ (by decide) rfl
    (by decide)

/-- Claim C4: after estimate, exactly one child order is appended iff some
parent item is left with positive `boxes_pending`; the child copies
tenant/shop/category/placed_by, points `parent_order_id` at the parent,
draws a fresh `order_ref` distinct from the parent's, and carries exactly
one item per shortfall parent item with `boxes_requested` equal to that
item's `boxes_pending`. -/
theorem child_creation_iff (s : DbState) (oid : Nat) (o : Order)
    (hInv : Inv s)
    (hfind : orderById s oid = some o)
    (hst : o.status = OrderStatus.approved) :
    ∃ s', estimateOrder oid s = .ok s' ∧
      ∃ o', orderById s' oid = some o' ∧
        ((∀ i ∈ o'.items, ¬(0 < i.boxesPending)) →
          s'.orders.map Order.id = s.orders.map Order.id) ∧
        ((∃ i ∈ o'.items, 0 < i.boxesPending) →
          ∃ child,
            s'.orders.map Order.id = s.orders.map Order.id ++ [child.id] ∧
            child ∈ s'.orders ∧
            child.tenantId = o.tenantId ∧ child.shopId = o.shopId ∧
            child.categoryId = o.categoryId ∧ child.placedBy = o.placedBy ∧
            child.parentOrderId = some o.id ∧
            child.orderRef ≠ o.orderRef ∧
            child.items.map (fun i => (i.productId, i.boxesRequested)) =
              (o'.items.filter (fun i => decide (0 < i.boxesPending))).map
                (fun i => (i.productId, i.boxesPending))) := by
  obtain ⟨-, -, -, -, holt, -, -, -, -, -, -, -⟩ := hInv
  have homem : o ∈ s.orders := List.mem_of_find?_eq_some hfind
  have href : o.orderRef < s.tick := (holt o homem).2
  have hf := find?_map_update
    (show s.orders.find? (fun x => x.id == oid) = some o from hfind)
    (fun p =>
      { p with
          status := OrderStatus.estimated,
          estimatedAt := some s.tick,
          items := (o.items.map
            (estimateItem s.stocks o.tenantId)).map Prod.fst })
    (fun p => rfl)
  refine ⟨estimateBody s oid o, ?_, ?_⟩
  · unfold estimateOrder
    rw [hfind]
    show (if o.status = OrderStatus.approved
        then Except.ok (estimateBody s oid o)
        else Except.error Err.invalidStatus) = Except.ok (estimateBody s oid o)
    rw [if_pos hst]
  · refine ⟨{ o with
        status := OrderStatus.estimated,
        estimatedAt := some s.tick,
        items := (o.items.map
          (estimateItem s.stocks o.tenantId)).map Prod.fst }, ?_, ?_, ?_⟩
    · simp only [orderById, estimateBody]
      split
      · exact hf
      · exact find?_append_keep hf
    · intro hall
      simp only [estimateBody]
      split
      · show (s.orders.map _).map Order.id = s.orders.map Order.id
        exact map_id_map_update s.orders oid _ (fun p => rfl)
      · next hcond =>
        exfalso
        obtain ⟨x, hx⟩ := List.exists_mem_of_ne_nil
          ((o.items.map (estimateItem s.stocks o.tenantId)).filterMap
            Prod.snd)
          (fun h => hcond (by rw [h]; rfl))
        rw [childItems_eq] at hx
        obtain ⟨i, hi, -⟩ := List.mem_map.mp hx
        have hm := List.mem_filter.mp hi
        exact hall i hm.1 (of_decide_eq_true hm.2)
    · intro hex
      obtain ⟨i, hi, hp⟩ := hex
      have hne : ((o.items.map (estimateItem s.stocks o.tenantId)).filterMap
          Prod.snd) ≠ [] := by
        intro hemp
        have hmem : (i.productId, i.boxesPending) ∈
            ((o.items.map (estimateItem s.stocks o.tenantId)).filterMap
              Prod.snd) := by
          rw [childItems_eq]
          exact List.mem_map_of_mem _
            (List.mem_filter.mpr ⟨hi, decide_eq_true hp⟩)
        rw [hemp] at hmem
        exact absurd hmem (List.not_mem_nil _)
      have hcond : ¬((((o.items.map
          (estimateItem s.stocks o.tenantId)).filterMap
          Prod.snd)).isEmpty = true) := by
        simpa [List.isEmpty_iff] using hne
      simp only [estimateBody]
      rw [if_neg hcond]
      refine ⟨mkChildOrder o ((o.items.map
          (estimateItem s.stocks o.tenantId)).filterMap Prod.snd)
          (s.tick + 1), ?_, by simp, rfl, rfl, rfl, rfl, rfl, ?_, ?_⟩
      · have hmi := map_id_map_update s.orders oid
          (fun p =>
            { p with
                status := OrderStatus.estimated,
                estimatedAt := some s.tick,
                items := (o.items.map
                  (estimateItem s.stocks o.tenantId)).map Prod.fst })
          (fun p => rfl)
        show ((s.orders.map _) ++ [_]).map Order.id =
          s.orders.map Order.id ++ [_]
        rw [List.map_append, hmi]
        rfl
      · show s.tick + 1 ≠ o.orderRef
        omega
      · rw [mkChildOrder_items_proj, childItems_eq]

theorem child_creation_iff_witness :
    ∃ s', estimateOrder 1 (execTrace [Op.addStock 1 7 2,
        Op.createOrder 1 2 3 4 [⟨7, 5⟩], Op.submit 1, Op.forward 1,
        Op.approve 1]) = .ok s' ∧
      ∃ o', orderById s' 1 = some o' := by
  obtain ⟨s', h1, o', h2, -, -⟩ :=
    child_creation_iff (execTrace [Op.addStock 1 7 2,
      Op.createOrder 1 2 3 4 [⟨7, 5⟩], Op.submit 1, Op.forward 1,
      Op.approve 1]) 1
      ⟨1, 1, 2, 3, 4, none, OrderStatus.approved, 1, [⟨2, 7, 5, 0, 0, []⟩],
        some 3, some 4, some 5, none, none, none, none⟩
      (inv_execTrace [Op.addStock 1 7 2,
        Op.createOrder 1 2 3 4 [⟨7, 5⟩], Op.submit 1, Op.forward 1,
        Op.approve 1]) (by decide) rfl
  exact ⟨s', h1, o', h2⟩

/-- Claim C3: when bill cannot cover some item from the candidate batches,
the transition fails with INSUFFICIENT_STOCK naming a product of the
order's items, and the committed state is exactly the prior state (the
session rollback discards the partial stock/allocation mutations); a
leading item whose `boxes_fulfilled` exceeds the candidate availability
suffices to trigger it. -/
theorem bill_insufficient_rollback (s : DbState) (oid : Nat) (o : Order)
    (hfind : orderById s oid = some o)
    (hst : o.status = OrderStatus.estimated) :
    (∀ e, billOrder oid s = .error e →
      (∃ item ∈ o.items, e = Err.insufficientStock item.productId) ∧
      runOp s (Op.bill oid) = s) ∧
    (∀ item rest, o.items = item :: rest → 0 < item.boxesFulfilled →
      totalAvailable s.stocks o.tenantId item.productId <
        item.boxesFulfilled →
      billOrder oid s = .error (Err.insufficientStock item.productId)) := by
  have hred := billOrder_eq s oid o hfind hst
  constructor
  · intro e he
    rw [hred] at he
    cases hbi : billItems o.tenantId
        (s.stocks.map (fun b => (b, b.boxesAvailable))) o.items with
    | error e₂ =>
      rw [hbi] at he
      cases he
      refine ⟨billItems_error_spec o.tenantId o.items
        (s.stocks.map (fun b => (b, b.boxesAvailable))) e hbi, ?_⟩
      have hrun : runOp s (Op.bill oid) =
          match billOrder oid s with
          | .ok s₂ => s₂
          | .error _ => s := rfl
      rw [hrun, hred, hbi]
    | ok pr =>
      obtain ⟨stocks₂, items₂⟩ := pr
      rw [hbi] at he
      cases he
  · intro item rest hitems hf hta
    rw [hred, hitems,
      billItems_first_short o.tenantId s.stocks item rest hf hta]

theorem bill_insufficient_rollback_witness :
    billOrder 3 (execTrace [Op.addStock 1 7 10,
      Op.createOrder 1 2 3 4 [⟨7, 8⟩], Op.createOrder 1 2 3 4 [⟨7, 8⟩],
      Op.submit 1, Op.forward 1, Op.approve 1, Op.estimate 1,
      Op.submit 3, Op.forward 3, Op.approve 3, Op.estimate 3,
      Op.bill 1]) = .error (Err.insufficientStock 7) ∧
    runOp (execTrace [Op.addStock 1 7 10,
      Op.createOrder 1 2 3 4 [⟨7, 8⟩], Op.createOrder 1 2 3 4 [⟨7, 8⟩],
      Op.submit 1, Op.forward 1, Op.approve 1, Op.estimate 1,
      Op.submit 3, Op.forward 3, Op.approve 3, Op.estimate 3,
      Op.bill 1]) (Op.bill 3) =
      execTrace [Op.addStock 1 7 10,
        Op.createOrder 1 2 3 4 [⟨7, 8⟩], Op.createOrder 1 2 3 4 [⟨7, 8⟩],
        Op.submit 1, Op.forward 1, Op.approve 1, Op.estimate 1,
        Op.submit 3, Op.forward 3, Op.approve 3, Op.estimate 3,
        Op.bill 1] := by
  obtain ⟨h1, h2⟩ := bill_insufficient_rollback
    (execTrace [Op.addStock 1 7 10,
      Op.createOrder 1 2 3 4 [⟨7, 8⟩], Op.createOrder 1 2 3 4 [⟨7, 8⟩],
      Op.submit 1, Op.forward 1, Op.approve 1, Op.estimate 1,
      Op.submit 3, Op.forward 3, Op.approve 3, Op.estimate 3,
      Op.bill 1]) 3
    ⟨3, 1, 2, 3, 4, none, OrderStatus.estimated, 3, [⟨4, 7, 8, 8, 0, []⟩],
      some 9, some 10, some 11, some 12, none, none, none⟩
    (by decide) rfl
  have herr := h2 ⟨4, 7, 8, 8, 0, []⟩ [] rfl (by decide) (by decide)
  exact ⟨herr, (h1 _ herr).2⟩

/-- Claim C8: on a PACKING order, dispatch moves each batch's allocated
total from `boxes_reserved` to `boxes_dispatched`, sets DISPATCHED and
stamps `dispatched_at`; on a DISPATCHED order, deliver removes each batch's
allocated total from both `boxes_dispatched` and `boxes_total`, sets
DELIVERED and stamps `delivered_at`; and no operation other than deliver
ever decreases a surviving batch's `boxes_total`. -/
theorem dispatch_deliver_arithmetic (s : DbState) (oid : Nat) (o : Order)
    (hInv : Inv s) (hfind : orderById s oid = some o) :
    (o.status = OrderStatus.packing →
      ∃ s', dispatchOrder oid s = .ok s' ∧
        s'.stocks = s.stocks.map (fun b =>
          dispatchTransfer b (allocAmtFor (orderAllocs o) b.id)) ∧
        ∃ o', orderById s' oid = some o' ∧
          o'.status = OrderStatus.dispatched ∧
          o'.dispatchedAt = some s.tick) ∧
    (o.status = OrderStatus.dispatched →
      ∃ s', deliverOrder oid s = .ok s' ∧
        s'.stocks = s.stocks.map (fun b =>
          deliverTransfer b (allocAmtFor (orderAllocs o) b.id)) ∧
        ∃ o', orderById s' oid = some o' ∧
          o'.status = OrderStatus.delivered ∧
          o'.deliveredAt = some s.tick) ∧
    (∀ op, (∀ u, op ≠ Op.deliver u) → ∀ s₂, applyOp op s = .ok s₂ →
      ∀ b ∈ s.stocks, ∀ b' ∈ s₂.stocks, b'.id = b.id →
        b.boxesTotal ≤ b'.boxesTotal) := by
  refine ⟨?_, ?_, fun op hndl s₂ h => total_nondecreasing hInv hndl h⟩
  · intro hst
    refine ⟨{ s with
        stocks := (orderAllocs o).foldl applyDispatchAlloc s.stocks,
        orders := s.orders.map (fun p =>
          if p.id = oid then
            { p with status := OrderStatus.dispatched,
                     dispatchedAt := some s.tick }
          else p),
        tick := s.tick + 1 }, ?_, ?_, ?_⟩
    · unfold dispatchOrder
      rw [hfind]
      exact if_pos hst
    · exact foldl_dispatchAlloc (orderAllocs o) s.stocks
    · refine ⟨{ o with
          status := OrderStatus.dispatched,
          dispatchedAt := some s.tick }, ?_, rfl, rfl⟩
      exact find?_map_update hfind
        (fun p => { p with
            status := OrderStatus.dispatched,
            dispatchedAt := some s.tick }) (fun p => rfl)
  · intro hst
    refine ⟨{ s with
        stocks := (orderAllocs o).foldl applyDeliverAlloc s.stocks,
        orders := s.orders.map (fun p =>
          if p.id = oid then
            { p with status := OrderStatus.delivered,
                     deliveredAt := some s.tick }
          else p),
        tick := s.tick + 1 }, ?_, ?_, ?_⟩
    · unfold deliverOrder
      rw [hfind]
      exact if_pos hst
    · exact foldl_deliverAlloc (orderAllocs o) s.stocks
    · refine ⟨{ o with
          status := OrderStatus.delivered,
          deliveredAt := some s.tick }, ?_, rfl, rfl⟩
      exact find?_map_update hfind
        (fun p => { p with
            status := OrderStatus.delivered,
            deliveredAt := some s.tick }) (fun p => rfl)

theorem dispatch_deliver_arithmetic_witness :
    ∃ s', dispatchOrder 1 (execTrace [Op.addStock 1 7 10,
        Op.createOrder 1 2 3 4 [⟨7, 5⟩], Op.submit 1, Op.forward 1,
        Op.approve 1, Op.estimate 1, Op.bill 1, Op.counting 1,
        Op.packing 1]) = .ok s' ∧
      s'.stocks = (execTrace [Op.addStock 1 7 10,
        Op.createOrder 1 2 3 4 [⟨7, 5⟩], Op.submit 1, Op.forward 1,
        Op.approve 1, Op.estimate 1, Op.bill 1, Op.counting 1,
        Op.packing 1]).stocks.map (fun b =>
          dispatchTransfer b (allocAmtFor (orderAllocs
            ⟨1, 1, 2, 3, 4, none, OrderStatus.packing, 1,
              [⟨2, 7, 5, 5, 0, [⟨0, 5⟩]⟩], some 3, some 4, some 5, some 6,
              some 7, none, none⟩) b.id)) ∧
      ∃ o', orderById s' 1 = some o' ∧
        o'.status = OrderStatus.dispatched ∧
        o'.dispatchedAt = some (execTrace [Op.addStock 1 7 10,
          Op.createOrder 1 2 3 4 [⟨7, 5⟩], Op.submit 1, Op.forward 1,
          Op.approve 1, Op.estimate 1, Op.bill 1, Op.counting 1,
          Op.packing 1]).tick :=
  (dispatch_deliver_arithmetic (execTrace [Op.addStock 1 7 10,
      Op.createOrder 1 2 3 4 [⟨7, 5⟩], Op.submit 1, Op.forward 1,
      Op.approve 1, Op.estimate 1, Op.bill 1, Op.counting 1,
      Op.packing 1]) 1
    ⟨1, 1, 2, 3, 4, none, OrderStatus.packing, 1,
      [⟨2, 7, 5, 5, 0, [⟨0, 5⟩]⟩], some 3, some 4, some 5, some 6,
      some 7, none, none⟩
    (inv_execTrace [Op.addStock 1 7 10,
      Op.createOrder 1 2 3 4 [⟨7, 5⟩], Op.submit 1, Op.forward 1,
      Op.approve 1, Op.estimate 1, Op.bill 1, Op.counting 1,
      Op.packing 1]) (by decide)).1 rfl

/-- Claim C7: every transition fails with NOT_FOUND on a missing order id
and with INVALID_STATUS when the order's status is outside the transition's
required sources (`requiredSources`, the guard table; cancel alone accepts
two), committing nothing in either failure case; no transition succeeds on
a DELIVERED or CANCELLED order; and after a success the order carries the
target status, so repeating the same transition fails with
INVALID_STATUS. -/
theorem transition_guard_table (t : TKind) (oid : Nat) (s : DbState) :
    (orderById s oid = none →
      applyTransition t oid s = .error .notFound ∧
      runOp s (opOfTransition t oid) = s) ∧
    (∀ o, orderById s oid = some o → o.status ∉ requiredSources t →
      applyTransition t oid s = .error .invalidStatus ∧
      runOp s (opOfTransition t oid) = s) ∧
    (∀ o, orderById s oid = some o →
      o.status = OrderStatus.delivered ∨ o.status = OrderStatus.cancelled →
      applyTransition t oid s = .error .invalidStatus) ∧
    (∀ s', applyTransition t oid s = .ok s' →
      ∃ o', orderById s' oid = some o' ∧ o'.status = targetStatus t ∧
        applyTransition t oid s' = .error .invalidStatus) := by
  have hrun : runOp s (opOfTransition t oid) =
      match applyOp (opOfTransition t oid) s with
      | .ok s₂ => s₂
      | .error _ => s := rfl
  refine ⟨?_, ?_, ?_, ?_⟩
  · intro hfind
    have herr := transition_notFound (t := t) hfind
    refine ⟨herr, ?_⟩
    rw [hrun, applyOp_opOfTransition, herr]
  · intro o hfind hns
    have herr := transition_not_source hfind hns
    refine ⟨herr, ?_⟩
    rw [hrun, applyOp_opOfTransition, herr]
  · intro o hfind hdc
    refine transition_not_source hfind ?_
    rcases hdc with he | he <;> rw [he] <;> cases t <;> decide
  · intro s' h
    obtain ⟨o', hfind', hstat⟩ := transition_success_status h
    refine ⟨o', hfind', hstat, ?_⟩
    refine transition_not_source hfind' ?_
    rw [hstat]
    cases t <;> decide

theorem transition_guard_table_witness :
    applyTransition TKind.forward 0 (execTrace [Op.createOrder 1 2 3 4 []])
      = .error Err.invalidStatus ∧
    runOp (execTrace [Op.createOrder 1 2 3 4 []])
      (opOfTransition TKind.forward 0) =
      execTrace [Op.createOrder 1 2 3 4 []] ∧
    applyTransition TKind.forward 5 (execTrace [Op.createOrder 1 2 3 4 []])
      = .error Err.notFound := by
  obtain ⟨-, h2, -, -⟩ := transition_guard_table TKind.forward 0
    (execTrace [Op.createOrder 1 2 3 4 []])
  obtain ⟨h3, -, -, -⟩ := transition_guard_table TKind.forward 5
    (execTrace [Op.createOrder 1 2 3 4 []])
  have ha := h2 ⟨0, 1, 2, 3, 4, none, OrderStatus.placed, 0, [], none, none,
    none, none, none, none, none⟩ (by decide) (by decide)
  exact ⟨ha.1, ha.2, (h3 (by decide)).1⟩

/-- Counterexample to claim C1 as stated: the session has
`autoflush = False` and `bill_order` flushes nothing inside its item loop,
so the second item of a same-product order is filtered against the
transition-start snapshot — the batch the first item drained is still
walked, `allocate = min(0, needed) = 0`, and the code records the
allocation row unconditionally.  The committed state after billing a
two-item order holds a row with `boxes_allocated = 0` referencing the
drained batch, refuting "none with boxes_allocated = 0". -/
theorem bill_zero_alloc_cex :
    ∃ o ∈ (execTrace [Op.addStock 1 7 5, Op.addStock 1 7 10,
        Op.createOrder 1 2 3 4 [⟨7, 5⟩, ⟨7, 5⟩], Op.submit 2, Op.forward 2,
        Op.approve 2, Op.estimate 2, Op.bill 2]).orders,
      o.status = OrderStatus.billed ∧
      ∃ i ∈ o.items, ∃ a ∈ i.allocations,
        a.boxesAllocated = 0 ∧ a.stockId = 0 := by
  decide

/-- Claim C1 (amended): on an ESTIMATED order the bill transition walks,
for each item, the batches selected by the transition-start snapshot
filter; on success every committed allocation row is non-negative and
references an existing batch, each item records at most one row per batch,
and each batch moves exactly its newly allocated total from available to
reserved.  For one item's walk over duplicate-free, `created_at`-sorted
pairs whose snapshot-positive batches are live-non-negative and a positive
need: every row references a selected batch within its live availability,
a zero row arises exactly from a batch already drained by an earlier item,
rows have pairwise distinct batch ids, the walk allocates
`min needed (live availability of the selected batches)` in total leaving
`max (needed - that) 0` outstanding, and when the oldest selected batch
alone covers the need only that batch is drawn, by a single row. -/
theorem bill_fifo_walk (s : DbState) (oid : Nat) (o : Order)
    (hInv : Inv s)
    (hfind : orderById s oid = some o)
    (hst : o.status = OrderStatus.estimated) :
    (∀ s', billOrder oid s = .ok s' →
      ∃ o', orderById s' oid = some o' ∧
        o'.status = OrderStatus.billed ∧
        List.Forall₂ (fun i i' =>
          ∃ new, i'.allocations = i.allocations ++ new ∧
            (new.map OrderItemAllocation.stockId).Nodup ∧
            ∀ al ∈ new, 0 ≤ al.boxesAllocated ∧
              al.stockId ∈ s.stocks.map Stock.id) o.items o'.items ∧
        List.Forall₂ (fun b b' =>
          b' = reserveTransfer b
            (itemsAllocAmt o'.items b.id - itemsAllocAmt o.items b.id))
          s.stocks s'.stocks) ∧
    (∀ (t p : Nat) (n : Boxes) (l : List (Stock × Boxes)),
      (l.map (fun pr => pr.1.id)).Nodup →
      l.Pairwise (fun x y => x.1.createdAt < y.1.createdAt) →
      (∀ pr ∈ l, 0 < pr.2 → 0 ≤ pr.1.boxesAvailable) →
      0 < n →
      (∀ al ∈ (billWalk t p n l).2.1,
        ∃ pr ∈ l, pr.1.id = al.stockId ∧ isCandidateSnap t p pr = true ∧
          0 ≤ al.boxesAllocated ∧
          al.boxesAllocated ≤ pr.1.boxesAvailable ∧
          (al.boxesAllocated = 0 → pr.1.boxesAvailable = 0)) ∧
      ((((billWalk t p n l).2.1).map OrderItemAllocation.stockId).Nodup) ∧
      (List.Forall₂ (fun pr pr' =>
          pr' = (reserveTransfer pr.1
            (allocAmtFor (billWalk t p n l).2.1 pr.1.id), pr.2))
        l (billWalk t p n l).1) ∧
      ((((billWalk t p n l).2.1).map
          OrderItemAllocation.boxesAllocated).sum =
        min n (pairsAvailable t p l)) ∧
      ((billWalk t p n l).2.2 = max (n - pairsAvailable t p l) 0) ∧
      (∀ pr₀ ∈ l, isCandidateSnap t p pr₀ = true →
        (∀ c ∈ l, isCandidateSnap t p c = true →
          pr₀.1.createdAt ≤ c.1.createdAt) →
        n ≤ pr₀.1.boxesAvailable →
        ∃ l₁ l₂, l = l₁ ++ pr₀ :: l₂ ∧
          billWalk t p n l =
            (l₁ ++ (reserveTransfer pr₀.1 n, pr₀.2) :: l₂,
             [⟨pr₀.1.id, n⟩], 0))) := by
  constructor
  · intro s' hok
    obtain ⟨hsn, -, -, -, -, -, -, -, -, -, -, -⟩ := hInv
    have hred := billOrder_eq s oid o hfind hst
    rw [hred] at hok
    cases hbi : billItems o.tenantId
        (s.stocks.map (fun b => (b, b.boxesAvailable))) o.items with
    | error e => rw [hbi] at hok; cases hok
    | ok pr =>
      obtain ⟨pairs₁, items₁⟩ := pr
      rw [hbi] at hok
      cases hok
      obtain ⟨hitems, hstocks⟩ := billItems_ok_stocks o.tenantId o.items
        s.stocks pairs₁ items₁ hsn hbi
      refine ⟨{ o with
          status := OrderStatus.billed,
          billedAt := some s.tick,
          items := items₁ }, ?_, rfl, ?_, ?_⟩
      · exact find?_map_update hfind
          (fun p =>
            { p with
                status := OrderStatus.billed,
                billedAt := some s.tick,
                items := items₁ }) (fun p => rfl)
      · exact hitems.imp (fun {i i'} hi => hi.2.2.2.2.2)
      · exact hstocks.imp (fun {b b'} hb => hb.1)
  · intro t p n l hnd hsort hsi hn
    have hsum := billWalk_sum_allocs t p l n
    have hrem := billWalk_rem t p l hsi n (le_of_lt hn)
    have hpa := pairsAvailable_nonneg t p hsi
    have hmin : n - max (n - pairsAvailable t p l) 0 =
        min n (pairsAvailable t p l) := by
      rcases le_total n (pairsAvailable t p l) with hle | hle
      · rw [max_eq_right (by linarith), min_eq_left hle, sub_zero]
      · rw [max_eq_left (by linarith), min_eq_right hle]
        ring
    refine ⟨?_, billWalk_allocs_nodup t p l hnd n,
      billWalk_delta t p l hnd n, ?_, hrem, ?_⟩
    · intro al hal
      obtain ⟨pr, hm, hid, hcand, hbound, havimp, hzero⟩ :=
        billWalk_allocs_spec t p l n al hal
      have hc2 : 0 < pr.2 := by
        simp only [isCandidateSnap, Bool.and_eq_true, beq_iff_eq,
          decide_eq_true_eq] at hcand
        exact hcand.1.2
      have hav : 0 ≤ pr.1.boxesAvailable := hsi pr hm hc2
      refine ⟨pr, hm, hid, hcand, havimp hav, hbound, ?_⟩
      intro h0
      exact le_antisymm (hzero h0) hav
    · rw [hsum, hrem]
      exact hmin
    · intro pr₀ hm₀ hcand hmin₀ hcov
      obtain ⟨b₀, sa₀⟩ := pr₀
      obtain ⟨l₁, l₂, hl, hl₁⟩ :=
        sorted_min_candidate_decomp t p l hsort (b₀, sa₀) hm₀ hcand hmin₀
      refine ⟨l₁, l₂, hl, ?_⟩
      rw [hl]
      exact billWalk_first_covers t p hn l₁ hl₁ hcand hcov

theorem bill_fifo_walk_witness :
    ∃ o', orderById (execTrace [Op.addStock 1 7 5, Op.addStock 1 7 10,
        Op.createOrder 1 2 3 4 [⟨7, 5⟩, ⟨7, 5⟩], Op.submit 2, Op.forward 2,
        Op.approve 2, Op.estimate 2, Op.bill 2]) 2 = some o' ∧
      o'.status = OrderStatus.billed := by
  obtain ⟨hA, -⟩ := bill_fifo_walk (execTrace [Op.addStock 1 7 5,
      Op.addStock 1 7 10, Op.createOrder 1 2 3 4 [⟨7, 5⟩, ⟨7, 5⟩],
      Op.submit 2, Op.forward 2, Op.approve 2, Op.estimate 2]) 2
    ⟨2, 1, 2, 3, 4, none, OrderStatus.estimated, 2,
      [⟨3, 7, 5, 5, 0, []⟩, ⟨4, 7, 5, 5, 0, []⟩],
      some 5, some 6, some 7, some 8, none, none, none⟩
    (inv_execTrace [Op.addStock 1 7 5,
      Op.addStock 1 7 10, Op.createOrder 1 2 3 4 [⟨7, 5⟩, ⟨7, 5⟩],
      Op.submit 2, Op.forward 2, Op.approve 2, Op.estimate 2])
    (by decide) rfl
  obtain ⟨o', h1, h2, -, -⟩ := hA (execTrace [Op.addStock 1 7 5,
      Op.addStock 1 7 10, Op.createOrder 1 2 3 4 [⟨7, 5⟩, ⟨7, 5⟩],
      Op.submit 2, Op.forward 2, Op.approve 2, Op.estimate 2, Op.bill 2])
    rfl
  exact ⟨o', h1, h2⟩

end Pavos
